import Mathlib

/-!
# go-resellerclub: the query codec

A shallow embedding of the outbound encoders (`core.Criteria.URLValues`,
`customer.CustomerCriteria.UrlValues`, `customer.SignUpForm.UrlValues`,
`domain.OrderCriteria.URLValues`), of the password rule, of the inbound scalar
decoders (`JSONBool`, `JSONTime`), of the dispatcher `core.CallAPI` and of the endpoint
methods of `pricing` and `general`, with the properties of the specification proved
about them.

Go strings and byte slices are modelled by `String` (their text); `len` is the
UTF-8 byte length.  `int64`/`uint64` arithmetic is modelled on `Int`/`Nat` with
explicit wrap-around.
-/

namespace ResellerClub

/-! ## Go strings -/

/-- Go `strings.HasSuffix(s, suffix)`. -/
def hasSuffix (s suffix : String) : Bool :=
  suffix.toList.isSuffixOf s.toList

/-- Go `strings.TrimSuffix(s, suffix)`: `s` without the trailing `suffix`, or `s`
unchanged when it does not end in `suffix`. -/
def trimSuffix (s suffix : String) : String :=
  if hasSuffix s suffix then String.mk (s.toList.take (s.toList.length - suffix.toList.length))
  else s

/-- Go `strings.Trim(s, "\"")` on the characters of `s`: every leading and every
trailing double quote is removed. -/
def trimQuotes (cs : List Char) : List Char :=
  (cs.dropWhile (fun c => c == '"')).rdropWhile (fun c => c == '"')

/-! ## The wire multi-map (`url.Values`) -/

/-- Go `url.Values`, a `map[string][]string`: each key present once, with its values
in the order they were added. -/
abbrev Values := List (String × List String)

/-- The empty map `url.Values{}`. -/
def Values.empty : Values := []

/-- Go `Values.Add(key, value)`: `v[key] = append(v[key], value)`. -/
def Values.Add : Values → String → String → Values
  | [], k, v => [(k, [v])]
  | (k', vs) :: rest, k, v =>
    if k' = k then (k', vs ++ [v]) :: rest else (k', vs) :: Values.Add rest k v

/-- Go `v[key]`: the values under `key`, empty when the key is absent. -/
def Values.values : Values → String → List String
  | [], _ => []
  | (k', vs) :: rest, k => if k' = k then vs else Values.values rest k

/-- Go `v.Has(key)`: whether the key is present. -/
def Values.Has (m : Values) (k : String) : Bool :=
  m.any (fun e => e.1 == k)

/-- One `urlValues.Add(key, value)` performed under the lock. -/
abbrev Pair := String × String

/-- The map that results from performing the `Add`s of a trace, in order, on the
empty map. -/
def Values.ofTrace (tr : List Pair) : Values :=
  tr.foldl (fun m p => m.Add p.1 p.2) Values.empty

/-! ## Goroutines

The encoders start one goroutine per field (and some start one per element); every
goroutine only performs `Add`s on the shared map, each under the one mutex.  What a
call does is therefore a tree of sequential and parallel compositions of `Add`s, and
a run of it is an interleaving. -/

/-- The work of a piece of encoder code. -/
inductive Work where
  | skip : Work
  | add (key value : String) : Work
  | seq (a b : Work) : Work
  | par (a b : Work) : Work
  deriving Repr

/-- Sequential composition of a list of pieces (a `for` loop). -/
def Work.seqAll : List Work → Work
  | [] => Work.skip
  | w :: ws => Work.seq w (Work.seqAll ws)

/-- A `for` loop that starts one goroutine per piece, followed by `wg.Wait()`. -/
def Work.parAll : List Work → Work
  | [] => Work.skip
  | w :: ws => Work.par w (Work.parAll ws)

/-- The interleavings of `x :: xs` with a second list, given those of `xs`. -/
def interleaveAux {α : Type} (x : α) (xs : List α) (rec : List α → List (List α)) :
    List α → List (List α)
  | [] => [x :: xs]
  | y :: ys => (rec (y :: ys)).map (fun t => x :: t) ++
      (interleaveAux x xs rec ys).map (fun t => y :: t)

/-- All interleavings of two sequences: each keeps its own order. -/
def interleavings {α : Type} : List α → List α → List (List α)
  | [] => fun ys => [ys]
  | x :: xs => interleaveAux x xs (interleavings xs)

/-- The `Add`s of a piece of work in program order (the schedule in which every
goroutine runs to completion as soon as it is started). -/
def Work.adds : Work → List Pair
  | Work.skip => []
  | Work.add k v => [(k, v)]
  | Work.seq a b => a.adds ++ b.adds
  | Work.par a b => a.adds ++ b.adds

/-- Every order in which the `Add`s of a piece of work can reach the map. -/
def Work.traces : Work → List (List Pair)
  | Work.skip => [[]]
  | Work.add k v => [[(k, v)]]
  | Work.seq a b => a.traces.flatMap (fun ta => b.traces.map (fun tb => ta ++ tb))
  | Work.par a b => a.traces.flatMap (fun ta => b.traces.flatMap (fun tb => interleavings ta tb))

/-! ## Errors -/

deriving instance DecidableEq for Except

/-- One entry of the validator's `ValidationErrors`: the struct field and the rule
(tag) it failed. -/
structure FieldError where
  field : String
  tag : String
  deriving DecidableEq, Repr

/-- A non-nil Go `error`. -/
inductive Error where
  /-- the validator's `ValidationErrors` -/
  | validation (errs : List FieldError) : Error
  /-- a `*strconv.NumError` wrapping `strconv.ErrSyntax` -/
  | numSyntax (fn input : String) : Error
  /-- a `*strconv.NumError` wrapping `strconv.ErrRange` -/
  | numRange (fn input : String) : Error
  /-- an error made on the spot by `errors.New(msg)`, or any other error, by its
  text -/
  | other (msg : String) : Error
  /-- a package-level error variable (`var ErrX = errors.New(text)`), which is equal
  only to itself -/
  | sentinel (text : String) : Error
  /-- the error of `fmt.Errorf(msg + ": %w", cause)`, with the text of its cause -/
  | wrapped (msg cause : String) : Error
  /-- a `*url.Error`, the only kind of error `(*http.Client).Do` returns, by its
  text -/
  | urlError (text : String) : Error
  deriving DecidableEq, Repr

/-! ## Integers and their decimal text (`strconv`) -/

/-- The value of an integer as an `int64` (two's complement wrap-around). -/
def toInt64 (x : Int) : Int := (x + 2 ^ 63) % 2 ^ 64 - 2 ^ 63

/-- The decimal digit `d` as a character, `byte('0' + d)`. -/
def digitChar (d : Nat) : Char := Char.ofNat (48 + d)

/-- Whether a character is one of `'0'..'9'`. -/
def isDigit (c : Char) : Bool := decide (48 ≤ c.toNat) && decide (c.toNat ≤ 57)

/-- The value `c - '0'` of a digit character. -/
def digitVal (c : Char) : Nat := c.toNat - 48

/-- Base-10 text of an unsigned integer, as `strconv.FormatUint(u, 10)` produces it:
most significant digit first, no leading zero, `"0"` for zero. -/
def formatUintFuel : Nat → Nat → List Char
  | 0, u => [digitChar (u % 10)]
  | fuel + 1, u =>
    if u < 10 then [digitChar u] else formatUintFuel fuel (u / 10) ++ [digitChar (u % 10)]

/-- Go `strconv.FormatUint(u, 10)`; the digit loop runs at most `u` times. -/
def formatUint (u : Nat) : List Char := formatUintFuel u u

/-- Go `strconv.FormatInt(i, 10)`, which is also what `fmt.Sprintf("%d", i)` prints
for an `int64`: a minus sign for a negative value, then the digits of its magnitude. -/
def formatInt (i : Int) : String :=
  if i < 0 then String.mk ('-' :: formatUint i.natAbs) else String.mk (formatUint i.natAbs)

/-- How a `strconv` parse fails. -/
inductive NumErr where
  | errSyntax : NumErr
  | errRange : NumErr
  deriving DecidableEq, Repr

/-- The digit loop of `strconv.ParseUint(s, 10, 64)`, with `n` the value read so
far: a character that is not a digit is a syntax error; a value that leaves the 64
bits is a range error (`n >= cutoff`, or `n*10 + d` wraps or exceeds `maxVal`). -/
def parseUintLoop (n : Nat) : List Char → Except NumErr Nat
  | [] => Except.ok n
  | c :: cs =>
    if !isDigit c then Except.error NumErr.errSyntax
    else if n ≥ (2 ^ 64 - 1) / 10 + 1 then Except.error NumErr.errRange
    else
      let n10 := n * 10 % 2 ^ 64
      let n1 := (n10 + digitVal c) % 2 ^ 64
      if n1 < n10 ∨ n1 > 2 ^ 64 - 1 then Except.error NumErr.errRange
      else parseUintLoop n1 cs

/-- Go `strconv.ParseUint(s, 10, 64)`. -/
def parseUint (s : List Char) : Except NumErr Nat :=
  if s = [] then Except.error NumErr.errSyntax else parseUintLoop 0 s

/-- The range check and sign application at the end of `strconv.ParseInt(_, 10, 64)`
on the magnitude `un`. -/
def parseIntRange (neg : Bool) (un : Nat) : Except NumErr Int :=
  if !neg && decide (un ≥ 2 ^ 63) then Except.error NumErr.errRange
  else if neg && decide (un > 2 ^ 63) then Except.error NumErr.errRange
  else
    let n := toInt64 un
    Except.ok (if neg then toInt64 (-n) else n)

/-- What `strconv.ParseInt` does with the result of `ParseUint`: a syntax error is
returned as it is; on a range error the magnitude is the largest `uint64` and the
range check follows, as it does on success. -/
def parseIntFinish (neg : Bool) : Except NumErr Nat → Except NumErr Int
  | Except.error NumErr.errSyntax => Except.error NumErr.errSyntax
  | Except.error NumErr.errRange => parseIntRange neg (2 ^ 64 - 1)
  | Except.ok un => parseIntRange neg un

/-- Go `strconv.ParseInt(s, 10, 64)`: an optional sign `+` or `-`, then
`ParseUint` on the rest and the range check of the signed value. -/
def parseInt (s : List Char) : Except NumErr Int :=
  match s with
  | [] => Except.error NumErr.errSyntax
  | c :: cs => parseIntFinish (c == '-') (parseUint (if c == '+' || c == '-' then cs else c :: cs))

/-- Go `strconv.ParseBool(str)`. -/
def parseBool (s : String) : Except NumErr Bool :=
  if s = "1" ∨ s = "t" ∨ s = "T" ∨ s = "TRUE" ∨ s = "true" ∨ s = "True" then Except.ok true
  else if s = "0" ∨ s = "f" ∨ s = "F" ∨ s = "FALSE" ∨ s = "false" ∨ s = "False" then
    Except.ok false
  else Except.error NumErr.errSyntax

/-- The boolean literals: the texts that denote `true` and those that denote
`false`. -/
def boolLiterals : List String :=
  ["1", "t", "T", "TRUE", "true", "True", "0", "f", "F", "FALSE", "false", "False"]

/-- The Go error for a failed `strconv` parse of `input` by the function `fn`. -/
def NumErr.toError (fn input : String) : NumErr → Error
  | NumErr.errSyntax => Error.numSyntax fn input
  | NumErr.errRange => Error.numRange fn input

/-- The value of a digit string read in base 10, most significant digit first. -/
def decimalValue (ds : List Char) : Nat :=
  ds.foldl (fun a c => a * 10 + digitVal c) 0

/-- The text `s` is a base-10 integer denoting `v`: an optional sign `+` or `-`
followed by at least one decimal digit. -/
def IsDecimalInt (s : List Char) (v : Int) : Prop :=
  ∃ sign ds : List Char, s = sign ++ ds ∧ (sign = [] ∨ sign = ['+'] ∨ sign = ['-']) ∧
    ds ≠ [] ∧ (∀ c ∈ ds, isDigit c = true) ∧
    v = if sign = ['-'] then -(decimalValue ds : Int) else (decimalValue ds : Int)

/-! ## Points in time (`time.Time`) -/

/-- Go `time.Time`: the `wall` and `ext` words and the location pointer (`none` is
the nil pointer, which stands for UTC). -/
structure Time where
  wall : Nat
  ext : Int
  loc : Option String
  deriving DecidableEq, Repr

/-- Seconds from year 1 to the Unix epoch (`unixToInternal`). -/
def unixToInternal : Int := (1969 * 365 + 1969 / 4 - 1969 / 100 + 1969 / 400) * 86400

/-- Seconds from year 1 to 1885 (`wallToInternal`). -/
def wallToInternal : Int := (1884 * 365 + 1884 / 4 - 1884 / 100 + 1884 / 400) * 86400

/-- Go `(*Time).sec`: seconds since year 1, read from `wall` when the monotonic bit
(bit 63) is set and from `ext` otherwise. -/
def Time.sec (t : Time) : Int :=
  if t.wall % 2 ^ 64 ≥ 2 ^ 63 then wallToInternal + ((t.wall * 2 % 2 ^ 64 / 2 ^ 31 : Nat) : Int)
  else t.ext

/-- Go `Time.Unix()`: seconds since the Unix epoch, an `int64`. -/
def Time.Unix (t : Time) : Int := toInt64 (t.sec - unixToInternal)

/-- Go `time.Unix(sec, 0)`: the instant `sec` seconds after the epoch, in the local
location. -/
def Time.ofUnix (sec : Int) : Time :=
  { wall := 0, ext := toInt64 (sec + unixToInternal), loc := some "Local" }

/-- The zero value `time.Time{}`. -/
def Time.zero : Time := { wall := 0, ext := 0, loc := none }

/-! ## 64-bit floats -/

/-- A `float64` by its value: a finite number `(-1)^neg * mant * 2^exp`, an
infinity, or NaN. -/
inductive F64 where
  | finite (neg : Bool) (mant : Nat) (exp : Int) : F64
  | inf (neg : Bool) : F64
  | nan : F64
  deriving DecidableEq, Repr

/-- Whether the float compares equal to zero (`v.Float() == 0`). -/
def F64.isZero : F64 → Bool
  | F64.finite _ m _ => m == 0
  | _ => false

/-- The magnitude `mant * 2^exp` in hundredths, rounded to the nearest integer, ties
to even: the digits `%.2f` prints. -/
def roundHundredths (mant : Nat) (exp : Int) : Nat :=
  match exp with
  | Int.ofNat e => mant * 2 ^ e * 100
  | Int.negSucc k =>
    let den := 2 ^ (k + 1)
    let q := mant * 100 / den
    let r := mant * 100 % den
    if 2 * r > den ∨ (2 * r = den ∧ q % 2 = 1) then q + 1 else q

/-- Go `fmt.Sprintf("%.2f", f)`. -/
def fmt2f : F64 → String
  | F64.nan => "NaN"
  | F64.inf false => "+Inf"
  | F64.inf true => "-Inf"
  | F64.finite neg m e =>
    let h := roundHundredths m e
    String.mk ((if neg then ['-'] else []) ++ formatUint (h / 100) ++
      ['.', digitChar (h % 100 / 10), digitChar (h % 10)])

/-! ## Field values as reflection sees them -/

/-- Modelled from the spec: `domain.SortBy`, the sortable-field identifier of an
ordering specification, a string type (the encoder converts it with `string(key)`);
its declaration is not among the sources. -/
abbrev SortBy := String

/-- Modelled from the spec: `domain.SortOrder`, "a mapping from a sortable-field
identifier to a boolean descending flag" (`map[SortBy]bool`); its declaration is not
among the sources.  The entries of the map are listed in some order; in a Go map the
keys are pairwise distinct. -/
abbrev SortOrder := List (SortBy × Bool)

/-- The value of a struct field: its `reflect.Kind` and content. -/
inductive Value where
  /-- Kind `reflect.String` -/
  | string (s : String) : Value
  /-- Kind `reflect.Bool` -/
  | bool (b : Bool) : Value
  /-- Kind `reflect.Float32`, `reflect.Float64` -/
  | float (f : F64) : Value
  /-- Kind `reflect.Uint8`, `reflect.Uint16` -/
  | uint (n : Nat) : Value
  /-- Kind `reflect.Struct`, of type `time.Time` -/
  | time (t : Time) : Value
  /-- Kind `reflect.Struct` of another type, with whether all its fields are zero -/
  | struct (zero : Bool) : Value
  /-- Kind `reflect.Slice` whose elements have kind `reflect.String` -/
  | strings (xs : List String) : Value
  /-- Kind `reflect.Slice` whose elements are `SortOrder` maps -/
  | sortOrders (xs : List SortOrder) : Value
  deriving DecidableEq, Repr

/-- Go `reflect.Value.IsZero()`.  A slice is zero when it is nil; a nil and an empty
slice are both the empty list here, and both yield no pair. -/
def Value.IsZero : Value → Bool
  | Value.string s => s == ""
  | Value.bool b => !b
  | Value.float f => f.isZero
  | Value.uint n => n == 0
  | Value.time t => t == Time.zero
  | Value.struct zero => zero
  | Value.strings xs => xs.isEmpty
  | Value.sortOrders xs => xs.isEmpty

/-- The rules of a `validate` tag. -/
inductive Rule where
  | required : Rule
  | omitempty : Rule
  | email : Rule
  | min (n : Nat) : Rule
  | max (n : Nat) : Rule
  | len (n : Nat) : Rule
  | number : Rule
  | iso3166_1_alpha2 : Rule
  | rcpassword : Rule
  /-- the tag `-`: the field is not validated -/
  | ignore : Rule
  deriving DecidableEq, Repr

/-- A struct field as `reflect` presents it: its name, its `validate` tag (as the
list of its rules), its `query` tag and its value. -/
structure Field where
  name : String
  rules : List Rule
  query : String
  value : Value
  deriving Repr

/-- The wire key of a field: `strings.TrimSuffix(fieldTag, ",omitempty")`. -/
def queryField (fieldTag : String) : String := trimSuffix fieldTag ",omitempty"

/-- Whether a `query` tag is marked omit-on-empty:
`strings.HasSuffix(fieldTag, "omitempty")`. -/
def omitEmpty (fieldTag : String) : Bool := hasSuffix fieldTag "omitempty"

/-! ## The password rule -/

/-- A regular expression that is a single character class, given by its ranges. -/
structure CharClass where
  ranges : List (Char × Char)

/-- Go `(*Regexp).MatchString` for a one-class expression: some character of the
text lies in the class. -/
def CharClass.MatchString (cls : CharClass) (s : String) : Bool :=
  s.toList.any (fun c => cls.ranges.any (fun r => decide (r.1 ≤ c) && decide (c ≤ r.2)))

/-- The expression `[a-z]`. -/
def rgxAlphaLower : CharClass := ⟨[('a', 'z')]⟩

/-- The expression `[A-Z]`. -/
def rgxAlphaUpper : CharClass := ⟨[('A', 'Z')]⟩

/-- The expression `[\~\*\!\@\$\#\%\_\+\.\?\:\,\{\}]`. -/
def rgxSymbol : CharClass :=
  ⟨[('~', '~'), ('*', '*'), ('!', '!'), ('@', '@'), ('$', '$'), ('#', '#'), ('%', '%'),
    ('_', '_'), ('+', '+'), ('.', '.'), ('?', '?'), (':', ':'), (',', ','),
    ('\x7b', '\x7b'), ('\x7d', '\x7d')]⟩

/-- The function `customer.matchPasswordWithPattern`; `len(password)` is the byte
length. -/
def matchPasswordWithPattern (password : String) (withRangeOfLength : Bool) : Bool :=
  if withRangeOfLength && (decide (password.utf8ByteSize < 9) || decide (password.utf8ByteSize > 16))
  then false
  else rgxAlphaLower.MatchString password && rgxAlphaUpper.MatchString password &&
    rgxSymbol.MatchString password

/-- The function `customer.validatePassword` on the string of the field. -/
def validatePassword (field : String) : Bool := matchPasswordWithPattern field false

/-! ## The validation engine

`github.com/go-playground/validator/v10` is an external library.  The encoders take
it as a parameter; `structErrors` below is its behaviour on the rules that occur in
the tags of this repository. -/

/-- The validation engine as one call of an encoder uses it: the result of
`RegisterValidation(tag, fn)` and the result of `Struct(value)`. -/
structure Validator (α : Type) where
  RegisterValidation : String → (String → Bool) → Option Error
  Struct : α → Option Error

/-- The rules whose definition lies in the library's own tables: the e-mail
expression and the ISO 3166-1 alpha-2 country list. -/
structure LibraryRules where
  email : String → Bool
  iso3166_1_alpha2 : String → Bool

/-- The name of a rule as it is written in a tag and reported in an error. -/
def Rule.tagName : Rule → String
  | Rule.required => "required"
  | Rule.omitempty => "omitempty"
  | Rule.email => "email"
  | Rule.min _ => "min"
  | Rule.max _ => "max"
  | Rule.len _ => "len"
  | Rule.number => "number"
  | Rule.iso3166_1_alpha2 => "iso3166_1_alpha2"
  | Rule.rcpassword => "rcpassword"
  | Rule.ignore => "-"

/-- Whether a value satisfies one rule.  Lengths of strings are counted in
characters; `number` is the expression `^[0-9]+$`; `rcpassword` is the registered
`validatePassword`.  The string rules are given on strings, the only kind on which
the tags of this repository use them. -/
def Rule.holds (lib : LibraryRules) : Rule → Value → Bool
  | Rule.required, v => !v.IsZero
  | Rule.omitempty, _ => true
  | Rule.ignore, _ => true
  | Rule.email, Value.string s => lib.email s
  | Rule.iso3166_1_alpha2, Value.string s => lib.iso3166_1_alpha2 s
  | Rule.min n, Value.string s => decide (n ≤ s.length)
  | Rule.max n, Value.string s => decide (s.length ≤ n)
  | Rule.len n, Value.string s => decide (s.length = n)
  | Rule.number, Value.string s => !s.toList.isEmpty && s.toList.all isDigit
  | Rule.rcpassword, Value.string s => validatePassword s
  | _, _ => false

/-- The first rule of a tag that the value fails, if any: `-` ends the checks,
`omitempty` ends them when the value is zero, and the checks stop at the first
failure. -/
def failingRule (lib : LibraryRules) : List Rule → Value → Option Rule
  | [], _ => none
  | Rule.ignore :: _, _ => none
  | Rule.omitempty :: rest, v => if v.IsZero then none else failingRule lib rest v
  | r :: rest, v => if r.holds lib v then failingRule lib rest v else some r

/-- The field errors of a list of fields: one entry per failing field, in field
order. -/
def fieldErrors (lib : LibraryRules) (fields : List Field) : List FieldError :=
  fields.filterMap (fun f => (failingRule lib f.rules f.value).map (fun r => ⟨f.name, r.tagName⟩))

/-- The result of `Struct`: nil when no field fails, the `ValidationErrors`
otherwise. -/
def structErrors (lib : LibraryRules) (fields : List Field) : Option Error :=
  match fieldErrors lib fields with
  | [] => none
  | errs => some (Error.validation errs)

/-! ## `core.Criteria` -/

/-- The record `core.Criteria`. -/
structure Criteria where
  ResellerIDs : List String
  CustomerIDs : List String
  TimeCreationStart : Time
  TimeCreationEnd : Time
  deriving DecidableEq, Repr

/-- The fields of `core.Criteria` with their tags, in declaration order. -/
def Criteria.fields (c : Criteria) : List Field :=
  [ ⟨"ResellerIDs", [Rule.omitempty], "reseller-id,omitempty", Value.strings c.ResellerIDs⟩,
    ⟨"CustomerIDs", [Rule.omitempty], "customer-id,omitempty", Value.strings c.CustomerIDs⟩,
    ⟨"TimeCreationStart", [Rule.omitempty], "creation-date-start,omitempty",
      Value.time c.TimeCreationStart⟩,
    ⟨"TimeCreationEnd", [Rule.omitempty], "creation-date-end,omitempty",
      Value.time c.TimeCreationEnd⟩ ]

/-- The body of the goroutine that `Criteria.URLValues` starts for one field: the
elements of a slice are added by one goroutine each. -/
def Criteria.fieldWork (f : Field) : Work :=
  if f.query ≠ "" then
    if omitEmpty f.query && f.value.IsZero then Work.skip
    else
      match f.value with
      | Value.time t => Work.add (queryField f.query) (formatInt t.Unix)
      | Value.strings xs => Work.parAll (xs.map (fun x => Work.add (queryField f.query) x))
      | Value.string s => Work.add (queryField f.query) s
      | _ => Work.skip
  else Work.skip

/-- The loop of `core.Criteria.URLValues` over the fields: one goroutine per field,
then `wg.Wait()`. -/
def Criteria.work (c : Criteria) : Work :=
  Work.parAll (c.fields.map Criteria.fieldWork)

/-- The method `core.Criteria.URLValues`: every result the call can return, one per schedule
of its goroutines. -/
def Criteria.URLValues (V : Validator Criteria) (c : Criteria) : List (Values × Option Error) :=
  match V.Struct c with
  | some err => [(Values.empty, some err)]
  | none =>
    (Criteria.work c).traces.map
      (fun tr => (Values.ofTrace tr, none))

/-- Whether a `core.Criteria` is the zero value of its type. -/
def Criteria.IsZero (c : Criteria) : Bool :=
  c.fields.all (fun f => f.value.IsZero)

/-- The engine on `core.Criteria`. -/
def Criteria.validator (lib : LibraryRules) : Validator Criteria :=
  { RegisterValidation := fun _ _ => none
    Struct := fun c => structErrors lib c.fields }

/-! ## `customer.CustomerCriteria` -/

/-- The record `customer.CustomerCriteria`; `toCriteria` is the embedded `core.Criteria`. -/
structure CustomerCriteria where
  toCriteria : Criteria
  Username : String
  Name : String
  Company : String
  City : String
  State : String
  ReceiptLowest : F64
  ReceiptHighest : F64
  deriving DecidableEq, Repr

/-- The fields of `customer.CustomerCriteria` as `reflect` numbers them: the embedded
struct is one field, without tags. -/
def CustomerCriteria.fields (c : CustomerCriteria) : List Field :=
  [ ⟨"Criteria", [], "", Value.struct c.toCriteria.IsZero⟩,
    ⟨"Username", [Rule.omitempty], "username,omitempty", Value.string c.Username⟩,
    ⟨"Name", [Rule.omitempty], "name,omitempty", Value.string c.Name⟩,
    ⟨"Company", [Rule.omitempty], "company,omitempty", Value.string c.Company⟩,
    ⟨"City", [Rule.omitempty], "city,omitempty", Value.string c.City⟩,
    ⟨"State", [Rule.omitempty], "state,omitempty", Value.string c.State⟩,
    ⟨"ReceiptLowest", [Rule.omitempty], "total-receipt-start,omitempty",
      Value.float c.ReceiptLowest⟩,
    ⟨"ReceiptHighest", [Rule.omitempty], "total-receipt-end,omitempty",
      Value.float c.ReceiptHighest⟩ ]

/-- The body of the goroutine that `CustomerCriteria.UrlValues` starts for one
field: the elements of a slice are added in a plain loop. -/
def CustomerCriteria.fieldWork (f : Field) : Work :=
  if f.query.utf8ByteSize > 0 then
    if omitEmpty f.query && f.value.IsZero then Work.skip
    else
      match f.value with
      | Value.float x => Work.add (queryField f.query) (fmt2f x)
      | Value.uint n => Work.add (queryField f.query) (String.mk (formatUint n))
      | Value.string s => Work.add (queryField f.query) s
      | Value.time t => Work.add (queryField f.query) (formatInt t.Unix)
      | Value.strings xs => Work.seqAll (xs.map (fun x => Work.add (queryField f.query) x))
      | _ => Work.skip
  else Work.skip

/-- The loop of `customer.CustomerCriteria.UrlValues` over the fields: one goroutine per field,
then `wg.Wait()`. -/
def CustomerCriteria.work (c : CustomerCriteria) : Work :=
  Work.parAll (c.fields.map CustomerCriteria.fieldWork)

/-- The method `customer.CustomerCriteria.UrlValues`: every result the call can return. -/
def CustomerCriteria.UrlValues (V : Validator CustomerCriteria) (c : CustomerCriteria) :
    List (Values × Option Error) :=
  match V.Struct c with
  | some err => [(Values.empty, some err)]
  | none =>
    (CustomerCriteria.work c).traces.map
      (fun tr => (Values.ofTrace tr, none))

/-- The engine on `customer.CustomerCriteria`: it descends into the embedded
struct. -/
def CustomerCriteria.validator (lib : LibraryRules) : Validator CustomerCriteria :=
  { RegisterValidation := fun _ _ => none
    Struct := fun c => structErrors lib (c.toCriteria.fields ++ c.fields) }

/-! ## `customer.SignUpForm` -/

/-- The record `customer.SignUpForm`. -/
structure SignUpForm where
  Username : String
  Password : String
  Name : String
  Company : String
  Address : String
  AddressLine2 : String
  AddressLine3 : String
  City : String
  State : String
  OtherState : String
  Country : String
  Zipcode : String
  LanguageCode : String
  PhoneCountryCode : String
  Phone : String
  AltPhoneCountryCode : String
  AltPhone : String
  FaxCountryCode : String
  Fax : String
  MobileCountryCode : String
  Mobile : String
  VatID : String
  SmsConcent : Bool
  EmailMarketingConcent : Bool
  AcceptPolicy : Bool
  CustomerId : String
  deriving DecidableEq, Repr

/-- The fields of `customer.SignUpForm` with their tags, in declaration order. -/
def SignUpForm.fields (r : SignUpForm) : List Field :=
  [ ⟨"Username", [Rule.required, Rule.email], "username", Value.string r.Username⟩,
    ⟨"Password", [Rule.required, Rule.min 9, Rule.max 16, Rule.rcpassword], "passwd",
      Value.string r.Password⟩,
    ⟨"Name", [Rule.required], "name", Value.string r.Name⟩,
    ⟨"Company", [Rule.required], "company", Value.string r.Company⟩,
    ⟨"Address", [Rule.required], "address-line-1", Value.string r.Address⟩,
    ⟨"AddressLine2", [Rule.omitempty], "address-line-2,omitempty", Value.string r.AddressLine2⟩,
    ⟨"AddressLine3", [Rule.omitempty], "address-line-3,omitempty", Value.string r.AddressLine3⟩,
    ⟨"City", [Rule.required], "city", Value.string r.City⟩,
    ⟨"State", [Rule.required], "state", Value.string r.State⟩,
    ⟨"OtherState", [Rule.omitempty], "other-state,omitempty", Value.string r.OtherState⟩,
    ⟨"Country", [Rule.required, Rule.iso3166_1_alpha2], "country", Value.string r.Country⟩,
    ⟨"Zipcode", [Rule.required], "zipcode", Value.string r.Zipcode⟩,
    ⟨"LanguageCode", [Rule.required], "lang-pref", Value.string r.LanguageCode⟩,
    ⟨"PhoneCountryCode", [Rule.required, Rule.len 2], "phone-cc",
      Value.string r.PhoneCountryCode⟩,
    ⟨"Phone", [Rule.required, Rule.number], "phone", Value.string r.Phone⟩,
    ⟨"AltPhoneCountryCode", [Rule.omitempty, Rule.len 2], "alt-phone-cc,omitempty",
      Value.string r.AltPhoneCountryCode⟩,
    ⟨"AltPhone", [Rule.omitempty, Rule.number], "alt-phone,omitempty", Value.string r.AltPhone⟩,
    ⟨"FaxCountryCode", [Rule.omitempty, Rule.len 2], "fax-cc,omitempty",
      Value.string r.FaxCountryCode⟩,
    ⟨"Fax", [Rule.omitempty, Rule.number], "fax,omitempty", Value.string r.Fax⟩,
    ⟨"MobileCountryCode", [Rule.omitempty, Rule.len 2], "Mobile-cc,omitempty",
      Value.string r.MobileCountryCode⟩,
    ⟨"Mobile", [Rule.omitempty, Rule.number], "Mobile,omitempty", Value.string r.Mobile⟩,
    ⟨"VatID", [Rule.omitempty], "vat-id,omitempty", Value.string r.VatID⟩,
    ⟨"SmsConcent", [Rule.omitempty], "sms-consent,omitempty", Value.bool r.SmsConcent⟩,
    ⟨"EmailMarketingConcent", [Rule.omitempty], "email-marketing-consent,omitempty",
      Value.bool r.EmailMarketingConcent⟩,
    ⟨"AcceptPolicy", [Rule.omitempty], "accept-policy,omitempty", Value.bool r.AcceptPolicy⟩,
    ⟨"CustomerId", [Rule.ignore], "", Value.string r.CustomerId⟩ ]

/-- Go `fmt.Sprintf("%t", b)`. -/
def fmtBool (b : Bool) : String := if b then "true" else "false"

/-- The body of the goroutine that `SignUpForm.UrlValues` starts for one field. -/
def SignUpForm.fieldWork (f : Field) : Work :=
  if f.query.utf8ByteSize > 0 then
    if omitEmpty f.query && f.value.IsZero then Work.skip
    else
      match f.value with
      | Value.string s => Work.add (queryField f.query) s
      | Value.bool b => Work.add (queryField f.query) (fmtBool b)
      | _ => Work.skip
  else Work.skip

/-- The loop of `customer.SignUpForm.UrlValues` over the fields: one goroutine per field,
then `wg.Wait()`. -/
def SignUpForm.work (r : SignUpForm) : Work :=
  Work.parAll (r.fields.map SignUpForm.fieldWork)

/-- The method `customer.SignUpForm.UrlValues`: every result the call can return. -/
def SignUpForm.UrlValues (V : Validator SignUpForm) (r : SignUpForm) :
    List (Values × Option Error) :=
  match V.RegisterValidation "rcpassword" validatePassword with
  | some err => [(Values.empty, some err)]
  | none =>
    match V.Struct r with
    | some err => [(Values.empty, some err)]
    | none =>
      (SignUpForm.work r).traces.map
        (fun tr => (Values.ofTrace tr, none))

/-- The engine on `customer.SignUpForm`; registering a rule under a non-empty name
succeeds. -/
def SignUpForm.validator (lib : LibraryRules) : Validator SignUpForm :=
  { RegisterValidation := fun tag _ =>
      if tag = "" then some (Error.other "function Key cannot be empty") else none
    Struct := fun r => structErrors lib r.fields }

/-! ## `domain.OrderCriteria` -/

/-- The record `domain.OrderCriteria`; `toCriteria` is the embedded `core.Criteria`.  The types
`core.DomainKey` and `domain.PrivacyState` are declared outside the sources at hand:
`DomainKeys` is taken as a string sequence, as the specification has it, and
`PrivacyStatus` is kept as a value of whatever kind it has. -/
structure OrderCriteria where
  toCriteria : Criteria
  Statuses : List String
  SortOrderBy : List SortOrder
  OrderIDs : List String
  DomainKeys : List String
  DomainName : String
  PrivacyStatus : Value
  ShowChildOrders : Bool
  TimeExpiryStart : Time
  TimeExpiryEnd : Time
  deriving DecidableEq, Repr

/-- The fields of `domain.OrderCriteria` as `reflect` numbers them: the embedded
struct is one field, without tags; both expiry fields carry the tag
`expiry-date-start,omitempty`. -/
def OrderCriteria.fields (c : OrderCriteria) : List Field :=
  [ ⟨"Criteria", [], "", Value.struct c.toCriteria.IsZero⟩,
    ⟨"Statuses", [Rule.omitempty], "status,omitempty", Value.strings c.Statuses⟩,
    ⟨"SortOrderBy", [Rule.omitempty], "order-by,omitempty", Value.sortOrders c.SortOrderBy⟩,
    ⟨"OrderIDs", [Rule.omitempty], "order-id,omitempty", Value.strings c.OrderIDs⟩,
    ⟨"DomainKeys", [Rule.omitempty], "product-key,omitempty", Value.strings c.DomainKeys⟩,
    ⟨"DomainName", [Rule.omitempty], "domain-name,omitempty", Value.string c.DomainName⟩,
    ⟨"PrivacyStatus", [Rule.omitempty], "privacy-enabled,omitempty", c.PrivacyStatus⟩,
    ⟨"ShowChildOrders", [Rule.omitempty], "show-child-orders,omitempty",
      Value.bool c.ShowChildOrders⟩,
    ⟨"TimeExpiryStart", [Rule.omitempty], "expiry-date-start,omitempty",
      Value.time c.TimeExpiryStart⟩,
    ⟨"TimeExpiryEnd", [Rule.omitempty], "expiry-date-start,omitempty",
      Value.time c.TimeExpiryEnd⟩ ]

/-- The token of one entry of an ordering specification: the field identifier,
followed by `" desc"` when the flag is set. -/
def sortToken (e : SortBy × Bool) : String :=
  if e.2 then e.1 ++ " desc" else e.1

/-- The body of the goroutine that `OrderCriteria.URLValues` starts for one field:
the elements of a slice are handled in a plain loop; for an element that is a
`SortOrder` map one goroutine per entry is started and awaited. -/
def OrderCriteria.fieldWork (f : Field) : Work :=
  if f.query ≠ "" then
    if omitEmpty f.query && f.value.IsZero then Work.skip
    else
      match f.value with
      | Value.uint n => Work.add (queryField f.query) (String.mk (formatUint n))
      | Value.string s => Work.add (queryField f.query) s
      | Value.bool b => Work.add (queryField f.query) (fmtBool b)
      | Value.time t => Work.add (queryField f.query) (formatInt t.Unix)
      | Value.strings xs => Work.seqAll (xs.map (fun x => Work.add (queryField f.query) x))
      | Value.sortOrders ms =>
        Work.seqAll (ms.map (fun m =>
          Work.parAll (m.map (fun e => Work.add (queryField f.query) (sortToken e)))))
      | _ => Work.skip
  else Work.skip

/-- The loop of `domain.OrderCriteria.URLValues` over the fields: one goroutine per field,
then `wg.Wait()`. -/
def OrderCriteria.work (c : OrderCriteria) : Work :=
  Work.parAll (c.fields.map OrderCriteria.fieldWork)

/-- The method `domain.OrderCriteria.URLValues`: every result the call can return. -/
def OrderCriteria.URLValues (V : Validator OrderCriteria) (c : OrderCriteria) :
    List (Values × Option Error) :=
  match V.Struct c with
  | some err => [(Values.empty, some err)]
  | none =>
    (OrderCriteria.work c).traces.map
      (fun tr => (Values.ofTrace tr, none))

/-- The engine on `domain.OrderCriteria`: it descends into the embedded struct. -/
def OrderCriteria.validator (lib : LibraryRules) : Validator OrderCriteria :=
  { RegisterValidation := fun _ _ => none
    Struct := fun c => structErrors lib (c.toCriteria.fields ++ c.fields) }

/-! ## The inbound scalar decoders -/

/-- The type `customer.JSONBool`. -/
structure JSONBool where
  ToBool : Bool
  deriving DecidableEq, Repr

/-- The type `customer.JSONTime`. -/
structure JSONTime where
  ToTime : Time
  deriving DecidableEq, Repr

/-- The type `customer.JSONFloat`. -/
structure JSONFloat where
  ToFloat64 : F64
  deriving DecidableEq, Repr

/-- The method `(*JSONBool).UnmarshalJSON`: the receiver after the call and the error
returned. -/
def JSONBool.UnmarshalJSON (j : JSONBool) (b : String) : JSONBool × Option Error :=
  let s := String.mk (trimQuotes b.toList)
  match parseBool s with
  | Except.error e => (j, some (e.toError "ParseBool" s))
  | Except.ok bValue => (⟨bValue⟩, none)

/-- The method `(*JSONTime).UnmarshalJSON`: the receiver after the call and the error
returned. -/
def JSONTime.UnmarshalJSON (j : JSONTime) (b : String) : JSONTime × Option Error :=
  let s := trimQuotes b.toList
  match parseInt s with
  | Except.error e => (j, some (e.toError "ParseInt" (String.mk s)))
  | Except.ok tValue => (⟨Time.ofUnix tValue⟩, none)

/-- The method `(*JSONFloat).UnmarshalJSON`: the receiver after the call and the error
returned.  `ParseFloat` is `strconv.ParseFloat(s, 64)` of the standard library: the
value of a text, or the reason why the text is refused. -/
def JSONFloat.UnmarshalJSON (ParseFloat : String → Except NumErr F64) (j : JSONFloat)
    (b : String) : JSONFloat × Option Error :=
  let s := String.mk (trimQuotes b.toList)
  match ParseFloat s with
  | Except.error e => (j, some (e.toError "ParseFloat" s))
  | Except.ok fValue => (⟨fValue⟩, none)

/-! ## Properties of emitted texts -/

/-- Whether a text has exactly two digits after its decimal point: it ends in a point
followed by two decimal digits, and has no other point. -/
def twoFractionDigits (s : String) : Bool :=
  match s.toList.reverse with
  | d2 :: d1 :: p :: rest => p == '.' && isDigit d1 && isDigit d2 && !rest.contains '.'
  | _ => false

/-! ## The HTTP dispatcher (`core.CallAPI`) -/

/-- The record `core.Config`. -/
structure Config where
  ResellerID : String
  APIKey : String
  IsProduction : Bool
  deriving DecidableEq, Repr

/-- An `*http.Request` as `http.NewRequestWithContext(ctx, method, url, http.NoBody)`
makes it: its method and the text of its URL. -/
structure Request where
  Method : String
  URL : String
  deriving DecidableEq, Repr

/-- An `*http.Response`: its status code and what `io.ReadAll(resp.Body)` returns, the
bytes of the body or a read error. -/
structure Response where
  StatusCode : Int
  Body : Except Error String
  deriving DecidableEq, Repr

/-- An `*http.Client`, by what `Do(req)` returns: the response (possibly nil) and the
text of the `*url.Error`, if there is an error. -/
structure Client where
  Do : Request → Option Response × Option String

/-- The part of `net/http` that decides whether a request can be made: the error that
`http.NewRequestWithContext(ctx, method, url, http.NoBody)` returns for the context of
the call, if any. -/
structure NetLib where
  NewRequestError : String → String → Option String

/-- The UTF-8 bytes of a character. -/
def utf8Bytes (c : Char) : List Nat :=
  let n := c.toNat
  if n < 128 then [n]
  else if n < 2048 then [192 + n / 64, 128 + n % 64]
  else if n < 65536 then [224 + n / 4096, 128 + n / 64 % 64, 128 + n % 64]
  else [240 + n / 262144, 128 + n / 4096 % 64, 128 + n / 64 % 64, 128 + n % 64]

/-- The upper-case hexadecimal digit of a number below 16. -/
def upperHex (d : Nat) : Char :=
  if d < 10 then Char.ofNat (48 + d) else Char.ofNat (55 + d)

/-- One byte as `url.QueryEscape` writes it: letters, digits and `-`, `_`, `.`, `~`
as they are, a space as `+`, every other byte as `%` and two hexadecimal digits. -/
def escapeByte (b : Nat) : List Char :=
  if (97 ≤ b ∧ b ≤ 122) ∨ (65 ≤ b ∧ b ≤ 90) ∨ (48 ≤ b ∧ b ≤ 57) ∨
      b = 45 ∨ b = 95 ∨ b = 46 ∨ b = 126 then [Char.ofNat b]
  else if b = 32 then ['+']
  else ['%', upperHex (b / 16), upperHex (b % 16)]

/-- Go `url.QueryEscape(s)`. -/
def QueryEscape (s : String) : String :=
  String.mk (s.toList.flatMap (fun c => (utf8Bytes c).flatMap escapeByte))

/-- The order of Go strings (`a < b`): lexicographic on the bytes, which for UTF-8 text
is lexicographic on the characters. -/
def lexLess : List Char → List Char → Bool
  | [], [] => false
  | [], _ :: _ => true
  | _ :: _, [] => false
  | x :: xs, y :: ys =>
    if x.toNat < y.toNat then true else if x.toNat = y.toNat then lexLess xs ys else false

/-- Insertion of a key into a sorted list of keys. -/
def insertKey (k : String) : List String → List String
  | [] => [k]
  | x :: xs => if lexLess x.toList k.toList then x :: insertKey k xs else k :: x :: xs

/-- The keys of a map in sorted order (`slices.Sort(keys)`). -/
def sortedKeys (v : Values) : List String :=
  v.foldr (fun e ks => insertKey e.1 ks) []

/-- Go `Values.Encode()`: the pairs `key=value`, both escaped, joined by `&`, the keys
in sorted order and the values of a key in their own order. -/
def Values.Encode (v : Values) : String :=
  String.intercalate "&"
    ((sortedKeys v).flatMap (fun k =>
      (v.values k).map (fun x => QueryEscape k ++ "=" ++ QueryEscape x)))

/-- The struct `core.core`: the configuration and the client pointer (`none` is the
nil pointer). -/
structure core where
  cfg : Config
  client : Option Client

/-- The variable `core.host`. -/
def host (isProduction : Bool) : String :=
  if isProduction then "https://httpapi.com/api" else "https://test.httpapi.com/api"

/-- The error variable `core.ErrRcAPIUnsupportedMethod`. -/
def ErrRcAPIUnsupportedMethod : Error := Error.sentinel "unsupported http method"

/-- How a call ends: it returns a value, or it panics. -/
inductive Returned (α : Type) where
  | returned (a : α) : Returned α
  | panicked : Returned α
  deriving DecidableEq, Repr

/-- What a call of `CallAPI` does: the caller's map after the call (a Go map is shared
with the caller), the requests handed to the client, and how the call ends. -/
structure CallResult where
  data : Values
  sent : List Request
  result : Returned (Option Response × Option Error)

/-- The method `(*core).CallAPI` on a non-nil map `data`. -/
def core.CallAPI (c : core) (net : NetLib) (method nameSpace apiName : String)
    (data : Values) : CallResult :=
  let urlPath := host c.cfg.IsProduction ++ "/" ++ nameSpace ++ "/" ++ apiName ++ ".json"
  let data1 := data.Add "auth-userid" c.cfg.ResellerID
  let data2 := data1.Add "api-key" c.cfg.APIKey
  if method ≠ "GET" ∧ method ≠ "POST" then
    ⟨data2, [], Returned.returned (none, some ErrRcAPIUnsupportedMethod)⟩
  else
    match net.NewRequestError method (urlPath ++ "?" ++ Values.Encode data2) with
    | some cause =>
      ⟨data2, [], Returned.returned (none, some (Error.wrapped "failed to create request" cause))⟩
    | none =>
      match c.client with
      | none => ⟨data2, [], Returned.panicked⟩
      | some cl =>
        let req : Request := ⟨method, urlPath ++ "?" ++ Values.Encode data2⟩
        ⟨data2, [req], Returned.returned ((cl.Do req).1, (cl.Do req).2.map Error.urlError)⟩

/-- The method `(*core).IsProduction`. -/
def core.IsProduction (c : core) : Bool := c.cfg.IsProduction

/-- The interface `core.Core`, by how a call of `CallAPI(ctx, method, namespace,
apiName, data)` ends. -/
structure Core where
  CallAPI : String → String → String → Values → Returned (Option Response × Option Error)
  IsProduction : Bool

/-- The struct `core.core` as a `core.Core`. -/
def core.toCore (c : core) (net : NetLib) : Core :=
  { CallAPI := fun method nameSpace apiName data =>
      (c.CallAPI net method nameSpace apiName data).result
    IsProduction := c.IsProduction }

/-- The function `core.New`: the local `c` starts as the nil pointer and is set to
`http.DefaultClient` (the parameter `DefaultClient`) when the argument `client` is
nil; the `core` made holds `c`. -/
def New (DefaultClient : Client) (cfg : Config) (client : Option Client) : core :=
  let c0 : Option Client := none
  let c : Option Client := if client.isNone then some DefaultClient else c0
  { cfg := cfg, client := c }

/-! ## The pricing methods and the country list -/

/-- The record `core.JSONStatusResponse`. -/
structure JSONStatusResponse where
  Status : String
  Message : String
  deriving DecidableEq, Repr

/-- The standard-library functions that the endpoint methods call: `strings.ToLower`,
`json.Unmarshal` into a `core.JSONStatusResponse`, and `json.Unmarshal` into the result
type of the method (a map, nil for the JSON text `null`). -/
structure StdLib (α : Type) where
  ToLower : String → String
  UnmarshalStatus : String → Except Error JSONStatusResponse
  UnmarshalResult : String → Except Error (Option α)

/-- What each pricing method does with the outcome of `CallAPI`: an error is returned
as it is; the body is read; for a status other than 200 the body is decoded as a status
envelope and its message, in lower case, becomes the error; otherwise the body is
decoded as the result.  A nil response without an error makes the method panic. -/
def handleResponse {α : Type} (lib : StdLib α) :
    Returned (Option Response × Option Error) → Returned (Option α × Option Error)
  | Returned.panicked => Returned.panicked
  | Returned.returned (_, some err) => Returned.returned (none, some err)
  | Returned.returned (none, none) => Returned.panicked
  | Returned.returned (some resp, none) =>
    match resp.Body with
    | Except.error err => Returned.returned (none, some err)
    | Except.ok bytesResp =>
      if resp.StatusCode ≠ 200 then
        match lib.UnmarshalStatus bytesResp with
        | Except.error err => Returned.returned (none, some err)
        | Except.ok errResponse =>
          Returned.returned (none, some (Error.other (lib.ToLower errResponse.Message)))
      else
        match lib.UnmarshalResult bytesResp with
        | Except.error err => Returned.returned (none, some err)
        | Except.ok result => Returned.returned (result, none)

/-- The method `(*pricing).GettingCustomerPricing`. -/
def GettingCustomerPricing {α : Type} (lib : StdLib α) (c : Core) (customerID : String) :
    Returned (Option α × Option Error) :=
  handleResponse lib
    (c.CallAPI "GET" "products" "customer-price" (Values.empty.Add "customer-id" customerID))

/-- The method `(*pricing).GettingResellerPricing`. -/
def GettingResellerPricing {α : Type} (lib : StdLib α) (c : Core) (resellerID : String) :
    Returned (Option α × Option Error) :=
  handleResponse lib
    (c.CallAPI "GET" "products" "reseller-price" (Values.empty.Add "reseller-id" resellerID))

/-- The method `(*pricing).GettingResellerCostPricing`. -/
def GettingResellerCostPricing {α : Type} (lib : StdLib α) (c : Core) (resellerID : String) :
    Returned (Option α × Option Error) :=
  handleResponse lib
    (c.CallAPI "GET" "products" "reseller-cost-price"
      (Values.empty.Add "reseller-id" resellerID))

/-- The method `(*pricing).GettingPromoPrices`. -/
def GettingPromoPrices {α : Type} (lib : StdLib α) (c : Core) :
    Returned (Option α × Option Error) :=
  handleResponse lib (c.CallAPI "GET" "products" "promo-details" Values.empty)

/-- The type `general.countryDB`, a `map[CountryISO]string`: each key once. -/
abbrev countryDB := List (String × String)

/-- The assignment `mapCountry[key] = value`. -/
def countryDB.set : countryDB → String → String → countryDB
  | [], k, v => [(k, v)]
  | (k', v') :: rest, k, v =>
    if k' = k then (k', v) :: rest else (k', v') :: countryDB.set rest k v

/-- The map that the assignments of a trace build, in order, from the empty map. -/
def countryDB.ofTrace (tr : List Pair) : countryDB :=
  tr.foldl (fun m p => m.set p.1 p.2) []

/-- The function `general.fetchCountryDB`: every result the call can return.  On
status 200 the body is decoded as a `map[string]string` (here a `StdLib` whose result
type is the list of its entries) and one goroutine per entry `(key, val)` assigns
`mapCountry[val] = key`, so the result is the map of one of the orders of these
assignments. -/
def fetchCountryDB (lib : StdLib (List (String × String))) (c : Core) :
    List (Returned (Option countryDB × Option Error)) :=
  match handleResponse lib (c.CallAPI "GET" "country" "list" Values.empty) with
  | Returned.panicked => [Returned.panicked]
  | Returned.returned (_, some err) => [Returned.returned (none, some err)]
  | Returned.returned (keyPairs, none) =>
    (Work.parAll (((keyPairs.getD []).map (fun e => Work.add e.2 e.1)))).traces.map
      (fun tr => Returned.returned (some (countryDB.ofTrace tr), none))

/-! ## Program order and field descriptors -/

/-- The `Add`s selected by `p` are ordered by the program: wherever two pieces run in
parallel, at most one of them performs such an `Add`. -/
def Work.OrderedOn (p : Pair → Bool) : Work → Prop
  | Work.skip => True
  | Work.add _ _ => True
  | Work.seq a b => a.OrderedOn p ∧ b.OrderedOn p
  | Work.par a b => a.OrderedOn p ∧ b.OrderedOn p ∧
      ((∀ x ∈ a.adds, p x = false) ∨ (∀ x ∈ b.adds, p x = false))

/-- The field descriptors that the encoders derive from the `query` tags of a list of
fields: for every field with a tag, in field order, the wire key (the tag without the
suffix `,omitempty`) and the omit-on-empty flag (the tag ends in `omitempty`). -/
def descriptors (fields : List Field) : List (String × Bool) :=
  (fields.filter (fun f => f.query ≠ "")).map (fun f => (queryField f.query, omitEmpty f.query))

/-- The text `b` wrapped in `n` extra pairs of double quotes. -/
def quoted (n : Nat) (b : String) : String :=
  String.mk (List.replicate n '"' ++ b.toList ++ List.replicate n '"')

/-! ## `customer.CustomerDetail` and its decoding by `encoding/json`

`CustomerDetail` values are made by `json.Unmarshal`.  The standard library matches the
keys of a JSON object with the fields of the struct by the `json` key of their tags;
a field without that key goes by its Go name.  What follows is that matching, and the
storing of a member's value into the field found: a string for the fields of type
`string`, a call of `UnmarshalJSON` on the raw bytes for the three scalar types. -/

/-- The record `customer.CustomerDetail`. -/
structure CustomerDetail where
  Id : String
  Username : String
  ResellerId : String
  ParentId : String
  Name : String
  Company : String
  Email : String
  PhoneCountryCode : String
  Phone : String
  MobileCountryCode : String
  Mobile : String
  Address : String
  AddressLine2 : String
  AddressLine3 : String
  City : String
  State : String
  StateId : String
  CountryCode : String
  Zipcode : String
  Pin : String
  TimeCreation : JSONTime
  Status : String
  SalesContactId : String
  LanguagePreference : String
  TotalReceipts : JSONFloat
  Is2FA : JSONBool
  Is2FASms : JSONBool
  Is2FAGoogle : JSONBool
  IsDominicanTaxConfgired : JSONBool
  deriving DecidableEq, Repr

/-- The types of the fields of `CustomerDetail`. -/
inductive FieldType where
  | string : FieldType
  | jsonTime : FieldType
  | jsonFloat : FieldType
  | jsonBool : FieldType
  deriving DecidableEq, Repr

/-- A field as declared (`reflect.StructField`): its name, its type and its tag, the
tag as the list of its `key:"value"` pairs. -/
structure StructField where
  Name : String
  Kind : FieldType
  Tag : List (String × String)
  deriving DecidableEq, Repr

/-- Go `reflect.StructTag.Get(key)`: the value of the key in the tag, the empty text
when the tag has no such key. -/
def StructField.tagGet (f : StructField) (key : String) : String :=
  match f.Tag.find? (fun p => p.1 == key) with
  | some p => p.2
  | none => ""

/-- The declaration of `CustomerDetail`: its fields with their tags, in order. -/
def CustomerDetail.structFields : List StructField :=
  [ ⟨"Id", FieldType.string, [("json", "customerid")]⟩,
    ⟨"Username", FieldType.string, [("json", "username")]⟩,
    ⟨"ResellerId", FieldType.string, [("json", "resellerid")]⟩,
    ⟨"ParentId", FieldType.string, [("json", "parentid")]⟩,
    ⟨"Name", FieldType.string, [("json", "name")]⟩,
    ⟨"Company", FieldType.string, [("json", "company")]⟩,
    ⟨"Email", FieldType.string, [("json", "useremail")]⟩,
    ⟨"PhoneCountryCode", FieldType.string, [("json", "telnocc")]⟩,
    ⟨"Phone", FieldType.string, [("json", "telno")]⟩,
    ⟨"MobileCountryCode", FieldType.string, [("json", "mobilenocc")]⟩,
    ⟨"Mobile", FieldType.string, [("json", "mobileno")]⟩,
    ⟨"Address", FieldType.string, [("json", "address1")]⟩,
    ⟨"AddressLine2", FieldType.string, [("json", "address2")]⟩,
    ⟨"AddressLine3", FieldType.string, [("json", "address3")]⟩,
    ⟨"City", FieldType.string, [("josn", "city")]⟩,
    ⟨"State", FieldType.string, [("josn", "state")]⟩,
    ⟨"StateId", FieldType.string, [("josn", "stateid")]⟩,
    ⟨"CountryCode", FieldType.string, [("josn", "country")]⟩,
    ⟨"Zipcode", FieldType.string, [("josn", "zip")]⟩,
    ⟨"Pin", FieldType.string, [("josn", "pin")]⟩,
    ⟨"TimeCreation", FieldType.jsonTime, [("josn", "creationdt")]⟩,
    ⟨"Status", FieldType.string, [("josn", "customerstatus")]⟩,
    ⟨"SalesContactId", FieldType.string, [("json", "salescontactid")]⟩,
    ⟨"LanguagePreference", FieldType.string, [("json", "langpref")]⟩,
    ⟨"TotalReceipts", FieldType.jsonFloat, [("json", "totalreceipts")]⟩,
    ⟨"Is2FA", FieldType.jsonBool, [("json", "twofactorauth_enabled")]⟩,
    ⟨"Is2FASms", FieldType.jsonBool, [("json", "twofactorsmsauth_enabled")]⟩,
    ⟨"Is2FAGoogle", FieldType.jsonBool, [("json", "twofactorgoogleauth_enabled")]⟩,
    ⟨"IsDominicanTaxConfgired", FieldType.jsonBool,
      [("json", "isDominicanTaxConfiguredByParent")]⟩ ]

/-- Whether a name given in a `json` tag is usable (`isValidTag` of `encoding/json`):
it is not empty and consists of letters, digits and some punctuation.  Letters and
digits are the ASCII ones here; the tags of this repository hold no others. -/
def isValidTag (s : String) : Bool :=
  s != "" && s.toList.all (fun c =>
    "!#$%&()*+-./:;<=>?@[]^_\x7b|\x7d~ ".toList.contains c || c.isAlphanum)

/-- The key by which `encoding/json` knows a field: none for the tag `json:"-"`; the
name given in the `json` tag (its part before the first comma) when that is usable;
the Go name of the field otherwise, in particular when the tag has no `json` key. -/
def StructField.jsonName (f : StructField) : Option String :=
  let tag := f.tagGet "json"
  if tag = "-" then none
  else
    let name := String.mk (tag.toList.takeWhile (fun c => c != ','))
    if isValidTag name then some name else some f.Name

/-- One character under the case folding by which `encoding/json` compares keys: a
lower-case ASCII letter becomes its capital, and the two other characters whose
folding is an ASCII letter, the Kelvin sign and the long s, become `K` and `S`.
Every other character folds to a character outside ASCII and is left as it is here;
so two texts of which one is ASCII have the same folding here exactly when they have
the same folding there. -/
def foldRune (c : Char) : Char :=
  if 'a' ≤ c ∧ c ≤ 'z' then Char.ofNat (c.toNat - 32)
  else if c.toNat = 0x212A then 'K'
  else if c.toNat = 0x17F then 'S'
  else c

/-- The folding of a key (`foldName`). -/
def foldName (s : String) : String := String.mk (s.toList.map foldRune)

/-- The field that `encoding/json` stores the member with the given key into: the
field known by exactly that key, or else one known by a key with the same folding;
none when there is neither, and then the member is skipped. -/
def findField (fields : List StructField) (key : String) : Option StructField :=
  match fields.find? (fun f => f.jsonName == some key) with
  | some f => some f
  | none => fields.find? (fun f => f.jsonName.map foldName == some (foldName key))

/-- The part of `encoding/json` and `strconv` that the decoding of a member's value is
left to: for a field of type `string` with the given key, what the raw bytes of a
value yield (the text of a string literal, nothing for `null`, or the type error for
any other value), and `strconv.ParseFloat(s, 64)`. -/
structure JsonLib where
  StringValue : String → String → Except Error (Option String)
  ParseFloat : String → Except NumErr F64

/-- A `CustomerDetail` with a text stored into the `string` field of the given Go
name. -/
def CustomerDetail.setString (d : CustomerDetail) (name v : String) : CustomerDetail :=
  if name = "Id" then { d with Id := v }
  else if name = "Username" then { d with Username := v }
  else if name = "ResellerId" then { d with ResellerId := v }
  else if name = "ParentId" then { d with ParentId := v }
  else if name = "Name" then { d with Name := v }
  else if name = "Company" then { d with Company := v }
  else if name = "Email" then { d with Email := v }
  else if name = "PhoneCountryCode" then { d with PhoneCountryCode := v }
  else if name = "Phone" then { d with Phone := v }
  else if name = "MobileCountryCode" then { d with MobileCountryCode := v }
  else if name = "Mobile" then { d with Mobile := v }
  else if name = "Address" then { d with Address := v }
  else if name = "AddressLine2" then { d with AddressLine2 := v }
  else if name = "AddressLine3" then { d with AddressLine3 := v }
  else if name = "City" then { d with City := v }
  else if name = "State" then { d with State := v }
  else if name = "StateId" then { d with StateId := v }
  else if name = "CountryCode" then { d with CountryCode := v }
  else if name = "Zipcode" then { d with Zipcode := v }
  else if name = "Pin" then { d with Pin := v }
  else if name = "Status" then { d with Status := v }
  else if name = "SalesContactId" then { d with SalesContactId := v }
  else if name = "LanguagePreference" then { d with LanguagePreference := v }
  else d

/-- The `JSONBool` field of the given Go name. -/
def CustomerDetail.getBool (d : CustomerDetail) (name : String) : JSONBool :=
  if name = "Is2FA" then d.Is2FA
  else if name = "Is2FASms" then d.Is2FASms
  else if name = "Is2FAGoogle" then d.Is2FAGoogle
  else d.IsDominicanTaxConfgired

/-- A `CustomerDetail` with a value stored into the `JSONBool` field of the given Go
name. -/
def CustomerDetail.setBool (d : CustomerDetail) (name : String) (v : JSONBool) :
    CustomerDetail :=
  if name = "Is2FA" then { d with Is2FA := v }
  else if name = "Is2FASms" then { d with Is2FASms := v }
  else if name = "Is2FAGoogle" then { d with Is2FAGoogle := v }
  else if name = "IsDominicanTaxConfgired" then { d with IsDominicanTaxConfgired := v }
  else d

/-- The state of a decoding: the struct being filled and the first type error met so
far (`decodeState.savedError`). -/
structure DecodeState where
  detail : CustomerDetail
  savedError : Option Error
  deriving DecidableEq, Repr

/-- The storing of one member's raw value into a field: the state afterwards, and the
error that ends the decoding, if any.  A type error on a `string` field is saved and
the decoding goes on; an error of `UnmarshalJSON` ends it. -/
def storeMember (lib : JsonLib) (st : DecodeState) (f : StructField) (key raw : String) :
    DecodeState × Option Error :=
  match f.Kind with
  | FieldType.string =>
    match lib.StringValue key raw with
    | Except.ok (some v) => (⟨st.detail.setString f.Name v, st.savedError⟩, none)
    | Except.ok none => (st, none)
    | Except.error e => (⟨st.detail, st.savedError.orElse (fun _ => some e)⟩, none)
  | FieldType.jsonTime =>
    let r := st.detail.TimeCreation.UnmarshalJSON raw
    (⟨{ st.detail with TimeCreation := r.1 }, st.savedError⟩, r.2)
  | FieldType.jsonFloat =>
    let r := st.detail.TotalReceipts.UnmarshalJSON lib.ParseFloat raw
    (⟨{ st.detail with TotalReceipts := r.1 }, st.savedError⟩, r.2)
  | FieldType.jsonBool =>
    let r := (st.detail.getBool f.Name).UnmarshalJSON raw
    (⟨st.detail.setBool f.Name r.1, st.savedError⟩, r.2)

/-- The decoding of the members of a JSON object, in their order, each given by its
key and the raw bytes of its value: a member whose key matches no field is skipped. -/
def decodeMembers (lib : JsonLib) (st : DecodeState) :
    List (String × String) → DecodeState × Option Error
  | [] => (st, none)
  | (key, raw) :: rest =>
    match findField CustomerDetail.structFields key with
    | none => decodeMembers lib st rest
    | some f =>
      match storeMember lib st f key raw with
      | (st2, some err) => (st2, some err)
      | (st2, none) => decodeMembers lib st2 rest

/-- Go `json.Unmarshal(data, &d)` for a `CustomerDetail` `d`, on the members of the
object that `data` holds: the struct after the call and the error returned. -/
def CustomerDetail.Unmarshal (lib : JsonLib) (d : CustomerDetail)
    (members : List (String × String)) : CustomerDetail × Option Error :=
  match decodeMembers lib ⟨d, none⟩ members with
  | (st, some err) => (st.detail, some err)
  | (st, none) => (st.detail, st.savedError)

/-! ## Goroutines, step by step

In the encoders every `urlValues.Add` stands between `rwMutex.Lock()` and
`rwMutex.Unlock()` of the one mutex of the call, and every goroutine is awaited
(`wg.Wait()`, `wgSlice.Wait()`, `wgSortOrder.Wait()`).  Here the three statements are
steps of their own, a schedule picks the goroutine that makes the next step, and
`Lock` can be passed only while the mutex is free. -/

/-- One step of a goroutine: `rwMutex.Lock()`, `urlValues.Add(key, value)` or
`rwMutex.Unlock()`. -/
inductive Act where
  | lock : Act
  | add (key value : String) : Act
  | unlock : Act
  deriving DecidableEq, Repr

/-- The code that is left to run: nothing, one step, one piece after another, or two
goroutines that are both awaited. -/
inductive Prog where
  | skip : Prog
  | act (a : Act) : Prog
  | seq (a b : Prog) : Prog
  | par (a b : Prog) : Prog
  deriving DecidableEq, Repr

/-- The code of a piece of work: each `Add` is `Lock`, `Add`, `Unlock`. -/
def Work.prog : Work → Prog
  | Work.skip => Prog.skip
  | Work.add k v =>
    Prog.seq (Prog.act Act.lock) (Prog.seq (Prog.act (Act.add k v)) (Prog.act Act.unlock))
  | Work.seq a b => Prog.seq a.prog b.prog
  | Work.par a b => Prog.par a.prog b.prog

/-- Whether nothing is left to run: every goroutine has completed, and a `Wait()` for
them returns. -/
def Prog.finished : Prog → Bool
  | Prog.skip => true
  | Prog.act _ => false
  | Prog.seq a b => a.finished && b.finished
  | Prog.par a b => a.finished && b.finished

/-- The next step of the goroutine at a path (`false` leads to the first, `true` to
the second goroutine of a pair) and the code left after it; none when there is no
such goroutine, or it has completed, or it waits for the goroutines it started. -/
def Prog.next : Prog → List Bool → Option (Act × Prog)
  | Prog.skip, _ => none
  | Prog.act a, [] => some (a, Prog.skip)
  | Prog.act _, _ :: _ => none
  | Prog.seq a b, path =>
    if a.finished then (b.next path).map (fun r => (r.1, Prog.seq a r.2))
    else (a.next path).map (fun r => (r.1, Prog.seq r.2 b))
  | Prog.par _ _, [] => none
  | Prog.par a b, false :: path => (a.next path).map (fun r => (r.1, Prog.par r.2 b))
  | Prog.par a b, true :: path => (b.next path).map (fun r => (r.1, Prog.par a r.2))

/-- A moment of an encoder call after validation: whether `rwMutex` is locked, the map
`urlValues`, and the code left to run. -/
structure Conf where
  locked : Bool
  urlValues : Values
  prog : Prog
  deriving DecidableEq, Repr

/-- The moment at which the goroutines are started: the mutex free, the map empty. -/
def Conf.init (w : Work) : Conf := ⟨false, Values.empty, w.prog⟩

/-- One step of the goroutine at a path: `Lock` is passed only while the mutex is
free, `Unlock` frees it; none when the goroutine cannot make a step (it waits at
`Lock` or for its goroutines, or has completed; `Unlock` of a free mutex is a fatal
error and makes no step either). -/
def Conf.step (c : Conf) (path : List Bool) : Option Conf :=
  match c.prog.next path with
  | none => none
  | some (Act.lock, p) => if c.locked then none else some ⟨true, c.urlValues, p⟩
  | some (Act.add k v, p) => some ⟨c.locked, c.urlValues.Add k v, p⟩
  | some (Act.unlock, p) => if c.locked then some ⟨false, c.urlValues, p⟩ else none

/-- The moment reached by a schedule, the list of the goroutines that make the steps
in turn; none when one of them cannot make its step. -/
def Conf.run (c : Conf) : List (List Bool) → Option Conf
  | [] => some c
  | path :: rest =>
    match c.step path with
    | none => none
    | some c2 => c2.run rest

/-- What the call returns once the last `wg.Wait()` is passed, which is when every
goroutine has completed: the map; none while the call has not returned. -/
def Conf.returned (c : Conf) : Option Values :=
  if c.prog.finished then some c.urlValues else none

/-- A piece of work in which every `Add` has a phase: 0 before its `Lock`, 1 between
`Lock` and `Add`, 2 between `Add` and `Unlock`, 3 or more after `Unlock`. -/
inductive PWork where
  | skip : PWork
  | crit (phase : Nat) (key value : String) : PWork
  | seq (a b : PWork) : PWork
  | par (a b : PWork) : PWork
  deriving Repr

/-- The code that is left of a piece of work whose `Add`s are in the given phases. -/
def PWork.prog : PWork → Prog
  | PWork.skip => Prog.skip
  | PWork.crit 0 k v =>
    Prog.seq (Prog.act Act.lock) (Prog.seq (Prog.act (Act.add k v)) (Prog.act Act.unlock))
  | PWork.crit 1 k v =>
    Prog.seq Prog.skip (Prog.seq (Prog.act (Act.add k v)) (Prog.act Act.unlock))
  | PWork.crit 2 _ _ => Prog.seq Prog.skip (Prog.seq Prog.skip (Prog.act Act.unlock))
  | PWork.crit (_ + 3) _ _ => Prog.seq Prog.skip (Prog.seq Prog.skip Prog.skip)
  | PWork.seq a b => Prog.seq a.prog b.prog
  | PWork.par a b => Prog.par a.prog b.prog

/-- A piece of work of which nothing has run. -/
def PWork.ofWork : Work → PWork
  | Work.skip => PWork.skip
  | Work.add k v => PWork.crit 0 k v
  | Work.seq a b => PWork.seq (PWork.ofWork a) (PWork.ofWork b)
  | Work.par a b => PWork.par (PWork.ofWork a) (PWork.ofWork b)

/-- The number of `Add`s that are between their `Lock` and their `Unlock`. -/
def PWork.inside : PWork → Nat
  | PWork.skip => 0
  | PWork.crit 1 _ _ => 1
  | PWork.crit 2 _ _ => 1
  | PWork.crit _ _ _ => 0
  | PWork.seq a b => a.inside + b.inside
  | PWork.par a b => a.inside + b.inside

/-- Every order in which the `Add`s that have not been performed yet can reach the
map. -/
def PWork.traces : PWork → List (List Pair)
  | PWork.skip => [[]]
  | PWork.crit 0 k v => [[(k, v)]]
  | PWork.crit 1 k v => [[(k, v)]]
  | PWork.crit _ _ _ => [[]]
  | PWork.seq a b => a.traces.flatMap (fun ta => b.traces.map (fun tb => ta ++ tb))
  | PWork.par a b => a.traces.flatMap (fun ta => b.traces.flatMap (fun tb => interleavings ta tb))

/-- How one step changes the phases: `Lock` brings one more `Add` between its `Lock`
and `Unlock`, `Unlock` one less, and `Add` performs an `Add` that could come first. -/
def PWork.Advances (a : Act) (pw pw2 : PWork) : Prop :=
  match a with
  | Act.lock => pw2.inside = pw.inside + 1 ∧ pw2.traces = pw.traces
  | Act.add k v => pw2.inside = pw.inside ∧ 1 ≤ pw.inside ∧
      ∀ t ∈ pw2.traces, (k, v) :: t ∈ pw.traces
  | Act.unlock => pw2.inside + 1 = pw.inside ∧ pw2.traces = pw.traces

/-- The schedule on which every goroutine runs to its end as soon as it is started. -/
def Work.inOrder : Work → List (List Bool)
  | Work.skip => []
  | Work.add _ _ => [[], [], []]
  | Work.seq a b => a.inOrder ++ b.inOrder
  | Work.par a b => a.inOrder.map (fun path => false :: path) ++
      b.inOrder.map (fun path => true :: path)

/-! ## Sample inputs -/

/-- A sign-up form with every field empty. -/
def emptyForm : SignUpForm :=
  ⟨"", "", "", "", "", "", "", "", "", "", "", "", "", "", "", "", "", "", "", "", "", "",
    false, false, false, ""⟩

/-- A fragment of the library's tables: one e-mail address and two country codes that
the library accepts. -/
def sampleRules : LibraryRules :=
  { email := fun s => s == "jane@example.com"
    iso3166_1_alpha2 := fun s => s == "US" || s == "ID" }

/-- A sign-up form with the required fields filled in and the optional ones empty. -/
def sampleForm : SignUpForm :=
  ⟨"jane@example.com", "Secret#2024x", "Jane Doe", "Example Ltd", "1 Main Street", "", "",
    "Springfield", "Illinois", "", "US", "62701", "en", "01", "5550100", "", "", "", "", "", "",
    "", false, false, false, ""⟩

/-- An engine that rejects every value. -/
def rejecting (α : Type) : Validator α :=
  { RegisterValidation := fun _ _ => none
    Struct := fun _ => some (Error.other "rejected") }

/-- The errors of the empty sign-up form: `required` on each of the twelve required
fields. -/
def emptyFormErrors : List FieldError :=
  ["Username", "Password", "Name", "Company", "Address", "City", "State", "Country", "Zipcode",
    "LanguageCode", "PhoneCountryCode", "Phone"].map (fun n => ⟨n, "required"⟩)

/-- A customer criteria whose lowest receipt is NaN. -/
def nanCriteria : CustomerCriteria :=
  ⟨⟨[], [], Time.zero, Time.zero⟩, "", "", "", "", "", F64.nan, F64.finite false 0 0⟩

/-- A customer criteria whose lowest receipt is 12.5 and whose highest is 100. -/
def receiptCriteria : CustomerCriteria :=
  ⟨⟨[], [], Time.zero, Time.zero⟩, "", "", "", "", "", F64.finite false 25 (-1),
    F64.finite false 100 0⟩

/-- A sign-up form that consents to SMS and accepts the policy. -/
def consentForm : SignUpForm :=
  { sampleForm with SmsConcent := true, AcceptPolicy := true }

/-- An order criteria with an expiry range from 1700000000 to 1800000000 seconds after
the epoch. -/
def expiryCriteria : OrderCriteria :=
  ⟨⟨[], [], Time.zero, Time.zero⟩, [], [], [], [], "", Value.string "", false,
    Time.ofUnix 1700000000, Time.ofUnix 1800000000⟩

/-- The sample form with the name missing and a user name that is not an e-mail
address. -/
def twoViolationsForm : SignUpForm :=
  { sampleForm with Username := "not-an-email", Name := "" }

/-- A client that answers every request with status 200 and an empty object. -/
def okClient : Client :=
  { Do := fun _ => (some ⟨200, Except.ok "\x7b\x7d"⟩, none) }

/-- A context and arguments for which every request can be made. -/
def plainNet : NetLib :=
  { NewRequestError := fun _ _ => none }

/-- A test-environment `core` with a client. -/
def sampleCore : core :=
  { cfg := ⟨"1001", "secret", false⟩, client := some okClient }

/-- A `core.Core` that answers every call with the given status and body. -/
def answering (status : Int) (body : String) : Core :=
  { CallAPI := fun _ _ _ _ => Returned.returned (some ⟨status, Except.ok body⟩, none)
    IsProduction := false }

/-- The body of a response that reports a denied access. -/
def deniedBody : String := "\x7b\"status\":\"ERROR\",\"message\":\"Access Denied\"\x7d"

/-- A stand-in for the standard library: ASCII lower-casing, and a JSON decoder that
knows one status envelope and one result. -/
def sampleLib : StdLib (List (String × String)) :=
  { ToLower := fun s => String.mk (s.toList.map Char.toLower)
    UnmarshalStatus := fun s =>
      if s = deniedBody
      then Except.ok ⟨"ERROR", "Access Denied"⟩
      else Except.error (Error.other "invalid character")
    UnmarshalResult := fun s =>
      if s = "\x7b\"India\":\"IN\"\x7d" then Except.ok (some [("India", "IN")])
      else Except.error (Error.other "invalid character") }

/-- An order criteria with three statuses, two order ids and one product key. -/
def sequenceCriteria : OrderCriteria :=
  ⟨⟨[], [], Time.zero, Time.zero⟩, ["Active", "Suspended", "Deleted"], [], ["7", "3"],
    ["domcno"], "", Value.string "", false, Time.zero, Time.zero⟩

/-- A stand-in for `strconv.ParseFloat(s, 64)` that knows three texts: `12.5`, the
out-of-range `1e999` and, as every text it does not know, the malformed `12,5`. -/
def sampleParseFloat (s : String) : Except NumErr F64 :=
  if s = "12.5" then Except.ok (F64.finite false 25 (-1))
  else if s = "1e999" then Except.error NumErr.errRange
  else Except.error NumErr.errSyntax

/-- A client that answers every request with status 500 and no body text. -/
def failingClient : Client :=
  { Do := fun _ => (some ⟨500, Except.ok ""⟩, none) }

/-- A stand-in for the library's value decoding: a raw value in double quotes without
escapes is a string literal, `null` is null, everything else is of the wrong type. -/
def sampleJson : JsonLib :=
  { StringValue := fun key raw =>
      if raw = "null" then Except.ok none
      else
        match raw.toList with
        | '"' :: rest =>
          if rest.getLast? = some '"' ∧ ¬ '"' ∈ rest.dropLast ∧ ¬ Char.ofNat 92 ∈ rest then
            Except.ok (some (String.mk rest.dropLast))
          else Except.error (Error.other ("json: invalid value for " ++ key))
        | _ => Except.error (Error.other ("json: cannot unmarshal into field " ++ key))
    ParseFloat := sampleParseFloat }

/-- A `CustomerDetail` with every field zero. -/
def zeroDetail : CustomerDetail :=
  ⟨"", "", "", "", "", "", "", "", "", "", "", "", "", "", "", "", "", "", "", "",
    ⟨Time.zero⟩, "", "", "", ⟨F64.finite false 0 0⟩, ⟨false⟩, ⟨false⟩, ⟨false⟩, ⟨false⟩⟩

/-- A criteria with two reseller ids. -/
def twoResellers : Criteria := ⟨["r1", "r2"], [], Time.zero, Time.zero⟩

/-- The schedule on which the goroutine of the first reseller id runs to its end and
then that of the second one. -/
def inTurn : List (List Bool) :=
  [[false, false], [false, false], [false, false],
    [false, true, false], [false, true, false], [false, true, false]]

/-- The moment at which the goroutine of the second reseller id has passed `Lock`. -/
def lockedMoment : Conf :=
  ((Conf.init (Criteria.work twoResellers)).run [[false, true, false]]).getD
    (Conf.init Work.skip)

/-- The moment at which both goroutines have run to their end, one after the other. -/
def finalMoment : Conf :=
  ((Conf.init (Criteria.work twoResellers)).run inTurn).getD (Conf.init Work.skip)

/-! ## Checks on concrete inputs -/

example : formatInt (-1700000000) = "-1700000000" := by decide
example : parseInt "-1700000000".toList = Except.ok (-1700000000) := by decide
example : parseInt "9223372036854775808".toList = Except.error NumErr.errRange := by decide
example : parseInt "-9223372036854775808".toList = Except.ok (-9223372036854775808) := by decide
example : parseInt "+007".toList = Except.ok 7 := by decide
example : parseInt "1_0".toList = Except.error NumErr.errSyntax := by decide
example : Time.zero.Unix = -62135596800 := by decide
example : (Time.ofUnix 1700000000).Unix = 1700000000 := by decide
example : fmt2f (F64.finite false 25 (-1)) = "12.50" := by decide
example : fmt2f (F64.finite false 1 (-3)) = "0.12" := by decide
example : fmt2f (F64.finite true 3 (-3)) = "-0.38" := by decide
example : matchPasswordWithPattern "abcDEF#" false = true := by decide
example : matchPasswordWithPattern "abcDEF#" true = false := by decide
example : matchPasswordWithPattern "abcDEF#xyz" true = true := by decide
example : queryField "city,omitempty" = "city" := by decide
example : QueryEscape "a b&c/é~" = "a+b%26c%2F%C3%A9~" := by decide
example : Values.Encode [("name", ["Jane Doe"]), ("city", ["Oslo", "Rome"])] =
    "city=Oslo&city=Rome&name=Jane+Doe" := by decide
example : hasSuffix "city,omitempty" "omitempty" = true := by decide
example : trimSuffix "city,omitempty" ",omitempty" = "city" := by decide
example : trimSuffix "city" ",omitempty" = "city" := by decide
example : trimQuotes "\"\"12\"".toList = "12".toList := by decide
example : (Work.par (Work.add "a" "1") (Work.seq (Work.add "b" "2") (Work.add "a" "3"))).traces.map
    (fun tr => (Values.ofTrace tr).values "a") = [["1", "3"], ["1", "3"], ["3", "1"]] := by decide
example : (JSONBool.UnmarshalJSON ⟨false⟩ "\"true\"") = (⟨true⟩, none) := by decide
example : (JSONTime.UnmarshalJSON ⟨Time.zero⟩ "\"1700000000\"").1.ToTime.Unix = 1700000000 := by
  decide
example : (CustomerCriteria.UrlValues (CustomerCriteria.validator ⟨fun _ => true, fun _ => true⟩)
    ⟨⟨["r1"], [], Time.zero, Time.zero⟩, "", "", "", "Oslo", "", F64.finite false 25 (-1),
      F64.finite false 0 0⟩).map (fun r => (r.1.values "city", r.1.values "total-receipt-start",
        r.1.values "reseller-id")) = [(["Oslo"], ["12.50"], []), (["Oslo"], ["12.50"], [])] := by
  decide

/-! ## The multi-map built from a trace -/

theorem Values.values_Add (m : Values) (k v k' : String) :
    (m.Add k v).values k' = if k = k' then m.values k' ++ [v] else m.values k' := by
  induction m with
  | nil =>
    by_cases h : k = k' <;> simp [Values.Add, Values.values, h]
  | cons e rest ih =>
    obtain ⟨k0, vs⟩ := e
    by_cases h0 : k0 = k
    · subst h0
      by_cases h : k0 = k' <;> simp [Values.Add, Values.values, h]
    · by_cases h1 : k0 = k'
      · subst h1
        have h2 : ¬ k = k0 := fun h => h0 h.symm
        simp [Values.Add, Values.values, h0, h2]
      · simp [Values.Add, Values.values, h0, h1, ih]

theorem Values.values_foldl (tr : List Pair) (m : Values) (k : String) :
    (tr.foldl (fun m p => m.Add p.1 p.2) m).values k =
      m.values k ++ (tr.filter (fun p => p.1 == k)).map Prod.snd := by
  induction tr generalizing m with
  | nil => simp
  | cons p tr ih =>
    simp only [List.foldl_cons, ih, Values.values_Add]
    by_cases h : p.1 = k <;> simp [List.filter_cons, h]

/-- The values under a key are the values of the `Add`s on that key, in the order of
the trace. -/
theorem Values.values_ofTrace (tr : List Pair) (k : String) :
    (Values.ofTrace tr).values k = (tr.filter (fun p => p.1 == k)).map Prod.snd := by
  simp [Values.ofTrace, Values.values_foldl, Values.empty, Values.values]

theorem Values.Has_Add (m : Values) (k v k' : String) :
    (m.Add k v).Has k' = (m.Has k' || k == k') := by
  induction m with
  | nil => simp [Values.Add, Values.Has]
  | cons e rest ih =>
    obtain ⟨k0, vs⟩ := e
    simp only [Values.Has] at ih
    by_cases h0 : k0 = k
    · subst h0
      by_cases h : k0 = k' <;> simp [Values.Add, Values.Has, h]
    · simp only [Values.Add, Values.Has, h0, if_false, List.any_cons, ih, Bool.or_assoc]

theorem Values.Has_foldl (tr : List Pair) (m : Values) (k : String) :
    (tr.foldl (fun m p => m.Add p.1 p.2) m).Has k = (m.Has k || tr.any (fun p => p.1 == k)) := by
  induction tr generalizing m with
  | nil => simp
  | cons p tr ih => simp [List.foldl_cons, ih, Values.Has_Add, Bool.or_assoc]

/-- A key is present exactly when the trace has an `Add` on it. -/
theorem Values.Has_ofTrace (tr : List Pair) (k : String) :
    (Values.ofTrace tr).Has k = tr.any (fun p => p.1 == k) := by
  have h := Values.Has_foldl tr Values.empty k
  simpa [Values.ofTrace, Values.empty, Values.Has] using h

/-! ## Traces are rearrangements of the program-order `Add`s -/

theorem interleaveAux_perm {α : Type} (x : α) (xs : List α) (rec : List α → List (List α))
    (hrec : ∀ ys t, t ∈ rec ys → t.Perm (xs ++ ys)) :
    ∀ ys t, t ∈ interleaveAux x xs rec ys → t.Perm (x :: xs ++ ys) := by
  intro ys
  induction ys with
  | nil =>
    intro t ht
    simp [interleaveAux] at ht
    subst ht
    simp
  | cons y ys ih =>
    intro t ht
    simp only [interleaveAux, List.mem_append, List.mem_map] at ht
    rcases ht with ⟨t', ht', rfl⟩ | ⟨t', ht', rfl⟩
    · exact (hrec _ _ ht').cons x
    · have h1 := (ih t' ht').cons y
      refine h1.trans ?_
      have : (y :: (x :: xs ++ ys)).Perm (x :: xs ++ y :: ys) := by
        simpa using (@List.perm_middle _ y (x :: xs) ys).symm
      exact this

theorem interleavings_perm {α : Type} (xs ys t : List α) (ht : t ∈ interleavings xs ys) :
    t.Perm (xs ++ ys) := by
  induction xs generalizing ys t with
  | nil =>
    simp [interleavings] at ht
    subst ht
    simp
  | cons x xs ih =>
    exact interleaveAux_perm x xs (interleavings xs) (fun ys t h => ih ys t h) ys t ht

theorem append_mem_interleavings {α : Type} (xs ys : List α) :
    xs ++ ys ∈ interleavings xs ys := by
  induction xs with
  | nil => simp [interleavings]
  | cons x xs ih =>
    cases ys with
    | nil => simp [interleavings, interleaveAux]
    | cons y ys =>
      simp only [interleavings, interleaveAux, List.mem_append, List.mem_map]
      exact Or.inl ⟨xs ++ y :: ys, ih, rfl⟩

/-- Every trace of a piece of work is a rearrangement of its `Add`s. -/
theorem Work.traces_perm (w : Work) : ∀ tr ∈ w.traces, tr.Perm w.adds := by
  induction w with
  | skip => intro tr h; simp [Work.traces] at h; subst h; simp [Work.adds]
  | add k v => intro tr h; simp [Work.traces] at h; subst h; simp [Work.adds]
  | seq a b iha ihb =>
    intro tr h
    simp only [Work.traces, List.mem_flatMap, List.mem_map] at h
    obtain ⟨ta, hta, tb, htb, rfl⟩ := h
    exact (iha ta hta).append (ihb tb htb)
  | par a b iha ihb =>
    intro tr h
    simp only [Work.traces, List.mem_flatMap] at h
    obtain ⟨ta, hta, tb, htb, h⟩ := h
    exact (interleavings_perm ta tb tr h).trans ((iha ta hta).append (ihb tb htb))

/-- The program-order schedule is one of the traces: a piece of work always has a
run. -/
theorem Work.adds_mem_traces (w : Work) : w.adds ∈ w.traces := by
  induction w with
  | skip => simp [Work.traces, Work.adds]
  | add k v => simp [Work.traces, Work.adds]
  | seq a b iha ihb =>
    simp only [Work.traces, Work.adds, List.mem_flatMap, List.mem_map]
    exact ⟨a.adds, iha, b.adds, ihb, rfl⟩
  | par a b iha ihb =>
    simp only [Work.traces, Work.adds, List.mem_flatMap]
    exact ⟨a.adds, iha, b.adds, ihb, append_mem_interleavings _ _⟩

theorem Work.adds_parAll (ws : List Work) : (Work.parAll ws).adds = ws.flatMap Work.adds := by
  induction ws with
  | nil => simp [Work.parAll, Work.adds]
  | cons w ws ih => simp [Work.parAll, Work.adds, ih]

theorem Work.adds_seqAll (ws : List Work) : (Work.seqAll ws).adds = ws.flatMap Work.adds := by
  induction ws with
  | nil => simp [Work.seqAll, Work.adds]
  | cons w ws ih => simp [Work.seqAll, Work.adds, ih]

/-- The values under a key in the map of any trace are a rearrangement of the values
that the program-order `Add`s put under it. -/
theorem Work.values_perm (w : Work) (tr : List Pair) (h : tr ∈ w.traces) (k : String) :
    ((Values.ofTrace tr).values k).Perm ((w.adds.filter (fun p => p.1 == k)).map Prod.snd) := by
  rw [Values.values_ofTrace]
  exact ((Work.traces_perm w tr h).filter _).map _

/-! ## The values under a key, field by field -/

theorem Values.Has_iff_values (tr : List Pair) (k : String) :
    (Values.ofTrace tr).Has k = true ↔ (Values.ofTrace tr).values k ≠ [] := by
  rw [Values.Has_ofTrace, Values.values_ofTrace]
  simp only [List.any_eq_true, ne_eq, List.map_eq_nil_iff, List.filter_eq_nil_iff, not_forall,
    Classical.not_imp, not_not, exists_prop]

theorem Work.adds_parAll_add (k : String) (xs : List String) :
    (Work.parAll (xs.map (fun x => Work.add k x))).adds = xs.map (fun x => (k, x)) := by
  induction xs with
  | nil => simp [Work.parAll, Work.adds]
  | cons x xs ih => simp [Work.parAll, Work.adds, ih]

theorem Work.adds_seqAll_add (k : String) (xs : List String) :
    (Work.seqAll (xs.map (fun x => Work.add k x))).adds = xs.map (fun x => (k, x)) := by
  induction xs with
  | nil => simp [Work.seqAll, Work.adds]
  | cons x xs ih => simp [Work.seqAll, Work.adds, ih]

/-- The `Add`s for a sequence of ordering maps: one per entry, map after map. -/
theorem Work.adds_sortOrders (k : String) (ms : List SortOrder) :
    (Work.seqAll (ms.map (fun m => Work.parAll (m.map (fun e => Work.add k (sortToken e)))))).adds =
      ms.flatMap (fun m => m.map (fun e => (k, sortToken e))) := by
  induction ms with
  | nil => simp [Work.seqAll, Work.adds]
  | cons m ms ih =>
    have hm : (Work.parAll (m.map (fun e => Work.add k (sortToken e)))).adds =
        m.map (fun e => (k, sortToken e)) := by
      induction m with
      | nil => simp [Work.parAll, Work.adds]
      | cons e m ihm => simp [Work.parAll, Work.adds, ihm]
    simp [Work.seqAll, Work.adds, ih, hm]

/-- Filtering the `Add`s of a list of fields by a key keeps the `Add`s of the fields
that carry this key, when every goroutine adds under the key of its own field. -/
theorem filter_adds_by_key (fw : Field → Work)
    (hkey : ∀ f p, p ∈ (fw f).adds → p.1 = queryField f.query) (k : String)
    (fields : List Field) :
    ((fields.flatMap (fun f => (fw f).adds)).filter (fun p => p.1 == k)).map Prod.snd =
      (fields.filter (fun f => queryField f.query == k)).flatMap
        (fun f => (fw f).adds.map Prod.snd) := by
  induction fields with
  | nil => simp
  | cons f fields ih =>
    simp only [List.flatMap_cons, List.filter_append, List.map_append, ih]
    by_cases hk : queryField f.query = k
    · have h1 : (fw f).adds.filter (fun p => p.1 == k) = (fw f).adds := by
        rw [List.filter_eq_self]
        intro p hp
        simp [hkey f p hp, hk]
      simp [List.filter_cons, hk, h1]
    · have h1 : (fw f).adds.filter (fun p => p.1 == k) = [] := by
        rw [List.filter_eq_nil_iff]
        intro p hp
        simp [hkey f p hp, hk]
      simp [List.filter_cons, hk, h1]

/-- In every run of the field loop, the values under a key are a rearrangement of the
values added by the fields that carry this key. -/
theorem fields_values_perm (fw : Field → Work)
    (hkey : ∀ f p, p ∈ (fw f).adds → p.1 = queryField f.query) (fields : List Field)
    (tr : List Pair) (htr : tr ∈ (Work.parAll (fields.map fw)).traces) (k : String) :
    ((Values.ofTrace tr).values k).Perm
      ((fields.filter (fun f => queryField f.query == k)).flatMap
        (fun f => (fw f).adds.map Prod.snd)) := by
  have h := Work.values_perm _ tr htr k
  rw [Work.adds_parAll, List.flatMap_map] at h
  rw [← filter_adds_by_key fw hkey k fields]
  exact h

theorem criteria_fieldWork_key (f : Field) (p : Pair) (hp : p ∈ (Criteria.fieldWork f).adds) :
    p.1 = queryField f.query := by
  obtain ⟨n, rules, tag, v⟩ := f
  unfold Criteria.fieldWork at hp
  split_ifs at hp <;> try (simp [Work.adds] at hp)
  cases v <;> simp [Work.adds, Work.adds_parAll_add] at hp <;> aesop

theorem customerCriteria_fieldWork_key (f : Field) (p : Pair)
    (hp : p ∈ (CustomerCriteria.fieldWork f).adds) : p.1 = queryField f.query := by
  obtain ⟨n, rules, tag, v⟩ := f
  unfold CustomerCriteria.fieldWork at hp
  split_ifs at hp <;> try (simp [Work.adds] at hp)
  cases v <;> simp [Work.adds, Work.adds_seqAll_add] at hp <;> aesop

theorem signUpForm_fieldWork_key (f : Field) (p : Pair)
    (hp : p ∈ (SignUpForm.fieldWork f).adds) : p.1 = queryField f.query := by
  obtain ⟨n, rules, tag, v⟩ := f
  unfold SignUpForm.fieldWork at hp
  split_ifs at hp <;> try (simp [Work.adds] at hp)
  cases v <;> simp [Work.adds] at hp <;> aesop

theorem orderCriteria_fieldWork_key (f : Field) (p : Pair)
    (hp : p ∈ (OrderCriteria.fieldWork f).adds) : p.1 = queryField f.query := by
  obtain ⟨n, rules, tag, v⟩ := f
  unfold OrderCriteria.fieldWork at hp
  split_ifs at hp <;> try (simp [Work.adds] at hp)
  cases v <;> simp [Work.adds, Work.adds_seqAll_add, Work.adds_sortOrders] at hp <;> aesop

/-! ## The results of a call that passes validation -/

theorem criteria_result_values (V : Validator Criteria) (c : Criteria) (hv : V.Struct c = none)
    (out : Values × Option Error) (hout : out ∈ Criteria.URLValues V c) (k : String) :
    out.2 = none ∧ (out.1.values k).Perm
      ((c.fields.filter (fun f => queryField f.query == k)).flatMap
        (fun f => (Criteria.fieldWork f).adds.map Prod.snd)) := by
  simp only [Criteria.URLValues, hv, List.mem_map] at hout
  obtain ⟨tr, htr, rfl⟩ := hout
  exact ⟨rfl, fields_values_perm _ criteria_fieldWork_key _ tr htr k⟩

theorem customerCriteria_result_values (V : Validator CustomerCriteria) (c : CustomerCriteria)
    (hv : V.Struct c = none) (out : Values × Option Error)
    (hout : out ∈ CustomerCriteria.UrlValues V c) (k : String) :
    out.2 = none ∧ (out.1.values k).Perm
      ((c.fields.filter (fun f => queryField f.query == k)).flatMap
        (fun f => (CustomerCriteria.fieldWork f).adds.map Prod.snd)) := by
  simp only [CustomerCriteria.UrlValues, hv, List.mem_map] at hout
  obtain ⟨tr, htr, rfl⟩ := hout
  exact ⟨rfl, fields_values_perm _ customerCriteria_fieldWork_key _ tr htr k⟩

theorem signUpForm_result_values (V : Validator SignUpForm) (r : SignUpForm)
    (hreg : V.RegisterValidation "rcpassword" validatePassword = none) (hv : V.Struct r = none)
    (out : Values × Option Error) (hout : out ∈ SignUpForm.UrlValues V r) (k : String) :
    out.2 = none ∧ (out.1.values k).Perm
      ((r.fields.filter (fun f => queryField f.query == k)).flatMap
        (fun f => (SignUpForm.fieldWork f).adds.map Prod.snd)) := by
  simp only [SignUpForm.UrlValues, hreg, hv, List.mem_map] at hout
  obtain ⟨tr, htr, rfl⟩ := hout
  exact ⟨rfl, fields_values_perm _ signUpForm_fieldWork_key _ tr htr k⟩

theorem orderCriteria_result_values (V : Validator OrderCriteria) (c : OrderCriteria)
    (hv : V.Struct c = none) (out : Values × Option Error)
    (hout : out ∈ OrderCriteria.URLValues V c) (k : String) :
    out.2 = none ∧ (out.1.values k).Perm
      ((c.fields.filter (fun f => queryField f.query == k)).flatMap
        (fun f => (OrderCriteria.fieldWork f).adds.map Prod.snd)) := by
  simp only [OrderCriteria.URLValues, hv, List.mem_map] at hout
  obtain ⟨tr, htr, rfl⟩ := hout
  exact ⟨rfl, fields_values_perm _ orderCriteria_fieldWork_key _ tr htr k⟩

/-- Every result of `CustomerCriteria.UrlValues` is either the empty map with an error
or the map of a run of the field loop, without error. -/
theorem customerCriteria_result_shape (V : Validator CustomerCriteria) (c : CustomerCriteria)
    (out : Values × Option Error) (hout : out ∈ CustomerCriteria.UrlValues V c) :
    (out.1 = Values.empty ∧ out.2 ≠ none) ∨
      ∃ tr ∈ (CustomerCriteria.work c).traces, out = (Values.ofTrace tr, none) := by
  unfold CustomerCriteria.UrlValues at hout
  split at hout
  · simp at hout; simp [hout]
  · simp only [List.mem_map] at hout
    obtain ⟨tr, htr, rfl⟩ := hout
    exact Or.inr ⟨tr, htr, rfl⟩

/-- Every result of `OrderCriteria.URLValues` is either the empty map with an error or
the map of a run of the field loop, without error. -/
theorem orderCriteria_result_shape (V : Validator OrderCriteria) (c : OrderCriteria)
    (out : Values × Option Error) (hout : out ∈ OrderCriteria.URLValues V c) :
    (out.1 = Values.empty ∧ out.2 ≠ none) ∨
      ∃ tr ∈ (OrderCriteria.work c).traces, out = (Values.ofTrace tr, none) := by
  unfold OrderCriteria.URLValues at hout
  split at hout
  · simp at hout; simp [hout]
  · simp only [List.mem_map] at hout
    obtain ⟨tr, htr, rfl⟩ := hout
    exact Or.inr ⟨tr, htr, rfl⟩

/-- A piece of work has at least one run. -/
theorem Work.traces_ne_nil (w : Work) : w.traces ≠ [] :=
  List.ne_nil_of_mem (Work.adds_mem_traces w)

/-! ## Validation before encoding -/

/-- C1: when validation fails, each of the four encoders returns exactly the error
together with the empty map, and no result of any call carries both an error and a
wire pair. -/
theorem validation_error_gives_empty_map :
    (∀ (V : Validator SignUpForm) (r : SignUpForm) (e : Error),
      V.RegisterValidation "rcpassword" validatePassword = none → V.Struct r = some e →
        SignUpForm.UrlValues V r = [(Values.empty, some e)]) ∧
    (∀ (V : Validator Criteria) (c : Criteria) (e : Error), V.Struct c = some e →
        Criteria.URLValues V c = [(Values.empty, some e)]) ∧
    (∀ (V : Validator CustomerCriteria) (c : CustomerCriteria) (e : Error), V.Struct c = some e →
        CustomerCriteria.UrlValues V c = [(Values.empty, some e)]) ∧
    (∀ (V : Validator OrderCriteria) (c : OrderCriteria) (e : Error), V.Struct c = some e →
        OrderCriteria.URLValues V c = [(Values.empty, some e)]) ∧
    (∀ (V : Validator SignUpForm) (r : SignUpForm), ∀ out ∈ SignUpForm.UrlValues V r,
        out.2 ≠ none → out.1 = Values.empty) ∧
    (∀ (V : Validator Criteria) (c : Criteria), ∀ out ∈ Criteria.URLValues V c,
        out.2 ≠ none → out.1 = Values.empty) ∧
    (∀ (V : Validator CustomerCriteria) (c : CustomerCriteria),
        ∀ out ∈ CustomerCriteria.UrlValues V c, out.2 ≠ none → out.1 = Values.empty) ∧
    (∀ (V : Validator OrderCriteria) (c : OrderCriteria), ∀ out ∈ OrderCriteria.URLValues V c,
        out.2 ≠ none → out.1 = Values.empty) := by
  refine ⟨?_, ?_, ?_, ?_, ?_, ?_, ?_, ?_⟩
  · intro V r e hreg hv
    simp [SignUpForm.UrlValues, hreg, hv]
  · intro V c e hv
    simp [Criteria.URLValues, hv]
  · intro V c e hv
    simp [CustomerCriteria.UrlValues, hv]
  · intro V c e hv
    simp [OrderCriteria.URLValues, hv]
  · intro V r out hout hne
    unfold SignUpForm.UrlValues at hout
    split at hout
    · simp at hout; simp [hout]
    · split at hout
      · simp at hout; simp [hout]
      · simp only [List.mem_map] at hout
        obtain ⟨tr, _, rfl⟩ := hout
        simp at hne
  · intro V c out hout hne
    unfold Criteria.URLValues at hout
    split at hout
    · simp at hout; simp [hout]
    · simp only [List.mem_map] at hout
      obtain ⟨tr, _, rfl⟩ := hout
      simp at hne
  · intro V c out hout hne
    unfold CustomerCriteria.UrlValues at hout
    split at hout
    · simp at hout; simp [hout]
    · simp only [List.mem_map] at hout
      obtain ⟨tr, _, rfl⟩ := hout
      simp at hne
  · intro V c out hout hne
    unfold OrderCriteria.URLValues at hout
    split at hout
    · simp at hout; simp [hout]
    · simp only [List.mem_map] at hout
      obtain ⟨tr, _, rfl⟩ := hout
      simp at hne

/-- Witness for C1: the empty sign-up form fails the rule `required`, and the call
returns that error with the empty map; a `core.Criteria` rejected by the engine gives
the empty map as well. -/
theorem validation_error_gives_empty_map_witness :
    ((SignUpForm.validator sampleRules).Struct emptyForm =
        some (Error.validation emptyFormErrors) ∧
      SignUpForm.UrlValues (SignUpForm.validator sampleRules) emptyForm =
        [(Values.empty, some (Error.validation emptyFormErrors))]) ∧
    Criteria.URLValues (rejecting Criteria) ⟨["r1"], [], Time.zero, Time.zero⟩ =
      [(Values.empty, some (Error.other "rejected"))] :=
  ⟨⟨by decide, validation_error_gives_empty_map.1 _ _ _ (by decide) (by decide)⟩,
    validation_error_gives_empty_map.2.1 _ _ _ (by decide)⟩

/-! ## Sequence expansion -/

/-- C4: in every result of `Criteria.URLValues` on a value that passes validation, the
key `reseller-id` carries exactly as many values as `ResellerIDs` has elements, and
these values are the elements as a multiset; likewise `customer-id` and
`CustomerIDs`.  For `["a", "b", "c"]` the key has three values, each of `a`, `b`, `c`
once.  The call has at least one result. -/
theorem criteria_sequence_expansion (V : Validator Criteria) (c : Criteria)
    (hv : V.Struct c = none) :
    Criteria.URLValues V c ≠ [] ∧
    ∀ out ∈ Criteria.URLValues V c,
      (out.1.values "reseller-id").length = c.ResellerIDs.length ∧
      (out.1.values "reseller-id").Perm c.ResellerIDs ∧
      (out.1.values "customer-id").length = c.CustomerIDs.length ∧
      (out.1.values "customer-id").Perm c.CustomerIDs ∧
      (c.ResellerIDs = ["a", "b", "c"] →
        (out.1.values "reseller-id").length = 3 ∧ (out.1.values "reseller-id").count "a" = 1 ∧
        (out.1.values "reseller-id").count "b" = 1 ∧ (out.1.values "reseller-id").count "c" = 1) := by
  have key1 : ∀ out ∈ Criteria.URLValues V c, (out.1.values "reseller-id").Perm c.ResellerIDs := by
    intro out hout
    have h := (criteria_result_values V c hv out hout "reseller-id").2
    have hf : c.fields.filter (fun f => queryField f.query == "reseller-id") =
        [⟨"ResellerIDs", [Rule.omitempty], "reseller-id,omitempty", Value.strings c.ResellerIDs⟩] :=
      rfl
    rw [hf] at h
    have ha : (Criteria.fieldWork
        ⟨"ResellerIDs", [Rule.omitempty], "reseller-id,omitempty", Value.strings c.ResellerIDs⟩).adds
        = c.ResellerIDs.map (fun x => ("reseller-id", x)) := by
      have q : queryField "reseller-id,omitempty" = "reseller-id" := by decide
      have o : omitEmpty "reseller-id,omitempty" = true := by decide
      cases hr : c.ResellerIDs <;>
        simp [Criteria.fieldWork, Value.IsZero, q, o, Work.adds, Work.adds_parAll_add, Work.parAll]
    simpa [ha] using h
  have key2 : ∀ out ∈ Criteria.URLValues V c, (out.1.values "customer-id").Perm c.CustomerIDs := by
    intro out hout
    have h := (criteria_result_values V c hv out hout "customer-id").2
    have hf : c.fields.filter (fun f => queryField f.query == "customer-id") =
        [⟨"CustomerIDs", [Rule.omitempty], "customer-id,omitempty", Value.strings c.CustomerIDs⟩] :=
      rfl
    rw [hf] at h
    have ha : (Criteria.fieldWork
        ⟨"CustomerIDs", [Rule.omitempty], "customer-id,omitempty", Value.strings c.CustomerIDs⟩).adds
        = c.CustomerIDs.map (fun x => ("customer-id", x)) := by
      have q : queryField "customer-id,omitempty" = "customer-id" := by decide
      have o : omitEmpty "customer-id,omitempty" = true := by decide
      cases hr : c.CustomerIDs <;>
        simp [Criteria.fieldWork, Value.IsZero, q, o, Work.adds, Work.adds_parAll_add, Work.parAll]
    simpa [ha] using h
  refine ⟨?_, ?_⟩
  · simp [Criteria.URLValues, hv, Work.traces_ne_nil]
  · intro out hout
    have h1 := key1 out hout
    have h2 := key2 out hout
    refine ⟨h1.length_eq, h1, h2.length_eq, h2, ?_⟩
    intro habc
    rw [habc] at h1
    refine ⟨h1.length_eq, ?_, ?_, ?_⟩
    · rw [h1.count_eq]; decide
    · rw [h1.count_eq]; decide
    · rw [h1.count_eq]; decide

/-- Witness for C4 on the criteria with reseller ids `a`, `b`, `c`, validated by
the engine on the tags of `core.Criteria`. -/
theorem criteria_sequence_expansion_witness :
    (Criteria.validator sampleRules).Struct ⟨["a", "b", "c"], ["7"], Time.zero, Time.zero⟩ = none ∧
    ∀ out ∈ Criteria.URLValues (Criteria.validator sampleRules)
        ⟨["a", "b", "c"], ["7"], Time.zero, Time.zero⟩,
      (out.1.values "reseller-id").length = 3 ∧
      (out.1.values "reseller-id").Perm ["a", "b", "c"] :=
  ⟨by decide, fun out hout =>
    ⟨((criteria_sequence_expansion (Criteria.validator sampleRules)
        ⟨["a", "b", "c"], ["7"], Time.zero, Time.zero⟩ (by decide)).2 out hout).1,
     ((criteria_sequence_expansion (Criteria.validator sampleRules)
        ⟨["a", "b", "c"], ["7"], Time.zero, Time.zero⟩ (by decide)).2 out hout).2.1⟩⟩

/-! ## Omit-on-empty -/

/-- C2: in each of the four encoders, the goroutine of a field whose `query` tag is
marked `omitempty` and whose value is the zero value of its kind performs no `Add` in
its only run; and for every `CustomerCriteria` with `City = ""` no result of
`UrlValues` has the key `city`. -/
theorem omitempty_zero_contributes_nothing :
    (∀ f : Field, omitEmpty f.query = true → f.value.IsZero = true →
      (Criteria.fieldWork f).traces = [[]] ∧ (CustomerCriteria.fieldWork f).traces = [[]] ∧
      (SignUpForm.fieldWork f).traces = [[]] ∧ (OrderCriteria.fieldWork f).traces = [[]]) ∧
    (∀ (V : Validator CustomerCriteria) (c : CustomerCriteria), c.City = "" →
      ∀ out ∈ CustomerCriteria.UrlValues V c,
        out.1.Has "city" = false ∧ out.1.values "city" = []) := by
  constructor
  · intro f ho hz
    refine ⟨?_, ?_, ?_, ?_⟩
    · unfold Criteria.fieldWork
      split_ifs <;> simp_all [Work.traces]
    · unfold CustomerCriteria.fieldWork
      split_ifs <;> simp_all [Work.traces]
    · unfold SignUpForm.fieldWork
      split_ifs <;> simp_all [Work.traces]
    · unfold OrderCriteria.fieldWork
      split_ifs <;> simp_all [Work.traces]
  · intro V c hcity out hout
    rcases customerCriteria_result_shape V c out hout with ⟨h1, _⟩ | ⟨tr, htr, rfl⟩
    · rw [h1]
      exact ⟨rfl, rfl⟩
    · have h := fields_values_perm _ customerCriteria_fieldWork_key _ tr htr "city"
      have hf : c.fields.filter (fun f => queryField f.query == "city") =
          [⟨"City", [Rule.omitempty], "city,omitempty", Value.string c.City⟩] := rfl
      rw [hf, hcity] at h
      have ha : (CustomerCriteria.fieldWork
          ⟨"City", [Rule.omitempty], "city,omitempty", Value.string ""⟩).adds = [] := by decide
      simp only [List.flatMap_cons, List.flatMap_nil, ha, List.map_nil, List.append_nil,
        List.perm_nil] at h
      refine ⟨?_, h⟩
      have hh := Values.Has_iff_values tr "city"
      simp only [h, ne_eq, not_true_eq_false, iff_false, Bool.not_eq_true] at hh
      exact hh

/-- Witness for C2: the `City` field with the empty string is marked `omitempty` and
zero, and a criteria with an empty `City` and a non-empty `Name` has no key `city` in
any result. -/
theorem omitempty_zero_contributes_nothing_witness :
    (omitEmpty "city,omitempty" = true ∧ (Value.string "").IsZero = true ∧
      (CustomerCriteria.fieldWork
        ⟨"City", [Rule.omitempty], "city,omitempty", Value.string ""⟩).traces = [[]]) ∧
    ∀ out ∈ CustomerCriteria.UrlValues (CustomerCriteria.validator sampleRules)
        ⟨⟨[], [], Time.zero, Time.zero⟩, "", "Jane", "", "", "", F64.finite false 0 0,
          F64.finite false 0 0⟩,
      out.1.Has "city" = false ∧ out.1.values "city" = [] :=
  ⟨⟨by decide, by decide,
     (omitempty_zero_contributes_nothing.1
       ⟨"City", [Rule.omitempty], "city,omitempty", Value.string ""⟩ (by decide) (by decide)).2.1⟩,
   omitempty_zero_contributes_nothing.2 (CustomerCriteria.validator sampleRules)
     ⟨⟨[], [], Time.zero, Time.zero⟩, "", "Jane", "", "", "", F64.finite false 0 0,
       F64.finite false 0 0⟩ rfl⟩

/-! ## The embedded base record -/

/-- C3 (the code at the failing input, and in general): `Criteria.URLValues` on the
base record with `ResellerIDs = ["r1"]` yields the pair `reseller-id = r1`, while
`CustomerCriteria.UrlValues` and `OrderCriteria.URLValues` on a record embedding that
base record yield the empty map; indeed no result of either has any value under
`reseller-id`, `customer-id`, `creation-date-start` or `creation-date-end`, whatever
the record. -/
theorem embedded_criteria_is_not_encoded :
    Criteria.URLValues (Criteria.validator sampleRules) ⟨["r1"], [], Time.zero, Time.zero⟩ =
      [([("reseller-id", ["r1"])], none)] ∧
    CustomerCriteria.UrlValues (CustomerCriteria.validator sampleRules)
      ⟨⟨["r1"], [], Time.zero, Time.zero⟩, "", "", "", "", "", F64.finite false 0 0,
        F64.finite false 0 0⟩ = [(Values.empty, none)] ∧
    OrderCriteria.URLValues (OrderCriteria.validator sampleRules)
      ⟨⟨["r1"], [], Time.zero, Time.zero⟩, [], [], [], [], "", Value.string "", false,
        Time.zero, Time.zero⟩ = [(Values.empty, none)] ∧
    (∀ (V : Validator CustomerCriteria) (c : CustomerCriteria),
      ∀ out ∈ CustomerCriteria.UrlValues V c,
        out.1.values "reseller-id" = [] ∧ out.1.values "customer-id" = [] ∧
        out.1.values "creation-date-start" = [] ∧ out.1.values "creation-date-end" = []) ∧
    (∀ (V : Validator OrderCriteria) (c : OrderCriteria),
      ∀ out ∈ OrderCriteria.URLValues V c,
        out.1.values "reseller-id" = [] ∧ out.1.values "customer-id" = [] ∧
        out.1.values "creation-date-start" = [] ∧ out.1.values "creation-date-end" = []) := by
  refine ⟨by decide, by decide, by decide, ?_, ?_⟩
  · intro V c out hout
    rcases customerCriteria_result_shape V c out hout with ⟨h1, _⟩ | ⟨tr, htr, rfl⟩
    · rw [h1]
      exact ⟨rfl, rfl, rfl, rfl⟩
    · have h := fields_values_perm _ customerCriteria_fieldWork_key _ tr htr
      have f1 : c.fields.filter (fun f => queryField f.query == "reseller-id") = [] := rfl
      have f2 : c.fields.filter (fun f => queryField f.query == "customer-id") = [] := rfl
      have f3 : c.fields.filter (fun f => queryField f.query == "creation-date-start") = [] := rfl
      have f4 : c.fields.filter (fun f => queryField f.query == "creation-date-end") = [] := rfl
      have h1 := h "reseller-id"
      have h2 := h "customer-id"
      have h3 := h "creation-date-start"
      have h4 := h "creation-date-end"
      rw [f1] at h1
      rw [f2] at h2
      rw [f3] at h3
      rw [f4] at h4
      exact ⟨List.perm_nil.mp h1, List.perm_nil.mp h2, List.perm_nil.mp h3, List.perm_nil.mp h4⟩
  · intro V c out hout
    rcases orderCriteria_result_shape V c out hout with ⟨h1, _⟩ | ⟨tr, htr, rfl⟩
    · rw [h1]
      exact ⟨rfl, rfl, rfl, rfl⟩
    · have h := fields_values_perm _ orderCriteria_fieldWork_key _ tr htr
      have f1 : c.fields.filter (fun f => queryField f.query == "reseller-id") = [] := rfl
      have f2 : c.fields.filter (fun f => queryField f.query == "customer-id") = [] := rfl
      have f3 : c.fields.filter (fun f => queryField f.query == "creation-date-start") = [] := rfl
      have f4 : c.fields.filter (fun f => queryField f.query == "creation-date-end") = [] := rfl
      have h1 := h "reseller-id"
      have h2 := h "customer-id"
      have h3 := h "creation-date-start"
      have h4 := h "creation-date-end"
      rw [f1] at h1
      rw [f2] at h2
      rw [f3] at h3
      rw [f4] at h4
      exact ⟨List.perm_nil.mp h1, List.perm_nil.mp h2, List.perm_nil.mp h3, List.perm_nil.mp h4⟩

/-! ## Ordering tokens -/

/-- C5: in every result of `OrderCriteria.URLValues` on a value that passes
validation, the values under `order-by` are, as a multiset, the tokens of all entries
of all maps of `SortOrderBy`: the field identifier followed by `" desc"` when the flag
is set, the bare identifier otherwise.  The map `{"price": true}` gives the single
token `"price desc"` and `{"price": false}` gives `"price"`.  The call has at least
one result. -/
theorem order_by_tokens (V : Validator OrderCriteria) (c : OrderCriteria)
    (hv : V.Struct c = none) :
    OrderCriteria.URLValues V c ≠ [] ∧
    ∀ out ∈ OrderCriteria.URLValues V c,
      (out.1.values "order-by").Perm
        (c.SortOrderBy.flatMap (fun m => m.map (fun e => if e.2 = true then e.1 ++ " desc" else e.1))) ∧
      (c.SortOrderBy = [[("price", true)]] → out.1.values "order-by" = ["price desc"]) ∧
      (c.SortOrderBy = [[("price", false)]] → out.1.values "order-by" = ["price"]) := by
  have key : ∀ out ∈ OrderCriteria.URLValues V c, (out.1.values "order-by").Perm
      (c.SortOrderBy.flatMap (fun m => m.map (fun e => if e.2 = true then e.1 ++ " desc" else e.1))) := by
    intro out hout
    have h := (orderCriteria_result_values V c hv out hout "order-by").2
    have hf : c.fields.filter (fun f => queryField f.query == "order-by") =
        [⟨"SortOrderBy", [Rule.omitempty], "order-by,omitempty", Value.sortOrders c.SortOrderBy⟩] :=
      rfl
    rw [hf] at h
    have ha : (OrderCriteria.fieldWork
        ⟨"SortOrderBy", [Rule.omitempty], "order-by,omitempty", Value.sortOrders c.SortOrderBy⟩).adds
        = c.SortOrderBy.flatMap (fun m => m.map (fun e => ("order-by", sortToken e))) := by
      have q : queryField "order-by,omitempty" = "order-by" := by decide
      have o : omitEmpty "order-by,omitempty" = true := by decide
      have t : "order-by,omitempty" ≠ "" := by decide
      simp only [OrderCriteria.fieldWork, if_pos t, Value.IsZero, q, o, Bool.true_and]
      split_ifs with h2
      · have h3 : c.SortOrderBy = [] := List.isEmpty_iff.mp h2
        simp [h3, Work.adds]
      · exact Work.adds_sortOrders _ _
    simp only [List.flatMap_cons, List.flatMap_nil, ha, List.append_nil, List.map_flatMap,
      List.map_map] at h
    exact h
  refine ⟨?_, ?_⟩
  · simp [OrderCriteria.URLValues, hv, Work.traces_ne_nil]
  · intro out hout
    have h := key out hout
    refine ⟨h, ?_, ?_⟩
    · intro hp
      rw [hp] at h
      exact List.perm_singleton.mp h
    · intro hp
      rw [hp] at h
      exact List.perm_singleton.mp h

/-- Witness for C5 on a criteria ordered by `price` descending and by `name`
ascending. -/
theorem order_by_tokens_witness :
    (OrderCriteria.validator sampleRules).Struct
      ⟨⟨[], [], Time.zero, Time.zero⟩, [], [[("price", true)], [("name", false)]], [], [], "",
        Value.string "", false, Time.zero, Time.zero⟩ = none ∧
    ∀ out ∈ OrderCriteria.URLValues (OrderCriteria.validator sampleRules)
        ⟨⟨[], [], Time.zero, Time.zero⟩, [], [[("price", true)], [("name", false)]], [], [], "",
          Value.string "", false, Time.zero, Time.zero⟩,
      (out.1.values "order-by").Perm ["price desc", "name"] :=
  ⟨by decide, fun out hout =>
    ((order_by_tokens (OrderCriteria.validator sampleRules)
      ⟨⟨[], [], Time.zero, Time.zero⟩, [], [[("price", true)], [("name", false)]], [], [], "",
        Value.string "", false, Time.zero, Time.zero⟩ (by decide)).2 out hout).1⟩

/-! ## Decimal text -/

theorem toInt64_of_range (x : Int) (h1 : -2 ^ 63 ≤ x) (h2 : x < 2 ^ 63) : toInt64 x = x := by
  unfold toInt64
  omega

theorem toInt64_range (x : Int) : -2 ^ 63 ≤ toInt64 x ∧ toInt64 x < 2 ^ 63 := by
  unfold toInt64
  omega

theorem isDigit_digitChar (d : Nat) (h : d < 10) : isDigit (digitChar d) = true := by
  interval_cases d <;> decide

theorem digitVal_digitChar (d : Nat) (h : d < 10) : digitVal (digitChar d) = d := by
  interval_cases d <;> decide

theorem digitChar_ne_quote (d : Nat) (h : d < 10) : digitChar d ≠ '"' := by
  interval_cases d <;> decide

theorem digitVal_le (c : Char) (h : isDigit c = true) : digitVal c ≤ 9 := by
  simp only [isDigit, Bool.and_eq_true, decide_eq_true_eq] at h
  unfold digitVal
  omega

theorem decimalValue_append (xs : List Char) (c : Char) :
    decimalValue (xs ++ [c]) = decimalValue xs * 10 + digitVal c := by
  simp [decimalValue, List.foldl_append]

theorem foldl_digits_ge (cs : List Char) (n : Nat) :
    n ≤ cs.foldl (fun a c => a * 10 + digitVal c) n := by
  induction cs generalizing n with
  | nil => simp
  | cons c cs ih =>
    simp only [List.foldl_cons]
    exact le_trans (by omega) (ih (n * 10 + digitVal c))

/-- The digit loop succeeds exactly on digit strings whose value stays within 64
bits, and returns that value. -/
theorem parseUintLoop_ok_iff (cs : List Char) (n m : Nat) (hn : n < 2 ^ 64) :
    parseUintLoop n cs = Except.ok m ↔
      (∀ c ∈ cs, isDigit c = true) ∧ cs.foldl (fun a c => a * 10 + digitVal c) n = m ∧
        m < 2 ^ 64 := by
  induction cs generalizing n with
  | nil =>
    simp only [parseUintLoop, Except.ok.injEq, List.not_mem_nil, false_implies, implies_true,
      List.foldl_nil, true_and]
    constructor
    · intro h; subst h; exact ⟨rfl, hn⟩
    · intro h; exact h.1
  | cons c cs ih =>
    have hge := foldl_digits_ge cs (n * 10 + digitVal c)
    by_cases hd : isDigit c = true
    · have hd9 := digitVal_le c hd
      by_cases hcut : n ≥ (2 ^ 64 - 1) / 10 + 1
      · simp only [parseUintLoop, hd, Bool.not_true, Bool.false_eq_true, if_false, hcut, if_true,
          List.mem_cons, forall_eq_or_imp, true_and, List.foldl_cons]
        constructor
        · intro h; cases h
        · rintro ⟨_, h2, h3⟩
          omega
      · by_cases hov : n * 10 + digitVal c < 2 ^ 64
        · have e1 : n * 10 % 2 ^ 64 = n * 10 := Nat.mod_eq_of_lt (by omega)
          have e2 : (n * 10 + digitVal c) % 2 ^ 64 = n * 10 + digitVal c := Nat.mod_eq_of_lt hov
          have hno : ¬ (n * 10 + digitVal c < n * 10 ∨ n * 10 + digitVal c > 2 ^ 64 - 1) := by
            omega
          simp only [parseUintLoop, hd, Bool.not_true, Bool.false_eq_true, if_false, hcut, e1, e2,
            hno, List.mem_cons, forall_eq_or_imp, true_and, List.foldl_cons]
          exact ih (n * 10 + digitVal c) hov
        · have e1 : n * 10 % 2 ^ 64 = n * 10 := Nat.mod_eq_of_lt (by omega)
          have e2 : (n * 10 + digitVal c) % 2 ^ 64 = n * 10 + digitVal c - 2 ^ 64 := by
            omega
          have hyes : n * 10 + digitVal c - 2 ^ 64 < n * 10 ∨
              n * 10 + digitVal c - 2 ^ 64 > 2 ^ 64 - 1 := by omega
          simp only [parseUintLoop, hd, Bool.not_true, Bool.false_eq_true, if_false, hcut, e1, e2,
            hyes, if_true, List.mem_cons, forall_eq_or_imp, true_and, List.foldl_cons]
          constructor
          · intro h; cases h
          · rintro ⟨_, h2, h3⟩
            omega
    · simp only [parseUintLoop, hd, Bool.not_false, if_true, List.mem_cons, forall_eq_or_imp]
      constructor
      · intro h; cases h
      · rintro ⟨⟨h1, _⟩, _⟩
        cases h1

/-- The function `ParseUint` succeeds exactly on non-empty digit strings whose value fits 64 bits. -/
theorem parseUint_ok_iff (s : List Char) (m : Nat) :
    parseUint s = Except.ok m ↔
      s ≠ [] ∧ (∀ c ∈ s, isDigit c = true) ∧ decimalValue s = m ∧ m < 2 ^ 64 := by
  unfold parseUint
  by_cases hs : s = []
  · simp [hs]
  · simp only [hs, if_false, ne_eq, not_false_eq_true, true_and]
    exact parseUintLoop_ok_iff s 0 m (by norm_num)
theorem parseIntRange_ok_iff (neg : Bool) (un : Nat) (v : Int) :
    parseIntRange neg un = Except.ok v ↔
      (neg = false ∧ un < 2 ^ 63 ∧ v = (un : Int)) ∨
        (neg = true ∧ un ≤ 2 ^ 63 ∧ v = -(un : Int)) := by
  cases neg
  · by_cases h : un ≥ 2 ^ 63
    · have e : parseIntRange false un = Except.error NumErr.errRange := by
        simp only [parseIntRange]
        simp
        omega
      rw [e]
      constructor
      · intro h1; cases h1
      · rintro (⟨_, h1, _⟩ | ⟨h1, _⟩)
        · omega
        · cases h1
    · have e0 : toInt64 (un : Int) = (un : Int) := toInt64_of_range _ (by omega) (by omega)
      have e : parseIntRange false un = Except.ok (un : Int) := by
        simp only [parseIntRange, e0]
        simp
        omega
      rw [e]
      constructor
      · intro h1
        cases h1
        exact Or.inl ⟨rfl, by omega, rfl⟩
      · rintro (⟨_, _, h1⟩ | ⟨h1, _⟩)
        · rw [h1]
        · cases h1
  · by_cases h : un > 2 ^ 63
    · have e : parseIntRange true un = Except.error NumErr.errRange := by
        simp only [parseIntRange]
        simp
        omega
      rw [e]
      constructor
      · intro h1; cases h1
      · rintro (⟨h1, _⟩ | ⟨_, h1, _⟩)
        · cases h1
        · omega
    · have e0 : toInt64 (-toInt64 (un : Int)) = -(un : Int) := by
        have hcases : un < 2 ^ 63 ∨ un = 2 ^ 63 := by omega
        rcases hcases with h1 | h1
        · rw [toInt64_of_range (un : Int) (by omega) (by omega)]
          exact toInt64_of_range _ (by omega) (by omega)
        · subst h1
          decide
      have e : parseIntRange true un = Except.ok (-(un : Int)) := by
        simp only [parseIntRange, e0]
        simp
        omega
      rw [e]
      constructor
      · intro h1
        cases h1
        exact Or.inr ⟨rfl, by omega, rfl⟩
      · rintro (⟨h1, _⟩ | ⟨_, _, h1⟩)
        · cases h1
        · rw [h1]

theorem parseIntRange_max (neg : Bool) :
    parseIntRange neg (2 ^ 64 - 1) = Except.error NumErr.errRange := by
  cases neg <;> decide

theorem parseIntFinish_ok_iff (neg : Bool) (r : Except NumErr Nat) (v : Int) :
    parseIntFinish neg r = Except.ok v ↔ ∃ un, r = Except.ok un ∧ parseIntRange neg un = Except.ok v := by
  cases r with
  | error e =>
    cases e
    · simp [parseIntFinish]
    · simp only [parseIntFinish, parseIntRange_max]
      simp
  | ok un => simp [parseIntFinish]

/-- The function `ParseInt` on a text without sign. -/
theorem parseInt_unsigned (c : Char) (cs : List Char) (h1 : c ≠ '+') (h2 : c ≠ '-') (v : Int) :
    parseInt (c :: cs) = Except.ok v ↔
      ∃ un, parseUint (c :: cs) = Except.ok un ∧ un < 2 ^ 63 ∧ v = (un : Int) := by
  have e1 : (c == '+') = false := by simpa using h1
  have e2 : (c == '-') = false := by simpa using h2
  simp [parseInt, e1, e2, parseIntFinish_ok_iff, parseIntRange_ok_iff]

/-- The function `ParseInt` on a text that starts with `+`. -/
theorem parseInt_plus (cs : List Char) (v : Int) :
    parseInt ('+' :: cs) = Except.ok v ↔
      ∃ un, parseUint cs = Except.ok un ∧ un < 2 ^ 63 ∧ v = (un : Int) := by
  have e1 : ('+' == '+') = true := by decide
  have e2 : ('+' == '-') = false := by decide
  simp [parseInt, e1, e2, parseIntFinish_ok_iff, parseIntRange_ok_iff]

/-- The function `ParseInt` on a text that starts with `-`. -/
theorem parseInt_minus (cs : List Char) (v : Int) :
    parseInt ('-' :: cs) = Except.ok v ↔
      ∃ un, parseUint cs = Except.ok un ∧ un ≤ 2 ^ 63 ∧ v = -(un : Int) := by
  have e1 : ('-' == '+') = false := by decide
  have e2 : ('-' == '-') = true := by decide
  simp [parseInt, e1, e2, parseIntFinish_ok_iff, parseIntRange_ok_iff]

/-- The function `strconv.ParseInt(s, 10, 64)` succeeds with `v` exactly when `s` is a base-10
integer denoting `v` and `v` fits 64 bits. -/
theorem parseInt_ok_iff (s : List Char) (v : Int) :
    parseInt s = Except.ok v ↔ IsDecimalInt s v ∧ -2 ^ 63 ≤ v ∧ v < 2 ^ 63 := by
  constructor
  · intro h
    cases s with
    | nil => simp [parseInt] at h
    | cons c cs =>
      by_cases hp : c = '+'
      · subst hp
        obtain ⟨un, hu, hlt, rfl⟩ := (parseInt_plus cs v).mp h
        obtain ⟨hne, hdig, hval, _⟩ := (parseUint_ok_iff cs un).mp hu
        refine ⟨⟨['+'], cs, rfl, Or.inr (Or.inl rfl), hne, hdig, ?_⟩, by omega, by omega⟩
        simp [hval]
      · by_cases hm : c = '-'
        · subst hm
          obtain ⟨un, hu, hle, rfl⟩ := (parseInt_minus cs v).mp h
          obtain ⟨hne, hdig, hval, _⟩ := (parseUint_ok_iff cs un).mp hu
          refine ⟨⟨['-'], cs, rfl, Or.inr (Or.inr rfl), hne, hdig, ?_⟩, by omega, by omega⟩
          simp [hval]
        · obtain ⟨un, hu, hlt, rfl⟩ := (parseInt_unsigned c cs hp hm v).mp h
          obtain ⟨hne, hdig, hval, _⟩ := (parseUint_ok_iff (c :: cs) un).mp hu
          refine ⟨⟨[], c :: cs, rfl, Or.inl rfl, hne, hdig, ?_⟩, by omega, by omega⟩
          simp [hval]
  · rintro ⟨⟨sign, ds, rfl, hsign, hne, hdig, hv⟩, hlo, hhi⟩
    rcases hsign with rfl | rfl | rfl
    · cases ds with
      | nil => exact absurd rfl hne
      | cons c cs =>
        have hc := hdig c (List.mem_cons_self c cs)
        have hp : c ≠ '+' := by rintro rfl; revert hc; decide
        have hm : c ≠ '-' := by rintro rfl; revert hc; decide
        simp only [List.nil_append]
        rw [parseInt_unsigned c cs hp hm v]
        have hs : ¬ (([] : List Char) = ['-']) := by decide
        simp only [hs, if_false] at hv
        refine ⟨decimalValue (c :: cs), ?_, by omega, hv⟩
        exact (parseUint_ok_iff _ _).mpr ⟨hne, hdig, rfl, by omega⟩
    · simp only [List.singleton_append]
      rw [parseInt_plus ds v]
      have hs : ¬ (['+'] = ['-']) := by decide
      simp only [hs, if_false] at hv
      refine ⟨decimalValue ds, ?_, by omega, hv⟩
      exact (parseUint_ok_iff _ _).mpr ⟨hne, hdig, rfl, by omega⟩
    · simp only [List.singleton_append]
      rw [parseInt_minus ds v]
      simp only [if_true] at hv
      refine ⟨decimalValue ds, ?_, by omega, hv⟩
      exact (parseUint_ok_iff _ _).mpr ⟨hne, hdig, rfl, by omega⟩

/-- The digits that `FormatUint` writes: at least one, all decimal, none a quote, and
their value is the number. -/
theorem formatUintFuel_spec (fuel u : Nat) (h : u ≤ fuel) :
    formatUintFuel fuel u ≠ [] ∧ (∀ c ∈ formatUintFuel fuel u, isDigit c = true ∧ c ≠ '"') ∧
      decimalValue (formatUintFuel fuel u) = u := by
  induction fuel generalizing u with
  | zero =>
    have h0 : u = 0 := by omega
    subst h0
    refine ⟨by simp [formatUintFuel], ?_, by decide⟩
    intro c hc
    simp only [formatUintFuel, List.mem_singleton] at hc
    subst hc
    exact ⟨by decide, by decide⟩
  | succ fuel ih =>
    by_cases hu : u < 10
    · simp only [formatUintFuel, hu, if_true]
      refine ⟨by simp, ?_, ?_⟩
      · intro c hc
        simp only [List.mem_singleton] at hc
        subst hc
        exact ⟨isDigit_digitChar u hu, digitChar_ne_quote u hu⟩
      · simp [decimalValue, digitVal_digitChar u hu]
    · simp only [formatUintFuel, hu, if_false]
      obtain ⟨_, h2, h3⟩ := ih (u / 10) (by omega)
      have hm : u % 10 < 10 := Nat.mod_lt _ (by norm_num)
      refine ⟨by simp, ?_, ?_⟩
      · intro c hc
        simp only [List.mem_append, List.mem_singleton] at hc
        rcases hc with hc | hc
        · exact h2 c hc
        · subst hc
          exact ⟨isDigit_digitChar _ hm, digitChar_ne_quote _ hm⟩
      · rw [decimalValue_append, h3, digitVal_digitChar _ hm]
        omega

theorem dropWhile_of_all_not {α : Type} (p : α → Bool) (l : List α)
    (h : ∀ x ∈ l, p x = false) : l.dropWhile p = l := by
  cases l with
  | nil => rfl
  | cons x xs => simp [List.dropWhile, h x (List.mem_cons_self x xs)]

/-- A text without any quote is left as it is by `strings.Trim(s, "\"")`. -/
theorem trimQuotes_of_no_quote (cs : List Char) (h : ∀ c ∈ cs, c ≠ '"') : trimQuotes cs = cs := by
  have hp : ∀ x ∈ cs, (fun c : Char => c == '"') x = false := by
    intro x hx
    simpa using h x hx
  unfold trimQuotes
  rw [dropWhile_of_all_not _ cs hp, List.rdropWhile,
    dropWhile_of_all_not _ cs.reverse (fun x hx => hp x (List.mem_reverse.mp hx)),
    List.reverse_reverse]

/-- A text without any quote, wrapped in one pair of quotes, is trimmed to itself. -/
theorem trimQuotes_quoted (cs : List Char) (h : ∀ c ∈ cs, c ≠ '"') :
    trimQuotes ('"' :: (cs ++ ['"'])) = cs := by
  have hp : ∀ x ∈ cs, (fun c : Char => c == '"') x = false := by
    intro x hx
    simpa using h x hx
  unfold trimQuotes
  have e1 : ('"' :: (cs ++ ['"'])).dropWhile (fun c => c == '"') =
      (cs ++ ['"']).dropWhile (fun c => c == '"') := by
    simp [List.dropWhile]
  rw [e1]
  cases cs with
  | nil => decide
  | cons c cs' =>
    have hc : (c == '"') = false := hp c (List.mem_cons_self c cs')
    have e2 : (c :: cs' ++ ['"']).dropWhile (fun c => c == '"') = c :: cs' ++ ['"'] := by
      simp [List.dropWhile, hc]
    rw [e2, List.rdropWhile, List.reverse_append]
    have e3 : (['"'].reverse ++ (c :: cs').reverse).dropWhile (fun c => c == '"') =
        (c :: cs').reverse := by
      have : (['"'].reverse ++ (c :: cs').reverse) = '"' :: (c :: cs').reverse := rfl
      rw [this]
      simp only [List.dropWhile, beq_self_eq_true]
      exact dropWhile_of_all_not _ _ (fun x hx => hp x (List.mem_reverse.mp hx))
    rw [e3, List.reverse_reverse]

/-- The text of an `int64` is a base-10 integer denoting it, and contains no quote. -/
theorem formatInt_spec (v : Int) :
    IsDecimalInt (formatInt v).toList v ∧ ∀ c ∈ (formatInt v).toList, c ≠ '"' := by
  obtain ⟨h1, h2, h3⟩ := formatUintFuel_spec v.natAbs v.natAbs (le_refl _)
  by_cases hv : v < 0
  · simp only [formatInt, hv, if_true, formatUint]
    refine ⟨⟨['-'], formatUintFuel v.natAbs v.natAbs, rfl, Or.inr (Or.inr rfl), h1,
      fun c hc => (h2 c hc).1, ?_⟩, ?_⟩
    · simp only [if_true, h3]
      omega
    · intro c hc
      simp only [String.toList, List.mem_cons] at hc
      rcases hc with hc | hc
      · subst hc; decide
      · exact (h2 c hc).2
  · simp only [formatInt, hv, if_false, formatUint]
    refine ⟨⟨[], formatUintFuel v.natAbs v.natAbs, rfl, Or.inl rfl, h1,
      fun c hc => (h2 c hc).1, ?_⟩, ?_⟩
    · have hs : ¬ (([] : List Char) = ['-']) := by decide
      simp only [hs, if_false, h3]
      omega
    · intro c hc
      exact (h2 c hc).2

/-- Parsing the text of an `int64` gives the number back. -/
theorem parseInt_formatInt (v : Int) (h1 : -2 ^ 63 ≤ v) (h2 : v < 2 ^ 63) :
    parseInt (formatInt v).toList = Except.ok v :=
  (parseInt_ok_iff _ _).mpr ⟨(formatInt_spec v).1, h1, h2⟩

theorem Time.Unix_ofUnix (v : Int) (h1 : -2 ^ 63 ≤ v) (h2 : v < 2 ^ 63) :
    (Time.ofUnix v).Unix = v := by
  have e : (0 : Nat) % 2 ^ 64 ≥ 2 ^ 63 ↔ False := by decide
  simp only [Time.Unix, Time.sec, Time.ofUnix, e, if_false, toInt64, unixToInternal]
  omega

/-! ## The timestamp decoder -/

/-- The text that `Criteria.URLValues` puts under `creation-date-start` for a start
time that is not the zero value. -/
theorem criteria_creation_start_text (V : Validator Criteria) (c : Criteria)
    (hv : V.Struct c = none) (hz : c.TimeCreationStart ≠ Time.zero)
    (out : Values × Option Error) (hout : out ∈ Criteria.URLValues V c) :
    out.1.values "creation-date-start" = [formatInt c.TimeCreationStart.Unix] := by
  have h := (criteria_result_values V c hv out hout "creation-date-start").2
  have hf : c.fields.filter (fun f => queryField f.query == "creation-date-start") =
      [⟨"TimeCreationStart", [Rule.omitempty], "creation-date-start,omitempty",
        Value.time c.TimeCreationStart⟩] := rfl
  rw [hf] at h
  have ha : (Criteria.fieldWork ⟨"TimeCreationStart", [Rule.omitempty],
      "creation-date-start,omitempty", Value.time c.TimeCreationStart⟩).adds =
      [("creation-date-start", formatInt c.TimeCreationStart.Unix)] := by
    have q : queryField "creation-date-start,omitempty" = "creation-date-start" := by decide
    have t : "creation-date-start,omitempty" ≠ "" := by decide
    simp [Criteria.fieldWork, Value.IsZero, q, t, hz, Work.adds]
  simp only [List.flatMap_cons, List.flatMap_nil, ha, List.map_cons, List.map_nil,
    List.append_nil] at h
  exact List.perm_singleton.mp h

/-- C6: for every point in time `t`, decoding the base-10 text of `t.Unix()` that the
encoders emit, bare or wrapped in quotes, succeeds and yields `time.Unix(t.Unix(), 0)`,
whose `Unix()` is `t.Unix()`; in particular the one value that `Criteria.URLValues`
puts under `creation-date-start` for a non-zero start time decodes to a time with the
Unix seconds of that start time. -/
theorem timestamp_round_trip (t : Time) (j : JSONTime) :
    JSONTime.UnmarshalJSON j (formatInt t.Unix) = (⟨Time.ofUnix t.Unix⟩, none) ∧
    JSONTime.UnmarshalJSON j ("\"" ++ formatInt t.Unix ++ "\"") = (⟨Time.ofUnix t.Unix⟩, none) ∧
    (Time.ofUnix t.Unix).Unix = t.Unix ∧
    (∀ (V : Validator Criteria) (c : Criteria), V.Struct c = none → c.TimeCreationStart = t →
      t ≠ Time.zero → ∀ out ∈ Criteria.URLValues V c,
        ∃ text, out.1.values "creation-date-start" = [text] ∧
          ((JSONTime.UnmarshalJSON j text).1.ToTime.Unix = t.Unix ∧
            (JSONTime.UnmarshalJSON j text).2 = none)) := by
  have hr := toInt64_range (t.sec - unixToInternal)
  have hp := parseInt_formatInt t.Unix hr.1 hr.2
  have hq := (formatInt_spec t.Unix).2
  have h1 : JSONTime.UnmarshalJSON j (formatInt t.Unix) = (⟨Time.ofUnix t.Unix⟩, none) := by
    simp only [JSONTime.UnmarshalJSON, trimQuotes_of_no_quote _ hq, hp]
  have h3 : (Time.ofUnix t.Unix).Unix = t.Unix := Time.Unix_ofUnix _ hr.1 hr.2
  refine ⟨h1, ?_, h3, ?_⟩
  · have e : ("\"" ++ formatInt t.Unix ++ "\"").toList = '"' :: ((formatInt t.Unix).toList ++ ['"']) := by
      simp [String.toList]
    simp only [JSONTime.UnmarshalJSON, e, trimQuotes_quoted _ hq, hp]
  · intro V c hv hc hz out hout
    subst hc
    refine ⟨_, criteria_creation_start_text V c hv hz out hout, ?_⟩
    rw [h1]
    exact ⟨h3, rfl⟩

/-- Witness for C6: a criteria whose start time is 1700000000 seconds after the epoch
passes validation, and the value under `creation-date-start` decodes to that second. -/
theorem timestamp_round_trip_witness :
    (Criteria.validator sampleRules).Struct ⟨[], [], Time.ofUnix 1700000000, Time.zero⟩ = none ∧
    Time.ofUnix 1700000000 ≠ Time.zero ∧
    ∀ out ∈ Criteria.URLValues (Criteria.validator sampleRules)
        ⟨[], [], Time.ofUnix 1700000000, Time.zero⟩,
      ∃ text, out.1.values "creation-date-start" = [text] ∧
        ((JSONTime.UnmarshalJSON ⟨Time.zero⟩ text).1.ToTime.Unix = (Time.ofUnix 1700000000).Unix ∧
          (JSONTime.UnmarshalJSON ⟨Time.zero⟩ text).2 = none) :=
  ⟨by decide, by decide,
    (timestamp_round_trip (Time.ofUnix 1700000000) ⟨Time.zero⟩).2.2.2
      (Criteria.validator sampleRules) ⟨[], [], Time.ofUnix 1700000000, Time.zero⟩
      (by decide) rfl (by decide)⟩

/-- C7: `JSONTime.UnmarshalJSON` strips the surrounding quotes and succeeds exactly
when the remaining text is a base-10 integer that fits 64 bits; on success the
receiver becomes `time.Unix(v, 0)`, the instant `v` seconds after the epoch, and on
every other text an error is returned (and the receiver is left as it was). -/
theorem timestamp_decoder (j : JSONTime) (b : String) :
    ((JSONTime.UnmarshalJSON j b).2 = none ↔
      ∃ v, IsDecimalInt (trimQuotes b.toList) v ∧ -2 ^ 63 ≤ v ∧ v < 2 ^ 63) ∧
    (∀ v, IsDecimalInt (trimQuotes b.toList) v → -2 ^ 63 ≤ v → v < 2 ^ 63 →
      JSONTime.UnmarshalJSON j b = (⟨Time.ofUnix v⟩, none) ∧ (Time.ofUnix v).Unix = v) ∧
    ((¬ ∃ v, IsDecimalInt (trimQuotes b.toList) v ∧ -2 ^ 63 ≤ v ∧ v < 2 ^ 63) →
      ∃ e, JSONTime.UnmarshalJSON j b = (j, some e)) := by
  have hiff := parseInt_ok_iff (trimQuotes b.toList)
  refine ⟨?_, ?_, ?_⟩
  · cases hp : parseInt (trimQuotes b.toList) with
    | error e =>
      simp only [JSONTime.UnmarshalJSON, hp, reduceCtorEq, false_iff, not_exists]
      intro v hv
      rw [← hiff v, hp] at hv
      cases hv
    | ok v =>
      simp only [JSONTime.UnmarshalJSON, hp, true_iff]
      exact ⟨v, (hiff v).mp hp⟩
  · intro v hv h1 h2
    have hp := (hiff v).mpr ⟨hv, h1, h2⟩
    exact ⟨by simp only [JSONTime.UnmarshalJSON, hp], Time.Unix_ofUnix v h1 h2⟩
  · intro hno
    cases hp : parseInt (trimQuotes b.toList) with
    | error e =>
      simp only [JSONTime.UnmarshalJSON, hp]
      exact ⟨_, rfl⟩
    | ok v => exact absurd ⟨v, (hiff v).mp hp⟩ hno

/-- Witness for C7: the quoted text `"1700000000"` is a base-10 integer and decodes
to the instant 1700000000 seconds after the epoch. -/
theorem timestamp_decoder_witness :
    IsDecimalInt (trimQuotes "\"1700000000\"".toList) 1700000000 ∧
    JSONTime.UnmarshalJSON ⟨Time.zero⟩ "\"1700000000\"" = (⟨Time.ofUnix 1700000000⟩, none) :=
  ⟨⟨[], "1700000000".toList, by decide, Or.inl rfl, by decide, by decide, by decide⟩,
   ((timestamp_decoder ⟨Time.zero⟩ "\"1700000000\"").2.1 1700000000
     ⟨[], "1700000000".toList, by decide, Or.inl rfl, by decide, by decide, by decide⟩
     (by decide) (by decide)).1⟩

/-! ## The boolean decoder -/

/-- C8: `JSONBool.UnmarshalJSON` on the raw bytes `"true"` (quoted) yields `true`, on
`"false"` yields `false`, and on every raw input whose quote-stripped text is not a
boolean literal, such as `"notabool"`, returns an error. -/
theorem bool_decoder :
    (∀ j : JSONBool, JSONBool.UnmarshalJSON j "\"true\"" = (⟨true⟩, none)) ∧
    (∀ j : JSONBool, JSONBool.UnmarshalJSON j "\"false\"" = (⟨false⟩, none)) ∧
    (∀ (j : JSONBool) (b : String), String.mk (trimQuotes b.toList) ∉ boolLiterals →
      ∃ e, JSONBool.UnmarshalJSON j b = (j, some e)) ∧
    (∀ j : JSONBool, ∃ e, JSONBool.UnmarshalJSON j "\"notabool\"" = (j, some e)) := by
  have h3 : ∀ (j : JSONBool) (b : String), String.mk (trimQuotes b.toList) ∉ boolLiterals →
      ∃ e, JSONBool.UnmarshalJSON j b = (j, some e) := by
    intro j b hb
    simp only [boolLiterals, List.mem_cons, List.mem_singleton, List.not_mem_nil, or_false,
      not_or] at hb
    obtain ⟨a1, a2, a3, a4, a5, a6, a7, a8, a9, a10, a11, a12⟩ := hb
    simp only [JSONBool.UnmarshalJSON, parseBool, a1, a2, a3, a4, a5, a6, a7, a8, a9, a10, a11,
      a12, or_self, if_false]
    exact ⟨_, rfl⟩
  refine ⟨?_, ?_, h3, ?_⟩
  · rintro ⟨j⟩
    cases j <;> decide
  · rintro ⟨j⟩
    cases j <;> decide
  · intro j
    exact h3 j "\"notabool\"" (by decide)

/-- Witness for C8: the quote-stripped text of `"notabool"` is not a boolean literal,
and decoding it returns an error and leaves the receiver. -/
theorem bool_decoder_witness :
    String.mk (trimQuotes "\"notabool\"".toList) ∉ boolLiterals ∧
    ∃ e, JSONBool.UnmarshalJSON ⟨true⟩ "\"notabool\"" = (⟨true⟩, some e) :=
  ⟨by decide, bool_decoder.2.2.1 ⟨true⟩ "\"notabool\"" (by decide)⟩

/-! ## The password rule -/

/-- C9: `matchPasswordWithPattern(p, false)` holds exactly when `p` has a character in
`a-z`, a character in `A-Z` and one of the symbols `~ * ! @ $ # % _ + . ? : , { }`;
`matchPasswordWithPattern(p, true)` holds exactly when, in addition, the byte length
of `p` lies between 9 and 16. -/
theorem password_pattern (p : String) :
    (matchPasswordWithPattern p false = true ↔
      (∃ c ∈ p.toList, 'a' ≤ c ∧ c ≤ 'z') ∧ (∃ c ∈ p.toList, 'A' ≤ c ∧ c ≤ 'Z') ∧
      (∃ c ∈ p.toList, c ∈ ['~', '*', '!', '@', '$', '#', '%', '_', '+', '.', '?', ':', ',',
        '\x7b', '\x7d'])) ∧
    (matchPasswordWithPattern p true = true ↔
      ((∃ c ∈ p.toList, 'a' ≤ c ∧ c ≤ 'z') ∧ (∃ c ∈ p.toList, 'A' ≤ c ∧ c ≤ 'Z') ∧
      (∃ c ∈ p.toList, c ∈ ['~', '*', '!', '@', '$', '#', '%', '_', '+', '.', '?', ':', ',',
        '\x7b', '\x7d'])) ∧ 9 ≤ p.utf8ByteSize ∧ p.utf8ByteSize ≤ 16) := by
  have hl : rgxAlphaLower.MatchString p = true ↔ ∃ c ∈ p.toList, 'a' ≤ c ∧ c ≤ 'z' := by
    simp [CharClass.MatchString, rgxAlphaLower]
  have hu : rgxAlphaUpper.MatchString p = true ↔ ∃ c ∈ p.toList, 'A' ≤ c ∧ c ≤ 'Z' := by
    simp [CharClass.MatchString, rgxAlphaUpper]
  have hs : rgxSymbol.MatchString p = true ↔ ∃ c ∈ p.toList,
      c ∈ ['~', '*', '!', '@', '$', '#', '%', '_', '+', '.', '?', ':', ',', '\x7b', '\x7d'] := by
    have hx : ∀ x c : Char, (decide (x ≤ c) && decide (c ≤ x)) = true ↔ c = x := by
      intro x c
      simp only [Bool.and_eq_true, decide_eq_true_eq]
      constructor
      · rintro ⟨h1, h2⟩
        exact le_antisymm h2 h1
      · rintro rfl
        exact ⟨le_refl _, le_refl _⟩
    simp only [CharClass.MatchString, rgxSymbol, List.any_eq_true, List.any_cons, List.any_nil,
      Bool.or_false, Bool.or_eq_true, hx, List.mem_cons, List.mem_singleton, List.not_mem_nil,
      or_false]
  constructor
  · simp only [matchPasswordWithPattern, Bool.false_and, Bool.false_eq_true, if_false,
      Bool.and_eq_true, hl, hu, hs, and_assoc]
  · by_cases hlen : p.utf8ByteSize < 9 ∨ p.utf8ByteSize > 16
    · have e : (true && (decide (p.utf8ByteSize < 9) || decide (p.utf8ByteSize > 16))) = true := by
        simpa using hlen
      simp only [matchPasswordWithPattern, e, if_true, Bool.false_eq_true, false_iff, not_and]
      intro _
      omega
    · have e : (true && (decide (p.utf8ByteSize < 9) || decide (p.utf8ByteSize > 16))) = false := by
        simpa using hlen
      simp only [matchPasswordWithPattern, e, Bool.false_eq_true, if_false, Bool.and_eq_true,
        hl, hu, hs, and_assoc]
      constructor
      · rintro ⟨h1, h2, h3⟩
        exact ⟨h1, h2, h3, by omega, by omega⟩
      · rintro ⟨h1, h2, h3, _, _⟩
        exact ⟨h1, h2, h3⟩

/-! ## The sign-up form -/

theorem utf8ByteSize_pos_of_ne_empty (s : String) (h : s ≠ "") : s.utf8ByteSize > 0 := by
  obtain ⟨cs⟩ := s
  cases cs with
  | nil => exact absurd rfl h
  | cons c cs =>
    have hc := Char.utf8Size_pos c
    simp only [String.utf8ByteSize, String.utf8ByteSize.go]
    omega

/-- Among fields with pairwise distinct keys, the fields that carry the key of a given
field are that field alone. -/
theorem filter_key_eq_singleton (g : Field → String) (l : List Field)
    (hnd : (l.map g).Nodup) (f : Field) (hf : f ∈ l) :
    l.filter (fun x => g x == g f) = [f] := by
  induction l with
  | nil => cases hf
  | cons x xs ih =>
    simp only [List.map_cons, List.nodup_cons, List.mem_map, not_exists, not_and] at hnd
    rcases List.mem_cons.mp hf with rfl | hf'
    · have hrest : xs.filter (fun x => g x == g f) = [] := by
        rw [List.filter_eq_nil_iff]
        intro y hy
        simpa using fun h => hnd.1 y hy h
      simp [List.filter_cons, hrest]
    · have hx : ¬ (g x = g f) := fun h => hnd.1 f hf' h.symm
      simp [List.filter_cons, hx, ih hnd.2 hf']

/-- Among fields with pairwise distinct keys, at most one field carries a given key. -/
theorem filter_key_cases (g : Field → String) (l : List Field) (hnd : (l.map g).Nodup)
    (k : String) :
    l.filter (fun x => g x == k) = [] ∨ ∃ f ∈ l, g f = k ∧ l.filter (fun x => g x == k) = [f] := by
  by_cases h : ∃ f ∈ l, g f = k
  · obtain ⟨f, hf, rfl⟩ := h
    exact Or.inr ⟨f, hf, rfl, filter_key_eq_singleton g l hnd f hf⟩
  · left
    rw [List.filter_eq_nil_iff]
    intro y hy
    simpa using fun hk => h ⟨y, hy, hk⟩

/-- The goroutine of one field of the sign-up form performs at most one `Add`. -/
theorem SignUpForm.fieldWork_adds_length (f : Field) : (SignUpForm.fieldWork f).adds.length ≤ 1 := by
  obtain ⟨n, rules, tag, v⟩ := f
  unfold SignUpForm.fieldWork
  split_ifs <;> try (simp [Work.adds])
  cases v <;> simp [Work.adds]

/-- The wire keys of `SignUpForm`, in field order (the last field has none). -/
theorem SignUpForm.keys (r : SignUpForm) :
    r.fields.map (fun f => queryField f.query) =
      ["username", "passwd", "name", "company", "address-line-1", "address-line-2",
        "address-line-3", "city", "state", "other-state", "country", "zipcode", "lang-pref",
        "phone-cc", "phone", "alt-phone-cc", "alt-phone", "fax-cc", "fax", "Mobile-cc", "Mobile",
        "vat-id", "sms-consent", "email-marketing-consent", "accept-policy", ""] := rfl

theorem SignUpForm.keys_nodup (r : SignUpForm) :
    (r.fields.map (fun f => queryField f.query)).Nodup := by
  rw [SignUpForm.keys]
  decide

/-- A result of `SignUpForm.UrlValues` on a form that passes validation is the map of
a run of the field loop. -/
theorem signUpForm_result_trace (V : Validator SignUpForm) (r : SignUpForm)
    (hreg : V.RegisterValidation "rcpassword" validatePassword = none) (hv : V.Struct r = none)
    (out : Values × Option Error) (hout : out ∈ SignUpForm.UrlValues V r) :
    ∃ tr ∈ (SignUpForm.work r).traces, out = (Values.ofTrace tr, none) := by
  simp only [SignUpForm.UrlValues, hreg, hv, List.mem_map] at hout
  obtain ⟨tr, htr, rfl⟩ := hout
  exact ⟨tr, htr, rfl⟩

/-- A string field of the sign-up form that has a wire key and is not omitted puts
exactly its value under its key. -/
theorem SignUpForm.string_field_value (V : Validator SignUpForm) (r : SignUpForm)
    (hreg : V.RegisterValidation "rcpassword" validatePassword = none) (hv : V.Struct r = none)
    (out : Values × Option Error) (hout : out ∈ SignUpForm.UrlValues V r)
    (name : String) (rules : List Rule) (tag s : String)
    (hf : (⟨name, rules, tag, Value.string s⟩ : Field) ∈ r.fields) (hq : tag ≠ "")
    (hno : ¬ (omitEmpty tag = true ∧ s = "")) :
    out.1.values (queryField tag) = [s] := by
  have h := (signUpForm_result_values V r hreg hv out hout (queryField tag)).2
  rw [filter_key_eq_singleton (fun f => queryField f.query) r.fields (SignUpForm.keys_nodup r)
    ⟨name, rules, tag, Value.string s⟩ hf] at h
  have hpos := utf8ByteSize_pos_of_ne_empty tag hq
  have ha : (SignUpForm.fieldWork ⟨name, rules, tag, Value.string s⟩).adds =
      [(queryField tag, s)] := by
    unfold SignUpForm.fieldWork
    rw [if_pos hpos]
    by_cases ho : omitEmpty tag = true
    · have hne : s ≠ "" := fun h => hno ⟨ho, h⟩
      simp [ho, Value.IsZero, hne, Work.adds]
    · simp [ho, Work.adds]
  simp only [List.flatMap_cons, List.flatMap_nil, ha, List.map_cons, List.map_nil,
    List.append_nil] at h
  exact List.perm_singleton.mp h

/-- C10: in every result of `SignUpForm.UrlValues` on a form that passes validation,
each string field that has a wire key and is not omitted puts exactly its value,
verbatim, under its key; the wire keys are pairwise distinct, so every key present
carries exactly one value; and each of the twelve required keys carries exactly the
value of its field.  The call has at least one result. -/
theorem signup_string_fields (V : Validator SignUpForm) (r : SignUpForm)
    (hreg : V.RegisterValidation "rcpassword" validatePassword = none)
    (hv : V.Struct r = none) :
    SignUpForm.UrlValues V r ≠ [] ∧
    ((r.fields.filter (fun f => f.query ≠ "")).map (fun f => queryField f.query)).Nodup ∧
    ∀ out ∈ SignUpForm.UrlValues V r,
      out.2 = none ∧
      (∀ f ∈ r.fields, ∀ s, f.value = Value.string s → f.query ≠ "" →
        ¬ (omitEmpty f.query = true ∧ s = "") → out.1.values (queryField f.query) = [s]) ∧
      (∀ k, out.1.Has k = true → (out.1.values k).length = 1) ∧
      out.1.values "username" = [r.Username] ∧ out.1.values "passwd" = [r.Password] ∧
      out.1.values "name" = [r.Name] ∧ out.1.values "company" = [r.Company] ∧
      out.1.values "address-line-1" = [r.Address] ∧ out.1.values "city" = [r.City] ∧
      out.1.values "state" = [r.State] ∧ out.1.values "country" = [r.Country] ∧
      out.1.values "zipcode" = [r.Zipcode] ∧ out.1.values "lang-pref" = [r.LanguageCode] ∧
      out.1.values "phone-cc" = [r.PhoneCountryCode] ∧ out.1.values "phone" = [r.Phone] := by
  have hnd := SignUpForm.keys_nodup r
  refine ⟨?_, ?_, ?_⟩
  · simp [SignUpForm.UrlValues, hreg, hv, Work.traces_ne_nil]
  · exact hnd.sublist ((List.filter_sublist _).map _)
  · intro out hout
    have hs := SignUpForm.string_field_value V r hreg hv out hout
    refine ⟨(signUpForm_result_values V r hreg hv out hout "").1, ?_, ?_,
      hs "Username" [Rule.required, Rule.email] "username" r.Username
        (by simp [SignUpForm.fields]) (by decide) (fun h => absurd h.1 (by decide)),
      hs "Password" [Rule.required, Rule.min 9, Rule.max 16, Rule.rcpassword] "passwd" r.Password
        (by simp [SignUpForm.fields]) (by decide) (fun h => absurd h.1 (by decide)),
      hs "Name" [Rule.required] "name" r.Name
        (by simp [SignUpForm.fields]) (by decide) (fun h => absurd h.1 (by decide)),
      hs "Company" [Rule.required] "company" r.Company
        (by simp [SignUpForm.fields]) (by decide) (fun h => absurd h.1 (by decide)),
      hs "Address" [Rule.required] "address-line-1" r.Address
        (by simp [SignUpForm.fields]) (by decide) (fun h => absurd h.1 (by decide)),
      hs "City" [Rule.required] "city" r.City
        (by simp [SignUpForm.fields]) (by decide) (fun h => absurd h.1 (by decide)),
      hs "State" [Rule.required] "state" r.State
        (by simp [SignUpForm.fields]) (by decide) (fun h => absurd h.1 (by decide)),
      hs "Country" [Rule.required, Rule.iso3166_1_alpha2] "country" r.Country
        (by simp [SignUpForm.fields]) (by decide) (fun h => absurd h.1 (by decide)),
      hs "Zipcode" [Rule.required] "zipcode" r.Zipcode
        (by simp [SignUpForm.fields]) (by decide) (fun h => absurd h.1 (by decide)),
      hs "LanguageCode" [Rule.required] "lang-pref" r.LanguageCode
        (by simp [SignUpForm.fields]) (by decide) (fun h => absurd h.1 (by decide)),
      hs "PhoneCountryCode" [Rule.required, Rule.len 2] "phone-cc" r.PhoneCountryCode
        (by simp [SignUpForm.fields]) (by decide) (fun h => absurd h.1 (by decide)),
      hs "Phone" [Rule.required, Rule.number] "phone" r.Phone
        (by simp [SignUpForm.fields]) (by decide) (fun h => absurd h.1 (by decide))⟩
    · intro f hf s hval hq hno
      obtain ⟨name, rules, tag, v⟩ := f
      simp only at hval
      subst hval
      exact hs name rules tag s hf hq hno
    · intro k hk
      obtain ⟨tr, htr, rfl⟩ := signUpForm_result_trace V r hreg hv out hout
      have hne := (Values.Has_iff_values tr k).mp hk
      have h := fields_values_perm _ signUpForm_fieldWork_key _ tr htr k
      rcases filter_key_cases (fun f => queryField f.query) r.fields hnd k with h0 | ⟨f, _, _, h1⟩
      · rw [h0] at h
        exact absurd (List.perm_nil.mp h) hne
      · rw [h1] at h
        have hlen := h.length_eq
        simp only [List.flatMap_cons, List.flatMap_nil, List.append_nil, List.length_map] at hlen
        have hle := SignUpForm.fieldWork_adds_length f
        have hpos : 0 < ((Values.ofTrace tr).values k).length := List.length_pos.mpr hne
        show ((Values.ofTrace tr).values k).length = 1
        omega

/-- A sign-up form with the required fields filled in and the optional ones empty. -/
theorem signup_string_fields_witness :
    (SignUpForm.validator sampleRules).RegisterValidation "rcpassword" validatePassword = none ∧
    (SignUpForm.validator sampleRules).Struct sampleForm = none ∧
    ∀ out ∈ SignUpForm.UrlValues (SignUpForm.validator sampleRules) sampleForm,
      out.1.values "username" = ["jane@example.com"] ∧ out.1.values "passwd" = ["Secret#2024x"] :=
  ⟨by decide, by decide, fun out hout =>
    ⟨((signup_string_fields (SignUpForm.validator sampleRules) sampleForm (by decide)
        (by decide)).2.2 out hout).2.2.2.1,
     ((signup_string_fields (SignUpForm.validator sampleRules) sampleForm (by decide)
        (by decide)).2.2 out hout).2.2.2.2.1⟩⟩

/-! ## Float fields -/

theorem formatUint_digits (n : Nat) : ∀ c ∈ formatUint n, isDigit c = true :=
  fun c hc => ((formatUintFuel_spec n n (le_refl _)).2.1 c hc).1

/-- The text of a finite float has exactly two digits after the decimal point. -/
theorem twoFractionDigits_fmt2f (neg : Bool) (m : Nat) (e : Int) :
    twoFractionDigits (fmt2f (F64.finite neg m e)) = true := by
  have h1 : isDigit (digitChar (roundHundredths m e % 100 / 10)) = true :=
    isDigit_digitChar _ (by omega)
  have h2 : isDigit (digitChar (roundHundredths m e % 10)) = true :=
    isDigit_digitChar _ (by omega)
  have h3 : ∀ c ∈ (if neg = true then ['-'] else []) ++ formatUint (roundHundredths m e / 100),
      c ≠ '.' := by
    intro c hc
    rcases List.mem_append.mp hc with hc | hc
    · cases neg
      · simp at hc
      · simp only [if_true, List.mem_singleton] at hc
        subst hc
        decide
    · have hd := formatUint_digits _ c hc
      rintro rfl
      revert hd
      decide
  have hrev : (fmt2f (F64.finite neg m e)).toList.reverse =
      digitChar (roundHundredths m e % 10) :: digitChar (roundHundredths m e % 100 / 10) :: '.' ::
        ((if neg = true then ['-'] else []) ++ formatUint (roundHundredths m e / 100)).reverse := by
    simp [fmt2f, String.toList, List.reverse_append]
  have h4 : (((if neg = true then ['-'] else []) ++
      formatUint (roundHundredths m e / 100)).reverse).contains '.' = false := by
    rw [Bool.eq_false_iff]
    intro hcon
    have hmem : '.' ∈ ((if neg = true then ['-'] else []) ++
        formatUint (roundHundredths m e / 100)).reverse := by
      simpa using hcon
    exact h3 '.' (List.mem_reverse.mp hmem) rfl
  simp only [twoFractionDigits, hrev, h1, h2, h4, beq_self_eq_true, Bool.not_false, Bool.and_self]

/-- The values that `CustomerCriteria.UrlValues` puts under the keys of its two float
fields. -/
theorem customerCriteria_float_values (V : Validator CustomerCriteria) (c : CustomerCriteria)
    (hv : V.Struct c = none) (out : Values × Option Error)
    (hout : out ∈ CustomerCriteria.UrlValues V c) :
    out.1.values "total-receipt-start" =
      (if c.ReceiptLowest.isZero = true then [] else [fmt2f c.ReceiptLowest]) ∧
    out.1.values "total-receipt-end" =
      (if c.ReceiptHighest.isZero = true then [] else [fmt2f c.ReceiptHighest]) := by
  have q1 : queryField "total-receipt-start,omitempty" = "total-receipt-start" := by decide
  have q2 : queryField "total-receipt-end,omitempty" = "total-receipt-end" := by decide
  have o1 : omitEmpty "total-receipt-start,omitempty" = true := by decide
  have o2 : omitEmpty "total-receipt-end,omitempty" = true := by decide
  have t1 : "total-receipt-start,omitempty".utf8ByteSize > 0 := by decide
  have t2 : "total-receipt-end,omitempty".utf8ByteSize > 0 := by decide
  constructor
  · have h := (customerCriteria_result_values V c hv out hout "total-receipt-start").2
    have hf : c.fields.filter (fun f => queryField f.query == "total-receipt-start") =
        [⟨"ReceiptLowest", [Rule.omitempty], "total-receipt-start,omitempty",
          Value.float c.ReceiptLowest⟩] := rfl
    rw [hf] at h
    by_cases hz : c.ReceiptLowest.isZero = true
    · have ha : (CustomerCriteria.fieldWork ⟨"ReceiptLowest", [Rule.omitempty],
          "total-receipt-start,omitempty", Value.float c.ReceiptLowest⟩).adds = [] := by
        simp [CustomerCriteria.fieldWork, Value.IsZero, o1, hz, Work.adds]
      simp only [List.flatMap_cons, List.flatMap_nil, ha, List.map_nil, List.append_nil,
        List.perm_nil] at h
      simp [h, hz]
    · have ha : (CustomerCriteria.fieldWork ⟨"ReceiptLowest", [Rule.omitempty],
          "total-receipt-start,omitempty", Value.float c.ReceiptLowest⟩).adds =
          [("total-receipt-start", fmt2f c.ReceiptLowest)] := by
        simp [CustomerCriteria.fieldWork, Value.IsZero, o1, q1, t1, hz, Work.adds]
      simp only [List.flatMap_cons, List.flatMap_nil, ha, List.map_cons, List.map_nil,
        List.append_nil] at h
      simp [List.perm_singleton.mp h, hz]
  · have h := (customerCriteria_result_values V c hv out hout "total-receipt-end").2
    have hf : c.fields.filter (fun f => queryField f.query == "total-receipt-end") =
        [⟨"ReceiptHighest", [Rule.omitempty], "total-receipt-end,omitempty",
          Value.float c.ReceiptHighest⟩] := rfl
    rw [hf] at h
    by_cases hz : c.ReceiptHighest.isZero = true
    · have ha : (CustomerCriteria.fieldWork ⟨"ReceiptHighest", [Rule.omitempty],
          "total-receipt-end,omitempty", Value.float c.ReceiptHighest⟩).adds = [] := by
        simp [CustomerCriteria.fieldWork, Value.IsZero, o2, hz, Work.adds]
      simp only [List.flatMap_cons, List.flatMap_nil, ha, List.map_nil, List.append_nil,
        List.perm_nil] at h
      simp [h, hz]
    · have ha : (CustomerCriteria.fieldWork ⟨"ReceiptHighest", [Rule.omitempty],
          "total-receipt-end,omitempty", Value.float c.ReceiptHighest⟩).adds =
          [("total-receipt-end", fmt2f c.ReceiptHighest)] := by
        simp [CustomerCriteria.fieldWork, Value.IsZero, o2, q2, t2, hz, Work.adds]
      simp only [List.flatMap_cons, List.flatMap_nil, ha, List.map_cons, List.map_nil,
        List.append_nil] at h
      simp [List.perm_singleton.mp h, hz]

/-- C11 (as stated, refuted): a `CustomerCriteria` whose `ReceiptLowest` is NaN passes
validation, and the value emitted under `total-receipt-start` is the text `NaN`, which
has no decimal point at all. -/
theorem float_nan_has_no_fraction_digits :
    (CustomerCriteria.validator sampleRules).Struct nanCriteria = none ∧
    CustomerCriteria.UrlValues (CustomerCriteria.validator sampleRules) nanCriteria =
      [([("total-receipt-start", ["NaN"])], none)] ∧
    ¬ (∀ out ∈ CustomerCriteria.UrlValues (CustomerCriteria.validator sampleRules) nanCriteria,
        ∀ v ∈ out.1.values "total-receipt-start", twoFractionDigits v = true) := by
  decide

/-- C11 (amended): every finite float value is rendered with exactly two digits after
the decimal point, and NaN and the infinities are rendered as `NaN`, `+Inf`, `-Inf`;
in every result of `CustomerCriteria.UrlValues` on a value that passes validation,
each value under `total-receipt-start` (`total-receipt-end`) is the rendering of
`ReceiptLowest` (`ReceiptHighest`), so it has exactly two digits after the decimal
point whenever that field is finite; `ReceiptLowest = 12.5` gives `"12.50"`. -/
theorem float_fields_two_fraction_digits :
    (∀ (neg : Bool) (m : Nat) (e : Int), twoFractionDigits (fmt2f (F64.finite neg m e)) = true) ∧
    fmt2f F64.nan = "NaN" ∧ fmt2f (F64.inf false) = "+Inf" ∧ fmt2f (F64.inf true) = "-Inf" ∧
    (∀ (V : Validator CustomerCriteria) (c : CustomerCriteria), V.Struct c = none →
      ∀ out ∈ CustomerCriteria.UrlValues V c,
        (∀ v ∈ out.1.values "total-receipt-start", v = fmt2f c.ReceiptLowest) ∧
        (∀ v ∈ out.1.values "total-receipt-end", v = fmt2f c.ReceiptHighest) ∧
        (∀ neg m e, c.ReceiptLowest = F64.finite neg m e →
          ∀ v ∈ out.1.values "total-receipt-start", twoFractionDigits v = true) ∧
        (∀ neg m e, c.ReceiptHighest = F64.finite neg m e →
          ∀ v ∈ out.1.values "total-receipt-end", twoFractionDigits v = true) ∧
        (c.ReceiptLowest = F64.finite false 25 (-1) →
          out.1.values "total-receipt-start" = ["12.50"])) := by
  refine ⟨twoFractionDigits_fmt2f, rfl, rfl, rfl, ?_⟩
  intro V c hv out hout
  obtain ⟨h1, h2⟩ := customerCriteria_float_values V c hv out hout
  have a1 : ∀ v ∈ out.1.values "total-receipt-start", v = fmt2f c.ReceiptLowest := by
    intro v hmem
    rw [h1] at hmem
    split_ifs at hmem
    · cases hmem
    · exact List.mem_singleton.mp hmem
  have a2 : ∀ v ∈ out.1.values "total-receipt-end", v = fmt2f c.ReceiptHighest := by
    intro v hmem
    rw [h2] at hmem
    split_ifs at hmem
    · cases hmem
    · exact List.mem_singleton.mp hmem
  refine ⟨a1, a2, ?_, ?_, ?_⟩
  · intro neg m e hc v hmem
    rw [a1 v hmem, hc]
    exact twoFractionDigits_fmt2f neg m e
  · intro neg m e hc v hmem
    rw [a2 v hmem, hc]
    exact twoFractionDigits_fmt2f neg m e
  · intro hc
    rw [h1, hc]
    decide

/-- Witness for C11 (amended): the criteria with `ReceiptLowest = 12.5` passes
validation and every result has the single value `"12.50"` under
`total-receipt-start`. -/
theorem float_fields_two_fraction_digits_witness :
    (CustomerCriteria.validator sampleRules).Struct receiptCriteria = none ∧
    ∀ out ∈ CustomerCriteria.UrlValues (CustomerCriteria.validator sampleRules) receiptCriteria,
      out.1.values "total-receipt-start" = ["12.50"] :=
  ⟨by decide, fun out hout =>
    (float_fields_two_fraction_digits.2.2.2.2 (CustomerCriteria.validator sampleRules)
      receiptCriteria (by decide) out hout).2.2.2.2 rfl⟩

/-! ## Boolean fields -/

/-- The value that `SignUpForm.UrlValues` puts under the key of a boolean field. -/
theorem signUpForm_bool_field_value (V : Validator SignUpForm) (r : SignUpForm)
    (hreg : V.RegisterValidation "rcpassword" validatePassword = none) (hv : V.Struct r = none)
    (out : Values × Option Error) (hout : out ∈ SignUpForm.UrlValues V r)
    (name : String) (rules : List Rule) (tag : String) (b : Bool)
    (hf : (⟨name, rules, tag, Value.bool b⟩ : Field) ∈ r.fields) (hq : tag ≠ "")
    (ho : omitEmpty tag = true) :
    out.1.values (queryField tag) = if b = true then ["true"] else [] := by
  have h := (signUpForm_result_values V r hreg hv out hout (queryField tag)).2
  rw [filter_key_eq_singleton (fun f => queryField f.query) r.fields (SignUpForm.keys_nodup r)
    ⟨name, rules, tag, Value.bool b⟩ hf] at h
  have hpos := utf8ByteSize_pos_of_ne_empty tag hq
  cases b
  · have ha : (SignUpForm.fieldWork ⟨name, rules, tag, Value.bool false⟩).adds = [] := by
      simp [SignUpForm.fieldWork, ho, Value.IsZero, Work.adds]
    simp only [List.flatMap_cons, List.flatMap_nil, ha, List.map_nil, List.append_nil,
      List.perm_nil] at h
    simp [h]
  · have ha : (SignUpForm.fieldWork ⟨name, rules, tag, Value.bool true⟩).adds =
        [(queryField tag, "true")] := by
      simp [SignUpForm.fieldWork, hpos, Value.IsZero, Work.adds, fmtBool]
    simp only [List.flatMap_cons, List.flatMap_nil, ha, List.map_cons, List.map_nil,
      List.append_nil] at h
    simp [List.perm_singleton.mp h]

/-- The value that `OrderCriteria.URLValues` puts under `show-child-orders`. -/
theorem orderCriteria_show_child_orders (V : Validator OrderCriteria) (c : OrderCriteria)
    (hv : V.Struct c = none) (out : Values × Option Error)
    (hout : out ∈ OrderCriteria.URLValues V c) :
    out.1.values "show-child-orders" = if c.ShowChildOrders = true then ["true"] else [] := by
  have h := (orderCriteria_result_values V c hv out hout "show-child-orders").2
  have hf : c.fields.filter (fun f => queryField f.query == "show-child-orders") =
      [⟨"ShowChildOrders", [Rule.omitempty], "show-child-orders,omitempty",
        Value.bool c.ShowChildOrders⟩] := rfl
  rw [hf] at h
  have q : queryField "show-child-orders,omitempty" = "show-child-orders" := by decide
  have o : omitEmpty "show-child-orders,omitempty" = true := by decide
  have t : "show-child-orders,omitempty" ≠ "" := by decide
  cases hb : c.ShowChildOrders
  · have ha : (OrderCriteria.fieldWork ⟨"ShowChildOrders", [Rule.omitempty],
        "show-child-orders,omitempty", Value.bool c.ShowChildOrders⟩).adds = [] := by
      simp [OrderCriteria.fieldWork, o, hb, Value.IsZero, Work.adds]
    simp only [List.flatMap_cons, List.flatMap_nil, ha, List.map_nil, List.append_nil,
      List.perm_nil] at h
    simp [h]
  · have ha : (OrderCriteria.fieldWork ⟨"ShowChildOrders", [Rule.omitempty],
        "show-child-orders,omitempty", Value.bool c.ShowChildOrders⟩).adds =
        [("show-child-orders", "true")] := by
      simp [OrderCriteria.fieldWork, o, q, t, hb, Value.IsZero, Work.adds, fmtBool]
    simp only [List.flatMap_cons, List.flatMap_nil, ha, List.map_cons, List.map_nil,
      List.append_nil] at h
    simp [List.perm_singleton.mp h]

/-- C12: the goroutine of a boolean field that has a wire key and is not omitted
performs exactly one `Add`, of the literal text `true` when the field is true and
`false` when it is false; in every result on a value that passes validation, each of
`sms-consent`, `email-marketing-consent`, `accept-policy` (`SignUpForm`) and
`show-child-orders` (`OrderCriteria`) that is emitted carries exactly one value, the
text `true`, and it is emitted exactly when the field is true. -/
theorem boolean_fields_text :
    (∀ (name : String) (rules : List Rule) (tag : String) (b : Bool), tag ≠ "" →
      ¬ (omitEmpty tag = true ∧ b = false) →
      (SignUpForm.fieldWork ⟨name, rules, tag, Value.bool b⟩).traces =
        [[(queryField tag, if b = true then "true" else "false")]] ∧
      (OrderCriteria.fieldWork ⟨name, rules, tag, Value.bool b⟩).traces =
        [[(queryField tag, if b = true then "true" else "false")]]) ∧
    (∀ (V : Validator SignUpForm) (r : SignUpForm),
      V.RegisterValidation "rcpassword" validatePassword = none → V.Struct r = none →
      ∀ out ∈ SignUpForm.UrlValues V r,
        out.1.values "sms-consent" = (if r.SmsConcent = true then ["true"] else []) ∧
        out.1.values "email-marketing-consent" =
          (if r.EmailMarketingConcent = true then ["true"] else []) ∧
        out.1.values "accept-policy" = (if r.AcceptPolicy = true then ["true"] else [])) ∧
    (∀ (V : Validator OrderCriteria) (c : OrderCriteria), V.Struct c = none →
      ∀ out ∈ OrderCriteria.URLValues V c,
        out.1.values "show-child-orders" =
          (if c.ShowChildOrders = true then ["true"] else [])) := by
  refine ⟨?_, ?_, ?_⟩
  · intro name rules tag b hq hno
    have hpos := utf8ByteSize_pos_of_ne_empty tag hq
    have hz : (omitEmpty tag && (Value.bool b).IsZero) = false := by
      cases ho : omitEmpty tag
      · rfl
      · cases b
        · exact absurd ⟨ho, rfl⟩ hno
        · rfl
    constructor
    · simp only [SignUpForm.fieldWork, hpos, if_true, hz, Bool.false_eq_true, if_false,
        Work.traces, fmtBool]
    · simp only [OrderCriteria.fieldWork, hq, ne_eq, not_false_eq_true, if_true, hz,
        Bool.false_eq_true, if_false, Work.traces, fmtBool]
  · intro V r hreg hv out hout
    have hb := signUpForm_bool_field_value V r hreg hv out hout
    exact ⟨hb "SmsConcent" [Rule.omitempty] "sms-consent,omitempty" r.SmsConcent
        (by simp [SignUpForm.fields]) (by decide) (by decide),
      hb "EmailMarketingConcent" [Rule.omitempty] "email-marketing-consent,omitempty"
        r.EmailMarketingConcent (by simp [SignUpForm.fields]) (by decide) (by decide),
      hb "AcceptPolicy" [Rule.omitempty] "accept-policy,omitempty" r.AcceptPolicy
        (by simp [SignUpForm.fields]) (by decide) (by decide)⟩
  · intro V c hv out hout
    exact orderCriteria_show_child_orders V c hv out hout

/-- Witness for C12: a form that consents to SMS and accepts the policy passes
validation; `sms-consent` and `accept-policy` carry the one value `true`, and
`email-marketing-consent`, which is false, is absent. -/
theorem boolean_fields_text_witness :
    (SignUpForm.validator sampleRules).RegisterValidation "rcpassword" validatePassword = none ∧
    (SignUpForm.validator sampleRules).Struct consentForm = none ∧
    ∀ out ∈ SignUpForm.UrlValues (SignUpForm.validator sampleRules) consentForm,
      out.1.values "sms-consent" = ["true"] ∧ out.1.values "email-marketing-consent" = [] ∧
      out.1.values "accept-policy" = ["true"] :=
  ⟨by decide, by decide, fun out hout =>
    boolean_fields_text.2.1 (SignUpForm.validator sampleRules) consentForm (by decide)
      (by decide) out hout⟩

/-! ## Fields without a wire key -/

/-- The field loop of the sign-up form does not depend on `CustomerId`. -/
theorem signUpForm_work_customerId (r : SignUpForm) (id : String) :
    SignUpForm.work { r with CustomerId := id } = SignUpForm.work r := by
  have e : ∀ s : String, SignUpForm.fieldWork ⟨"CustomerId", [Rule.ignore], "", Value.string s⟩ =
      Work.skip := by
    intro s
    have h0 : ¬ ("".utf8ByteSize > 0) := by decide
    simp only [SignUpForm.fieldWork, h0, if_false]
  simp only [SignUpForm.work, SignUpForm.fields, List.map_cons, List.map_nil, e]

/-- The modelled engine does not look at `CustomerId`, whose tag is `-`. -/
theorem signUpForm_struct_customerId (lib : LibraryRules) (r : SignUpForm) (id : String) :
    (SignUpForm.validator lib).Struct { r with CustomerId := id } =
      (SignUpForm.validator lib).Struct r := by
  simp only [SignUpForm.validator, structErrors, fieldErrors, SignUpForm.fields,
    List.filterMap_cons, List.filterMap_nil, failingRule, Option.map_none']

/-- C13: two sign-up forms that differ only in `CustomerId` give the same results from
`UrlValues`: under any engine that gives both the same verdict the sets of possible
results coincide, and the modelled engine, for which `CustomerId` carries the tag `-`,
gives both the same verdict, so the same error or the same keys and values. -/
theorem customer_id_does_not_influence :
    (∀ (V : Validator SignUpForm) (r : SignUpForm) (id : String),
      V.Struct { r with CustomerId := id } = V.Struct r →
      SignUpForm.UrlValues V { r with CustomerId := id } = SignUpForm.UrlValues V r) ∧
    (∀ (lib : LibraryRules) (r : SignUpForm) (id : String),
      (SignUpForm.validator lib).Struct { r with CustomerId := id } =
        (SignUpForm.validator lib).Struct r ∧
      SignUpForm.UrlValues (SignUpForm.validator lib) { r with CustomerId := id } =
        SignUpForm.UrlValues (SignUpForm.validator lib) r) := by
  have h1 : ∀ (V : Validator SignUpForm) (r : SignUpForm) (id : String),
      V.Struct { r with CustomerId := id } = V.Struct r →
      SignUpForm.UrlValues V { r with CustomerId := id } = SignUpForm.UrlValues V r := by
    intro V r id hs
    simp only [SignUpForm.UrlValues, hs, signUpForm_work_customerId]
  refine ⟨h1, ?_⟩
  intro lib r id
  exact ⟨signUpForm_struct_customerId lib r id,
    h1 _ r id (signUpForm_struct_customerId lib r id)⟩

/-- Witness for C13: the sample form and the same form with a customer id pass the
same validation and have the same results. -/
theorem customer_id_does_not_influence_witness :
    (SignUpForm.validator sampleRules).Struct { sampleForm with CustomerId := "12345" } =
      (SignUpForm.validator sampleRules).Struct sampleForm ∧
    SignUpForm.UrlValues (SignUpForm.validator sampleRules)
        { sampleForm with CustomerId := "12345" } =
      SignUpForm.UrlValues (SignUpForm.validator sampleRules) sampleForm :=
  ⟨by decide, customer_id_does_not_influence.1 (SignUpForm.validator sampleRules) sampleForm
    "12345" (by decide)⟩

/-! ## The expiry range -/

/-- A result of `OrderCriteria.URLValues` on a value that passes validation is the map
of a run of the field loop. -/
theorem orderCriteria_result_trace (V : Validator OrderCriteria) (c : OrderCriteria)
    (hv : V.Struct c = none) (out : Values × Option Error)
    (hout : out ∈ OrderCriteria.URLValues V c) :
    ∃ tr ∈ (OrderCriteria.work c).traces, out = (Values.ofTrace tr, none) := by
  simp only [OrderCriteria.URLValues, hv, List.mem_map] at hout
  obtain ⟨tr, htr, rfl⟩ := hout
  exact ⟨tr, htr, rfl⟩

/-- C14: when both `TimeExpiryStart` and `TimeExpiryEnd` are non-zero, every result of
`OrderCriteria.URLValues` on a value that passes validation has exactly two values
under the one key `expiry-date-start`, the Unix seconds of the start and of the end
(in either order), and has no key `expiry-date-end`.  The call has at least one
result. -/
theorem expiry_dates_share_one_key (V : Validator OrderCriteria) (c : OrderCriteria)
    (hv : V.Struct c = none) (hs : c.TimeExpiryStart ≠ Time.zero)
    (he : c.TimeExpiryEnd ≠ Time.zero) :
    OrderCriteria.URLValues V c ≠ [] ∧
    ∀ out ∈ OrderCriteria.URLValues V c,
      (out.1.values "expiry-date-start").Perm
        [formatInt c.TimeExpiryStart.Unix, formatInt c.TimeExpiryEnd.Unix] ∧
      (out.1.values "expiry-date-start").length = 2 ∧
      out.1.Has "expiry-date-end" = false ∧ out.1.values "expiry-date-end" = [] := by
  refine ⟨by simp [OrderCriteria.URLValues, hv, Work.traces_ne_nil], ?_⟩
  intro out hout
  obtain ⟨tr, htr, rfl⟩ := orderCriteria_result_trace V c hv out hout
  have h := fields_values_perm _ orderCriteria_fieldWork_key _ tr htr
  have q : queryField "expiry-date-start,omitempty" = "expiry-date-start" := by decide
  have t : "expiry-date-start,omitempty" ≠ "" := by decide
  have h1 := h "expiry-date-start"
  have hf1 : c.fields.filter (fun f => queryField f.query == "expiry-date-start") =
      [⟨"TimeExpiryStart", [Rule.omitempty], "expiry-date-start,omitempty",
          Value.time c.TimeExpiryStart⟩,
        ⟨"TimeExpiryEnd", [Rule.omitempty], "expiry-date-start,omitempty",
          Value.time c.TimeExpiryEnd⟩] := rfl
  rw [hf1] at h1
  have ha1 : (OrderCriteria.fieldWork ⟨"TimeExpiryStart", [Rule.omitempty],
      "expiry-date-start,omitempty", Value.time c.TimeExpiryStart⟩).adds =
      [("expiry-date-start", formatInt c.TimeExpiryStart.Unix)] := by
    simp [OrderCriteria.fieldWork, Value.IsZero, q, t, hs, Work.adds]
  have ha2 : (OrderCriteria.fieldWork ⟨"TimeExpiryEnd", [Rule.omitempty],
      "expiry-date-start,omitempty", Value.time c.TimeExpiryEnd⟩).adds =
      [("expiry-date-start", formatInt c.TimeExpiryEnd.Unix)] := by
    simp [OrderCriteria.fieldWork, Value.IsZero, q, t, he, Work.adds]
  simp only [List.flatMap_cons, List.flatMap_nil, ha1, ha2, List.map_cons, List.map_nil,
    List.append_nil, List.singleton_append] at h1
  have h2 := h "expiry-date-end"
  have hf2 : c.fields.filter (fun f => queryField f.query == "expiry-date-end") = [] := rfl
  rw [hf2] at h2
  have h3 : (Values.ofTrace tr).values "expiry-date-end" = [] := List.perm_nil.mp h2
  refine ⟨h1, h1.length_eq, ?_, h3⟩
  have hh := Values.Has_iff_values tr "expiry-date-end"
  simp only [h3, ne_eq, not_true_eq_false, iff_false, Bool.not_eq_true] at hh
  exact hh

/-- Witness for C14: a criteria with both expiry bounds set passes validation, and
every result has the two values under `expiry-date-start` and no key
`expiry-date-end`. -/
theorem expiry_dates_share_one_key_witness :
    (OrderCriteria.validator sampleRules).Struct expiryCriteria = none ∧
    expiryCriteria.TimeExpiryStart ≠ Time.zero ∧ expiryCriteria.TimeExpiryEnd ≠ Time.zero ∧
    ∀ out ∈ OrderCriteria.URLValues (OrderCriteria.validator sampleRules) expiryCriteria,
      (out.1.values "expiry-date-start").Perm ["1700000000", "1800000000"] ∧
      out.1.Has "expiry-date-end" = false :=
  ⟨by decide, by decide, by decide, fun out hout =>
    ⟨((expiry_dates_share_one_key (OrderCriteria.validator sampleRules) expiryCriteria
        (by decide) (by decide) (by decide)).2 out hout).1,
     ((expiry_dates_share_one_key (OrderCriteria.validator sampleRules) expiryCriteria
        (by decide) (by decide) (by decide)).2 out hout).2.2.1⟩⟩

/-! ## Several violations at once -/

/-- C15 (as stated, refuted): for the form whose `Name` is missing and whose `Username`
is not an e-mail address, `UrlValues` returns the empty map with one error value that
lists both violations, `email` on `Username` and `required` on `Name`; the error does
not report a single field. -/
theorem two_violations_are_both_reported :
    SignUpForm.UrlValues (SignUpForm.validator sampleRules) twoViolationsForm =
      [(Values.empty, some (Error.validation
        [⟨"Username", "email"⟩, ⟨"Name", "required"⟩]))] ∧
    ¬ ∃ fe : FieldError,
      SignUpForm.UrlValues (SignUpForm.validator sampleRules) twoViolationsForm =
        [(Values.empty, some (Error.validation [fe]))] := by
  have h : SignUpForm.UrlValues (SignUpForm.validator sampleRules) twoViolationsForm =
      [(Values.empty, some (Error.validation
        [⟨"Username", "email"⟩, ⟨"Name", "required"⟩]))] := by decide
  refine ⟨h, ?_⟩
  rintro ⟨fe, hfe⟩
  rw [h] at hfe
  simp at hfe

/-- C15 (amended): for every sign-up form on which at least one field fails its rules,
`UrlValues` has exactly one result: the empty map, with one error value, the
`ValidationErrors` of the engine; that error lists every failing field, in field
order, each with the first rule the field fails (so a form that violates rules on two
fields is reported with two entries). -/
theorem validation_reports_every_failing_field (lib : LibraryRules) (r : SignUpForm)
    (h : fieldErrors lib r.fields ≠ []) :
    SignUpForm.UrlValues (SignUpForm.validator lib) r =
      [(Values.empty, some (Error.validation (fieldErrors lib r.fields)))] ∧
    (∀ fe : FieldError, fe ∈ fieldErrors lib r.fields ↔
      ∃ f ∈ r.fields, ∃ rule, failingRule lib f.rules f.value = some rule ∧
        fe = ⟨f.name, rule.tagName⟩) ∧
    (fieldErrors lib r.fields).length =
      (r.fields.filter (fun f => (failingRule lib f.rules f.value).isSome)).length := by
  refine ⟨?_, ?_, ?_⟩
  · have hs : (SignUpForm.validator lib).Struct r =
        some (Error.validation (fieldErrors lib r.fields)) := by
      show structErrors lib r.fields = _
      unfold structErrors
      cases hfe : fieldErrors lib r.fields with
      | nil => exact absurd hfe h
      | cons e es => rfl
    have hreg : (SignUpForm.validator lib).RegisterValidation "rcpassword" validatePassword =
        none := by
      have hne : ¬ ("rcpassword" = "") := by decide
      simp only [SignUpForm.validator, hne, if_false]
    simp only [SignUpForm.UrlValues, hreg, hs]
  · intro fe
    simp only [fieldErrors, List.mem_filterMap, Option.map_eq_some']
    constructor
    · rintro ⟨f, hf, rule, hr, rfl⟩
      exact ⟨f, hf, rule, hr, rfl⟩
    · rintro ⟨f, hf, rule, hr, rfl⟩
      exact ⟨f, hf, rule, hr, rfl⟩
  · generalize r.fields = fs
    induction fs with
    | nil => rfl
    | cons f fs ih =>
      cases hr : failingRule lib f.rules f.value with
      | none => simpa [fieldErrors, List.filterMap_cons, List.filter_cons, hr] using ih
      | some rule => simpa [fieldErrors, List.filterMap_cons, List.filter_cons, hr] using ih

/-- Witness for C15 (amended): the form with a missing name and a malformed user name
has failing fields, and its one result carries both. -/
theorem validation_reports_every_failing_field_witness :
    fieldErrors sampleRules twoViolationsForm.fields ≠ [] ∧
    SignUpForm.UrlValues (SignUpForm.validator sampleRules) twoViolationsForm =
      [(Values.empty, some (Error.validation
        (fieldErrors sampleRules twoViolationsForm.fields)))] :=
  ⟨by decide, (validation_reports_every_failing_field sampleRules twoViolationsForm
    (by decide)).1⟩

/-! ## The HTTP dispatcher -/

/-- C16: for every method other than `GET` and `POST`, `CallAPI` returns a nil response
with the error `ErrRcAPIUnsupportedMethod` and hands no request to the client; for
`GET` and `POST` it never returns that error. -/
theorem unsupported_method_is_rejected :
    (∀ (c : core) (net : NetLib) (method nameSpace apiName : String) (data : Values),
      method ≠ "GET" → method ≠ "POST" →
      (c.CallAPI net method nameSpace apiName data).result =
        Returned.returned (none, some ErrRcAPIUnsupportedMethod) ∧
      (c.CallAPI net method nameSpace apiName data).sent = []) ∧
    (∀ (c : core) (net : NetLib) (method nameSpace apiName : String) (data : Values),
      method = "GET" ∨ method = "POST" → ∀ resp : Option Response,
      (c.CallAPI net method nameSpace apiName data).result ≠
        Returned.returned (resp, some ErrRcAPIUnsupportedMethod)) := by
  constructor
  · intro c net method nameSpace apiName data h1 h2
    simp only [core.CallAPI, h1, h2, ne_eq, not_false_eq_true, and_self, if_true]
  · intro c net method nameSpace apiName data hm resp
    have hno : ¬ (method ≠ "GET" ∧ method ≠ "POST") := by
      rcases hm with rfl | rfl
      · simp
      · simp
    simp only [core.CallAPI, hno, if_false]
    cases hreq : net.NewRequestError method
        (host c.cfg.IsProduction ++ "/" ++ nameSpace ++ "/" ++ apiName ++ ".json" ++ "?" ++
          Values.Encode ((data.Add "auth-userid" c.cfg.ResellerID).Add "api-key" c.cfg.APIKey)) with
    | some cause =>
      simp [ErrRcAPIUnsupportedMethod]
    | none =>
      cases hcl : c.client with
      | none => simp
      | some cl =>
        simp only [ne_eq, Returned.returned.injEq, Prod.mk.injEq, not_and]
        intro _
        cases (cl.Do _).2 <;> simp [ErrRcAPIUnsupportedMethod]

/-- Witness for C16: `DELETE` is neither `GET` nor `POST`, and the call with it returns
the error without a request. -/
theorem unsupported_method_is_rejected_witness :
    "DELETE" ≠ "GET" ∧ "DELETE" ≠ "POST" ∧
    (sampleCore.CallAPI plainNet "DELETE" "products" "customer-price" []).result =
      Returned.returned (none, some ErrRcAPIUnsupportedMethod) ∧
    (sampleCore.CallAPI plainNet "DELETE" "products" "customer-price" []).sent = [] :=
  ⟨by decide, by decide,
    unsupported_method_is_rejected.1 sampleCore plainNet "DELETE" "products" "customer-price" []
      (by decide) (by decide)⟩

/-- C17: every request that `CallAPI` hands to the client for `GET` or `POST` has the
URL `host + "/" + namespace + "/" + apiName + ".json?"` followed by the encoding
(`Values.Encode`) of the query map, where `host` is `https://httpapi.com/api` in
production and `https://test.httpapi.com/api` otherwise, and the query map is the
caller's map with `ResellerID` added under `auth-userid` and `APIKey` under `api-key`;
when the request can be made and there is a client, exactly that one request is handed
over. -/
theorem request_url (c : core) (net : NetLib) (method nameSpace apiName : String)
    (data : Values) (hm : method = "GET" ∨ method = "POST") :
    (∀ req ∈ (c.CallAPI net method nameSpace apiName data).sent,
      req.Method = method ∧
      req.URL = host c.cfg.IsProduction ++ "/" ++ nameSpace ++ "/" ++ apiName ++ ".json?" ++
        Values.Encode ((data.Add "auth-userid" c.cfg.ResellerID).Add "api-key" c.cfg.APIKey)) ∧
    (host true = "https://httpapi.com/api" ∧ host false = "https://test.httpapi.com/api") ∧
    (((data.Add "auth-userid" c.cfg.ResellerID).Add "api-key" c.cfg.APIKey).values "auth-userid" =
        data.values "auth-userid" ++ [c.cfg.ResellerID] ∧
      ((data.Add "auth-userid" c.cfg.ResellerID).Add "api-key" c.cfg.APIKey).values "api-key" =
        data.values "api-key" ++ [c.cfg.APIKey] ∧
      ∀ k, k ≠ "auth-userid" → k ≠ "api-key" →
        ((data.Add "auth-userid" c.cfg.ResellerID).Add "api-key" c.cfg.APIKey).values k =
          data.values k) ∧
    (∀ cl, c.client = some cl →
      net.NewRequestError method
        (host c.cfg.IsProduction ++ "/" ++ nameSpace ++ "/" ++ apiName ++ ".json?" ++
          Values.Encode ((data.Add "auth-userid" c.cfg.ResellerID).Add "api-key" c.cfg.APIKey)) =
        none →
      (c.CallAPI net method nameSpace apiName data).sent =
        [⟨method, host c.cfg.IsProduction ++ "/" ++ nameSpace ++ "/" ++ apiName ++ ".json?" ++
          Values.Encode ((data.Add "auth-userid" c.cfg.ResellerID).Add "api-key" c.cfg.APIKey)⟩]) := by
  have hno : ¬ (method ≠ "GET" ∧ method ≠ "POST") := by
    rcases hm with rfl | rfl
    · simp
    · simp
  have hurl : host c.cfg.IsProduction ++ "/" ++ nameSpace ++ "/" ++ apiName ++ ".json" ++ "?" =
      host c.cfg.IsProduction ++ "/" ++ nameSpace ++ "/" ++ apiName ++ ".json?" := by
    rw [String.append_assoc _ ".json" "?"]
    rfl
  refine ⟨?_, ⟨rfl, rfl⟩, ⟨?_, ?_, ?_⟩, ?_⟩
  · intro req hreq
    simp only [core.CallAPI, hno, if_false, hurl] at hreq
    split at hreq
    · cases hreq
    · split at hreq
      · cases hreq
      · simp only [List.mem_singleton] at hreq
        subst hreq
        exact ⟨rfl, rfl⟩
  · have h1 : ¬ ("api-key" = "auth-userid") := by decide
    simp [Values.values_Add, h1]
  · have h1 : ¬ ("auth-userid" = "api-key") := by decide
    simp [Values.values_Add, h1]
  · intro k h1 h2
    simp [Values.values_Add, Ne.symm h1, Ne.symm h2]
  · intro cl hcl hreq
    simp only [core.CallAPI, hno, if_false, hurl, hreq, hcl]

/-- Witness for C17: a `GET` of `products/customer-price` in the test environment
requests the test host with the caller's pair and the two credentials. -/
theorem request_url_witness :
    ("GET" = "GET" ∨ "GET" = "POST") ∧
    (sampleCore.CallAPI plainNet "GET" "products" "customer-price"
      [("customer-id", ["42"])]).sent =
      [⟨"GET", "https://test.httpapi.com/api/products/customer-price.json?" ++
        "api-key=secret&auth-userid=1001&customer-id=42"⟩] :=
  ⟨Or.inl rfl,
    (request_url sampleCore plainNet "GET" "products" "customer-price" [("customer-id", ["42"])]
      (Or.inl rfl)).2.2.2 okClient rfl rfl⟩

/-! ## Remote errors -/

/-- The outcome of the common tail of the endpoint methods on a response whose status
is not 200 and whose body decodes as a status envelope. -/
theorem handleResponse_status {α : Type} (lib : StdLib α) (resp : Response)
    (bytesResp status m : String) (hbody : resp.Body = Except.ok bytesResp)
    (hcode : resp.StatusCode ≠ 200)
    (henv : lib.UnmarshalStatus bytesResp = Except.ok ⟨status, m⟩) :
    handleResponse lib (Returned.returned (some resp, none)) =
      Returned.returned (none, some (Error.other (lib.ToLower m))) := by
  simp only [handleResponse, hbody, hcode, ne_eq, not_false_eq_true, if_true, henv]

/-- C18: when `CallAPI` returns a response whose status code is not 200 and whose body
decodes as a status envelope with message `m`, each of `GettingCustomerPricing`,
`GettingResellerPricing`, `GettingResellerCostPricing`, `GettingPromoPrices` and
`fetchCountryDB` returns a nil result and the error whose text is `m` in lower
case. -/
theorem remote_error_is_lowercased_message (resp : Response) (bytesResp status m : String)
    (hbody : resp.Body = Except.ok bytesResp) (hcode : resp.StatusCode ≠ 200) :
    (∀ (α : Type) (lib : StdLib α) (c : Core) (id : String),
      lib.UnmarshalStatus bytesResp = Except.ok ⟨status, m⟩ →
      (c.CallAPI "GET" "products" "customer-price" (Values.empty.Add "customer-id" id) =
          Returned.returned (some resp, none) →
        GettingCustomerPricing lib c id =
          Returned.returned (none, some (Error.other (lib.ToLower m)))) ∧
      (c.CallAPI "GET" "products" "reseller-price" (Values.empty.Add "reseller-id" id) =
          Returned.returned (some resp, none) →
        GettingResellerPricing lib c id =
          Returned.returned (none, some (Error.other (lib.ToLower m)))) ∧
      (c.CallAPI "GET" "products" "reseller-cost-price" (Values.empty.Add "reseller-id" id) =
          Returned.returned (some resp, none) →
        GettingResellerCostPricing lib c id =
          Returned.returned (none, some (Error.other (lib.ToLower m)))) ∧
      (c.CallAPI "GET" "products" "promo-details" Values.empty =
          Returned.returned (some resp, none) →
        GettingPromoPrices lib c =
          Returned.returned (none, some (Error.other (lib.ToLower m))))) ∧
    (∀ (lib : StdLib (List (String × String))) (c : Core),
      lib.UnmarshalStatus bytesResp = Except.ok ⟨status, m⟩ →
      c.CallAPI "GET" "country" "list" Values.empty = Returned.returned (some resp, none) →
      fetchCountryDB lib c = [Returned.returned (none, some (Error.other (lib.ToLower m)))]) := by
  constructor
  · intro α lib c id henv
    have h := handleResponse_status lib resp bytesResp status m hbody hcode henv
    refine ⟨?_, ?_, ?_, ?_⟩
    · intro hc
      simp only [GettingCustomerPricing, hc, h]
    · intro hc
      simp only [GettingResellerPricing, hc, h]
    · intro hc
      simp only [GettingResellerCostPricing, hc, h]
    · intro hc
      simp only [GettingPromoPrices, hc, h]
  · intro lib c henv hc
    have h := handleResponse_status lib resp bytesResp status m hbody hcode henv
    simp only [fetchCountryDB, hc, h]

/-- Witness for C18: a response with status 403 and the envelope `Access Denied` makes
`GettingPromoPrices` and `fetchCountryDB` return the error `access denied`. -/
theorem remote_error_is_lowercased_message_witness :
    (⟨403, Except.ok deniedBody⟩ : Response).Body = Except.ok deniedBody ∧
    (⟨403, Except.ok deniedBody⟩ : Response).StatusCode ≠ 200 ∧
    sampleLib.UnmarshalStatus deniedBody = Except.ok ⟨"ERROR", "Access Denied"⟩ ∧
    GettingPromoPrices sampleLib (answering 403 deniedBody) =
      Returned.returned (none, some (Error.other "access denied")) ∧
    fetchCountryDB sampleLib (answering 403 deniedBody) =
      [Returned.returned (none, some (Error.other "access denied"))] :=
  ⟨rfl, by decide, by decide,
    ((remote_error_is_lowercased_message ⟨403, Except.ok deniedBody⟩ deniedBody "ERROR"
      "Access Denied" rfl (by decide)).1 _ sampleLib (answering 403 deniedBody) ""
      (by decide)).2.2.2 rfl,
    (remote_error_is_lowercased_message ⟨403, Except.ok deniedBody⟩ deniedBody "ERROR"
      "Access Denied" rfl (by decide)).2 sampleLib (answering 403 deniedBody)
      (by decide) rfl⟩

/-! ## Sequences added in a plain loop keep their order -/

theorem interleaveAux_filter_left {α : Type} (p : α → Bool) (x : α) (xs : List α)
    (rec : List α → List (List α))
    (hrec : ∀ ys t, t ∈ rec ys → (∀ y ∈ ys, p y = false) → t.filter p = xs.filter p) :
    ∀ ys t, t ∈ interleaveAux x xs rec ys → (∀ y ∈ ys, p y = false) →
      t.filter p = (x :: xs).filter p := by
  intro ys
  induction ys with
  | nil =>
    intro t ht _
    simp only [interleaveAux, List.mem_singleton] at ht
    rw [ht]
  | cons y ys ih =>
    intro t ht hall
    simp only [interleaveAux, List.mem_append, List.mem_map] at ht
    rcases ht with ⟨t', ht', rfl⟩ | ⟨t', ht', rfl⟩
    · simp only [List.filter_cons, hrec _ _ ht' hall]
    · have hy : p y = false := hall y (List.mem_cons_self y ys)
      have hrest : ∀ z ∈ ys, p z = false := fun z hz => hall z (List.mem_cons_of_mem y hz)
      rw [List.filter_cons, hy]
      simpa using ih t' ht' hrest

/-- An interleaving with a sequence that `p` rejects throughout keeps the selection of
the other sequence in order. -/
theorem interleavings_filter_left {α : Type} (p : α → Bool) (xs ys t : List α)
    (ht : t ∈ interleavings xs ys) (hall : ∀ y ∈ ys, p y = false) :
    t.filter p = xs.filter p := by
  induction xs generalizing ys t with
  | nil =>
    simp only [interleavings, List.mem_singleton] at ht
    rw [ht, List.filter_nil, List.filter_eq_nil_iff]
    intro y hy
    simp [hall y hy]
  | cons x xs ih =>
    exact interleaveAux_filter_left p x xs (interleavings xs)
      (fun ys t h hy => ih ys t h hy) ys t ht hall

theorem interleaveAux_filter_right {α : Type} (p : α → Bool) (x : α) (xs : List α)
    (rec : List α → List (List α)) (hx : p x = false)
    (hrec : ∀ ys t, t ∈ rec ys → t.filter p = ys.filter p) :
    ∀ ys t, t ∈ interleaveAux x xs rec ys → (∀ z ∈ xs, p z = false) →
      t.filter p = ys.filter p := by
  intro ys
  induction ys with
  | nil =>
    intro t ht hall
    simp only [interleaveAux, List.mem_singleton] at ht
    rw [ht, List.filter_nil, List.filter_eq_nil_iff]
    intro z hz
    rcases List.mem_cons.mp hz with rfl | hz
    · simp [hx]
    · simp [hall z hz]
  | cons y ys ih =>
    intro t ht hall
    simp only [interleaveAux, List.mem_append, List.mem_map] at ht
    rcases ht with ⟨t', ht', rfl⟩ | ⟨t', ht', rfl⟩
    · rw [List.filter_cons, hx]
      simpa using hrec _ _ ht'
    · simp only [List.filter_cons, ih t' ht' hall]

/-- An interleaving of a sequence that `p` rejects throughout with another keeps the
selection of that other sequence in order. -/
theorem interleavings_filter_right {α : Type} (p : α → Bool) (xs ys t : List α)
    (ht : t ∈ interleavings xs ys) (hall : ∀ x ∈ xs, p x = false) :
    t.filter p = ys.filter p := by
  induction xs generalizing ys t with
  | nil =>
    simp only [interleavings, List.mem_singleton] at ht
    rw [ht]
  | cons x xs ih =>
    exact interleaveAux_filter_right p x xs (interleavings xs)
      (hall x (List.mem_cons_self x xs))
      (fun ys t h => ih ys t h (fun z hz => hall z (List.mem_cons_of_mem x hz))) ys t ht
      (fun z hz => hall z (List.mem_cons_of_mem x hz))

/-- When the program orders the selected `Add`s, every run performs them in program
order. -/
theorem Work.filter_trace_of_ordered (p : Pair → Bool) (w : Work) (hw : w.OrderedOn p) :
    ∀ tr ∈ w.traces, tr.filter p = w.adds.filter p := by
  induction w with
  | skip => intro tr h; simp [Work.traces] at h; subst h; simp [Work.adds]
  | add k v => intro tr h; simp [Work.traces] at h; subst h; simp [Work.adds]
  | seq a b iha ihb =>
    intro tr h
    simp only [Work.traces, List.mem_flatMap, List.mem_map] at h
    obtain ⟨ta, hta, tb, htb, rfl⟩ := h
    simp only [Work.adds, List.filter_append, iha hw.1 ta hta, ihb hw.2 tb htb]
  | par a b iha ihb =>
    intro tr h
    simp only [Work.traces, List.mem_flatMap] at h
    obtain ⟨ta, hta, tb, htb, h⟩ := h
    obtain ⟨ha, hb, hab⟩ := hw
    simp only [Work.adds, List.filter_append]
    rcases hab with hnone | hnone
    · have hta' : ∀ x ∈ ta, p x = false :=
        fun x hx => hnone x ((Work.traces_perm a ta hta).mem_iff.mp hx)
      have e : a.adds.filter p = [] := by
        rw [List.filter_eq_nil_iff]
        intro x hx
        simp [hnone x hx]
      rw [interleavings_filter_right p ta tb tr h hta', ihb hb tb htb, e, List.nil_append]
    · have htb' : ∀ x ∈ tb, p x = false :=
        fun x hx => hnone x ((Work.traces_perm b tb htb).mem_iff.mp hx)
      have e : b.adds.filter p = [] := by
        rw [List.filter_eq_nil_iff]
        intro x hx
        simp [hnone x hx]
      rw [interleavings_filter_left p ta tb tr h htb', iha ha ta hta, e, List.append_nil]

/-- A piece of work without any selected `Add` orders them trivially. -/
theorem Work.orderedOn_of_none (p : Pair → Bool) (w : Work) (h : ∀ x ∈ w.adds, p x = false) :
    w.OrderedOn p := by
  induction w with
  | skip => trivial
  | add k v => trivial
  | seq a b iha ihb =>
    simp only [Work.adds, List.mem_append] at h
    exact ⟨iha (fun x hx => h x (Or.inl hx)), ihb (fun x hx => h x (Or.inr hx))⟩
  | par a b iha ihb =>
    simp only [Work.adds, List.mem_append] at h
    exact ⟨iha (fun x hx => h x (Or.inl hx)), ihb (fun x hx => h x (Or.inr hx)),
      Or.inl (fun x hx => h x (Or.inl hx))⟩

/-- A plain loop of `Add`s is ordered. -/
theorem Work.orderedOn_seqAll_add (p : Pair → Bool) (k : String) (xs : List String) :
    (Work.seqAll (xs.map (fun x => Work.add k x))).OrderedOn p := by
  induction xs with
  | nil => trivial
  | cons x xs ih => exact ⟨trivial, ih⟩

/-- Goroutines of which at most one performs a selected `Add`, each ordered in itself,
are ordered together. -/
theorem Work.orderedOn_parAll (p : Pair → Bool) (ws : List Work)
    (h1 : ∀ w ∈ ws, w.OrderedOn p)
    (h2 : ws.Pairwise (fun a b => (∀ x ∈ a.adds, p x = false) ∨ (∀ x ∈ b.adds, p x = false))) :
    (Work.parAll ws).OrderedOn p := by
  induction ws with
  | nil => trivial
  | cons w ws ih =>
    rw [List.pairwise_cons] at h2
    refine ⟨h1 w (List.mem_cons_self w ws),
      ih (fun v hv => h1 v (List.mem_cons_of_mem w hv)) h2.2, ?_⟩
    by_cases hw : ∀ x ∈ w.adds, p x = false
    · exact Or.inl hw
    · right
      intro x hx
      rw [Work.adds_parAll, List.mem_flatMap] at hx
      obtain ⟨v, hv, hxv⟩ := hx
      rcases h2.1 v hv with h | h
      · exact absurd h hw
      · exact h x hxv

/-- The values under a key that a single string-sequence field of `OrderCriteria`
carries are the elements of that field, in order. -/
theorem orderCriteria_strings_values (V : Validator OrderCriteria) (c : OrderCriteria)
    (hv : V.Struct c = none) (out : Values × Option Error)
    (hout : out ∈ OrderCriteria.URLValues V c) (k name tag : String) (rules : List Rule)
    (xs : List String)
    (hfilter : c.fields.filter (fun f => queryField f.query == k) =
      [⟨name, rules, tag, Value.strings xs⟩])
    (hq : queryField tag = k) (htag : tag ≠ "")
    (hkeys : (c.fields.map (fun f => queryField f.query)).Pairwise
      (fun a b => a ≠ k ∨ b ≠ k)) :
    out.1.values k = xs := by
  obtain ⟨tr, htr, rfl⟩ := orderCriteria_result_trace V c hv out hout
  have hnone : ∀ f : Field, queryField f.query ≠ k →
      ∀ x ∈ (OrderCriteria.fieldWork f).adds, (fun p : Pair => p.1 == k) x = false := by
    intro f hf x hx
    have := orderCriteria_fieldWork_key f x hx
    simp [this, hf]
  have hadds : (OrderCriteria.fieldWork ⟨name, rules, tag, Value.strings xs⟩).adds =
      xs.map (fun x => (k, x)) := by
    simp only [OrderCriteria.fieldWork, htag, ne_eq, not_false_eq_true, if_true, hq]
    split_ifs with hz
    · have hx : xs = [] := by
        simp only [Value.IsZero, Bool.and_eq_true, List.isEmpty_iff] at hz
        exact hz.2
      simp [hx, Work.adds]
    · exact Work.adds_seqAll_add k xs
  have hord : (OrderCriteria.work c).OrderedOn (fun p => p.1 == k) := by
    apply Work.orderedOn_parAll
    · intro w hw
      obtain ⟨f, hf, rfl⟩ := List.mem_map.mp hw
      by_cases hk : queryField f.query = k
      · have hmem : f ∈ c.fields.filter (fun f => queryField f.query == k) := by
          simp [List.mem_filter, hf, hk]
        rw [hfilter, List.mem_singleton] at hmem
        subst hmem
        simp only [OrderCriteria.fieldWork, htag, ne_eq, not_false_eq_true, if_true]
        split_ifs
        · trivial
        · exact Work.orderedOn_seqAll_add _ _ _
      · exact Work.orderedOn_of_none _ _ (hnone f hk)
    · rw [List.pairwise_map]
      rw [List.pairwise_map] at hkeys
      refine hkeys.imp ?_
      intro a b hab
      rcases hab with h | h
      · exact Or.inl (hnone a h)
      · exact Or.inr (hnone b h)
  have htrace := Work.filter_trace_of_ordered _ _ hord tr htr
  show (Values.ofTrace tr).values k = xs
  rw [Values.values_ofTrace, htrace]
  simp only [OrderCriteria.work]
  rw [Work.adds_parAll, List.flatMap_map,
    filter_adds_by_key OrderCriteria.fieldWork orderCriteria_fieldWork_key k c.fields, hfilter]
  simp [hadds]

/-- The wire keys of `OrderCriteria`, in field order (the embedded record has none). -/
theorem orderCriteria_keys (c : OrderCriteria) :
    c.fields.map (fun f => queryField f.query) =
      ["", "status", "order-by", "order-id", "product-key", "domain-name", "privacy-enabled",
        "show-child-orders", "expiry-date-start", "expiry-date-start"] := rfl

/-- C19: in every result of `OrderCriteria.URLValues` on a value that passes
validation, the values under `status`, `order-id` and `product-key` are exactly the
elements of `Statuses`, `OrderIDs` and `DomainKeys`, one per element and in the order
of the sequence, whatever the schedule.  The call has at least one result. -/
theorem string_sequences_keep_order (V : Validator OrderCriteria) (c : OrderCriteria)
    (hv : V.Struct c = none) :
    OrderCriteria.URLValues V c ≠ [] ∧
    ∀ out ∈ OrderCriteria.URLValues V c,
      out.1.values "status" = c.Statuses ∧ out.1.values "order-id" = c.OrderIDs ∧
      out.1.values "product-key" = c.DomainKeys := by
  refine ⟨by simp [OrderCriteria.URLValues, hv, Work.traces_ne_nil], ?_⟩
  intro out hout
  have h := orderCriteria_strings_values V c hv out hout
  refine ⟨?_, ?_, ?_⟩
  · exact h "status" "Statuses" "status,omitempty" [Rule.omitempty] c.Statuses rfl (by decide)
      (by decide) (by rw [orderCriteria_keys]; decide)
  · exact h "order-id" "OrderIDs" "order-id,omitempty" [Rule.omitempty] c.OrderIDs rfl
      (by decide) (by decide) (by rw [orderCriteria_keys]; decide)
  · exact h "product-key" "DomainKeys" "product-key,omitempty" [Rule.omitempty] c.DomainKeys
      rfl (by decide) (by decide) (by rw [orderCriteria_keys]; decide)

/-- Witness for C19: a criteria with three statuses passes validation and every result
lists them under `status` in their order. -/
theorem string_sequences_keep_order_witness :
    (OrderCriteria.validator sampleRules).Struct sequenceCriteria = none ∧
    ∀ out ∈ OrderCriteria.URLValues (OrderCriteria.validator sampleRules) sequenceCriteria,
      out.1.values "status" = ["Active", "Suspended", "Deleted"] ∧
      out.1.values "order-id" = ["7", "3"] ∧ out.1.values "product-key" = ["domcno"] :=
  ⟨by decide,
    (string_sequences_keep_order (OrderCriteria.validator sampleRules) sequenceCriteria
      (by decide)).2⟩

/-! ## Field descriptors -/

/-- C20: for each of the four record types the list of field descriptors is a function
of the type alone: derived from any two values of the type (in particular twice from
the same one) it is the same ordered list, which is given here. -/
theorem descriptors_depend_on_the_type_only :
    (∀ a b : Criteria, descriptors a.fields = descriptors b.fields) ∧
    (∀ a b : CustomerCriteria, descriptors a.fields = descriptors b.fields) ∧
    (∀ a b : SignUpForm, descriptors a.fields = descriptors b.fields) ∧
    (∀ a b : OrderCriteria, descriptors a.fields = descriptors b.fields) ∧
    (∀ a : Criteria, descriptors a.fields =
      [("reseller-id", true), ("customer-id", true), ("creation-date-start", true),
        ("creation-date-end", true)]) ∧
    (∀ a : CustomerCriteria, descriptors a.fields =
      [("username", true), ("name", true), ("company", true), ("city", true), ("state", true),
        ("total-receipt-start", true), ("total-receipt-end", true)]) ∧
    (∀ a : SignUpForm, descriptors a.fields =
      [("username", false), ("passwd", false), ("name", false), ("company", false),
        ("address-line-1", false), ("address-line-2", true), ("address-line-3", true),
        ("city", false), ("state", false), ("other-state", true), ("country", false),
        ("zipcode", false), ("lang-pref", false), ("phone-cc", false), ("phone", false),
        ("alt-phone-cc", true), ("alt-phone", true), ("fax-cc", true), ("fax", true),
        ("Mobile-cc", true), ("Mobile", true), ("vat-id", true), ("sms-consent", true),
        ("email-marketing-consent", true), ("accept-policy", true)]) ∧
    (∀ a : OrderCriteria, descriptors a.fields =
      [("status", true), ("order-by", true), ("order-id", true), ("product-key", true),
        ("domain-name", true), ("privacy-enabled", true), ("show-child-orders", true),
        ("expiry-date-start", true), ("expiry-date-start", true)]) := by
  have h1 : ∀ a : Criteria, descriptors a.fields =
      [("reseller-id", true), ("customer-id", true), ("creation-date-start", true),
        ("creation-date-end", true)] := fun _ => rfl
  have h2 : ∀ a : CustomerCriteria, descriptors a.fields =
      [("username", true), ("name", true), ("company", true), ("city", true), ("state", true),
        ("total-receipt-start", true), ("total-receipt-end", true)] := fun _ => rfl
  have h3 : ∀ a : SignUpForm, descriptors a.fields =
      [("username", false), ("passwd", false), ("name", false), ("company", false),
        ("address-line-1", false), ("address-line-2", true), ("address-line-3", true),
        ("city", false), ("state", false), ("other-state", true), ("country", false),
        ("zipcode", false), ("lang-pref", false), ("phone-cc", false), ("phone", false),
        ("alt-phone-cc", true), ("alt-phone", true), ("fax-cc", true), ("fax", true),
        ("Mobile-cc", true), ("Mobile", true), ("vat-id", true), ("sms-consent", true),
        ("email-marketing-consent", true), ("accept-policy", true)] := fun _ => rfl
  have h4 : ∀ a : OrderCriteria, descriptors a.fields =
      [("status", true), ("order-by", true), ("order-id", true), ("product-key", true),
        ("domain-name", true), ("privacy-enabled", true), ("show-child-orders", true),
        ("expiry-date-start", true), ("expiry-date-start", true)] := fun _ => rfl
  exact ⟨fun a b => (h1 a).trans (h1 b).symm, fun a b => (h2 a).trans (h2 b).symm,
    fun a b => (h3 a).trans (h3 b).symm, fun a b => (h4 a).trans (h4 b).symm, h1, h2, h3, h4⟩

/-! ## The criteria encoders cannot fail -/

/-- A tag that holds no rule but `omitempty` is never failed. -/
theorem failingRule_omitempty_only (lib : LibraryRules) (rules : List Rule) (v : Value)
    (h : ∀ r ∈ rules, r = Rule.omitempty) : failingRule lib rules v = none := by
  induction rules with
  | nil => rfl
  | cons r rest ih =>
    have hr : r = Rule.omitempty := h r (List.mem_cons_self _ _)
    subst hr
    have ih2 := ih (fun r hr => h r (List.mem_cons_of_mem _ hr))
    simp only [failingRule, ih2, ite_self]

/-- Fields that hold no rule but `omitempty` pass the engine. -/
theorem structErrors_omitempty_only (lib : LibraryRules) (fields : List Field)
    (h : ∀ f ∈ fields, ∀ r ∈ f.rules, r = Rule.omitempty) : structErrors lib fields = none := by
  have he : fieldErrors lib fields = [] := by
    unfold fieldErrors
    rw [List.filterMap_eq_nil_iff]
    intro f hf
    rw [failingRule_omitempty_only lib f.rules f.value (h f hf)]
    rfl
  unfold structErrors
  rw [he]

/-- The fields of a `core.Criteria` hold no rule but `omitempty`. -/
theorem criteria_rules (c : Criteria) : ∀ f ∈ c.fields, ∀ r ∈ f.rules, r = Rule.omitempty := by
  intro f hf r hr
  simp only [Criteria.fields, List.mem_cons, List.mem_singleton, List.not_mem_nil,
    or_false] at hf
  rcases hf with h | h | h | h <;> subst h <;> simp at hr <;> exact hr

/-- The fields of a `customer.CustomerCriteria` hold no rule but `omitempty`. -/
theorem customerCriteria_rules (c : CustomerCriteria) :
    ∀ f ∈ c.fields, ∀ r ∈ f.rules, r = Rule.omitempty := by
  intro f hf r hr
  simp only [CustomerCriteria.fields, List.mem_cons, List.mem_singleton, List.not_mem_nil,
    or_false] at hf
  rcases hf with h | h | h | h | h | h | h | h <;> subst h <;> simp at hr <;> exact hr

/-- The fields of a `domain.OrderCriteria` hold no rule but `omitempty`. -/
theorem orderCriteria_rules (c : OrderCriteria) :
    ∀ f ∈ c.fields, ∀ r ∈ f.rules, r = Rule.omitempty := by
  intro f hf r hr
  simp only [OrderCriteria.fields, List.mem_cons, List.mem_singleton, List.not_mem_nil,
    or_false] at hf
  rcases hf with h | h | h | h | h | h | h | h | h | h <;> subst h <;> simp at hr <;> exact hr

/-- C24: `Criteria.URLValues`, `CustomerCriteria.UrlValues` and `OrderCriteria.URLValues`
never return an error.  Every field of the three types, those of the embedded
`core.Criteria` included, holds no rule but `omitempty`; so the engine passes every value,
whatever the library's tables are, and every result of every call has a nil error (and
there is at least one result). -/
theorem criteria_encoders_never_fail (lib : LibraryRules) :
    (∀ c : Criteria,
      (∀ f ∈ c.fields, ∀ r ∈ f.rules, r = Rule.omitempty) ∧
      (Criteria.validator lib).Struct c = none ∧
      Criteria.URLValues (Criteria.validator lib) c ≠ [] ∧
      ∀ out ∈ Criteria.URLValues (Criteria.validator lib) c, out.2 = none) ∧
    (∀ c : CustomerCriteria,
      (∀ f ∈ c.toCriteria.fields ++ c.fields, ∀ r ∈ f.rules, r = Rule.omitempty) ∧
      (CustomerCriteria.validator lib).Struct c = none ∧
      CustomerCriteria.UrlValues (CustomerCriteria.validator lib) c ≠ [] ∧
      ∀ out ∈ CustomerCriteria.UrlValues (CustomerCriteria.validator lib) c, out.2 = none) ∧
    (∀ c : OrderCriteria,
      (∀ f ∈ c.toCriteria.fields ++ c.fields, ∀ r ∈ f.rules, r = Rule.omitempty) ∧
      (OrderCriteria.validator lib).Struct c = none ∧
      OrderCriteria.URLValues (OrderCriteria.validator lib) c ≠ [] ∧
      ∀ out ∈ OrderCriteria.URLValues (OrderCriteria.validator lib) c, out.2 = none) := by
  refine ⟨fun c => ?_, fun c => ?_, fun c => ?_⟩
  · have hr := criteria_rules c
    have hs : (Criteria.validator lib).Struct c = none :=
      structErrors_omitempty_only lib c.fields hr
    refine ⟨hr, hs, ?_, ?_⟩
    · simp only [Criteria.URLValues, hs, ne_eq, List.map_eq_nil_iff]
      exact Work.traces_ne_nil _
    · intro out hout
      simp only [Criteria.URLValues, hs, List.mem_map] at hout
      obtain ⟨tr, _, rfl⟩ := hout
      rfl
  · have hr : ∀ f ∈ c.toCriteria.fields ++ c.fields, ∀ r ∈ f.rules, r = Rule.omitempty := by
      intro f hf
      rcases List.mem_append.mp hf with h | h
      · exact criteria_rules c.toCriteria f h
      · exact customerCriteria_rules c f h
    have hs : (CustomerCriteria.validator lib).Struct c = none :=
      structErrors_omitempty_only lib _ hr
    refine ⟨hr, hs, ?_, ?_⟩
    · simp only [CustomerCriteria.UrlValues, hs, ne_eq, List.map_eq_nil_iff]
      exact Work.traces_ne_nil _
    · intro out hout
      simp only [CustomerCriteria.UrlValues, hs, List.mem_map] at hout
      obtain ⟨tr, _, rfl⟩ := hout
      rfl
  · have hr : ∀ f ∈ c.toCriteria.fields ++ c.fields, ∀ r ∈ f.rules, r = Rule.omitempty := by
      intro f hf
      rcases List.mem_append.mp hf with h | h
      · exact criteria_rules c.toCriteria f h
      · exact orderCriteria_rules c f h
    have hs : (OrderCriteria.validator lib).Struct c = none :=
      structErrors_omitempty_only lib _ hr
    refine ⟨hr, hs, ?_, ?_⟩
    · simp only [OrderCriteria.URLValues, hs, ne_eq, List.map_eq_nil_iff]
      exact Work.traces_ne_nil _
    · intro out hout
      simp only [OrderCriteria.URLValues, hs, List.mem_map] at hout
      obtain ⟨tr, _, rfl⟩ := hout
      rfl

/-- Witness for C24: an order criteria with three statuses, two order ids and a product
key passes the engine, and every result of encoding it has a nil error. -/
theorem criteria_encoders_never_fail_witness :
    (OrderCriteria.validator sampleRules).Struct sequenceCriteria = none ∧
    ∀ out ∈ OrderCriteria.URLValues (OrderCriteria.validator sampleRules) sequenceCriteria,
      out.2 = none :=
  ⟨((criteria_encoders_never_fail sampleRules).2.2 sequenceCriteria).2.1,
    ((criteria_encoders_never_fail sampleRules).2.2 sequenceCriteria).2.2.2⟩

/-! ## The text `false` is never emitted for a boolean field -/

/-- A result that carries an error carries the empty map. -/
theorem signUpForm_error_result (V : Validator SignUpForm) (r : SignUpForm)
    (h : V.RegisterValidation "rcpassword" validatePassword ≠ none ∨ V.Struct r ≠ none)
    (out : Values × Option Error) (hout : out ∈ SignUpForm.UrlValues V r) :
    out.1 = Values.empty := by
  unfold SignUpForm.UrlValues at hout
  cases hreg : V.RegisterValidation "rcpassword" validatePassword with
  | some e =>
    simp only [hreg, List.mem_singleton] at hout
    rw [hout]
  | none =>
    cases hv : V.Struct r with
    | some e =>
      simp only [hreg, hv, List.mem_singleton] at hout
      rw [hout]
    | none =>
      rcases h with h | h
      · exact absurd hreg h
      · exact absurd hv h

/-- What the goroutine of an omit-on-empty boolean field adds, in the two encoders that
have a case for booleans: the text `true` for a true field, nothing for a false one. -/
theorem bool_fieldWork_adds (f : Field) (b : Bool) (hv : f.value = Value.bool b)
    (ho : omitEmpty f.query = true) :
    ((SignUpForm.fieldWork f).adds = if b = true then [(queryField f.query, "true")] else []) ∧
    ((OrderCriteria.fieldWork f).adds =
      if b = true then [(queryField f.query, "true")] else []) := by
  have hne : f.query ≠ "" := by
    intro h
    rw [h] at ho
    exact absurd ho (by decide)
  have hpos := utf8ByteSize_pos_of_ne_empty f.query hne
  cases b
  · constructor
    · simp [SignUpForm.fieldWork, ho, hv, Value.IsZero, Work.adds]
    · simp [OrderCriteria.fieldWork, ho, hv, Value.IsZero, Work.adds]
  · constructor
    · simp [SignUpForm.fieldWork, hpos, hv, Value.IsZero, Work.adds, fmtBool]
    · simp [OrderCriteria.fieldWork, hne, hv, Value.IsZero, Work.adds, fmtBool]

/-- A key with no value is absent from the map built from a trace, and the empty map
has no key. -/
theorem Values.absent_of_values_nil (tr : List Pair) (k : String)
    (h : (Values.ofTrace tr).values k = []) : (Values.ofTrace tr).Has k = false := by
  cases hh : (Values.ofTrace tr).Has k
  · rfl
  · exact absurd h ((Values.Has_iff_values tr k).mp hh)

/-- C25: no encoder emits the text `false` for a boolean field.  Every boolean field
of `SignUpForm` and of `OrderCriteria` is omit-on-empty, and the goroutine of an
omit-on-empty boolean field adds the text `true` for a true field and nothing for a
false one.  So in every result of every call, whatever the engine and the input (a
rejected input yields the empty map), each of the keys `sms-consent`,
`email-marketing-consent`, `accept-policy` and `show-child-orders` is either absent or
carries exactly the one value `true`. -/
theorem boolean_keys_never_false :
    (∀ (r : SignUpForm), ∀ f ∈ r.fields, ∀ b : Bool, f.value = Value.bool b →
      omitEmpty f.query = true ∧
      (SignUpForm.fieldWork f).adds = if b = true then [(queryField f.query, "true")] else []) ∧
    (∀ (c : OrderCriteria), ∀ f ∈ c.fields, ∀ b : Bool, f.value = Value.bool b →
      omitEmpty f.query = true ∧
      (OrderCriteria.fieldWork f).adds =
        if b = true then [(queryField f.query, "true")] else []) ∧
    (∀ (V : Validator SignUpForm) (r : SignUpForm), ∀ out ∈ SignUpForm.UrlValues V r,
      ∀ k ∈ ["sms-consent", "email-marketing-consent", "accept-policy"],
        (out.1.Has k = false ∧ out.1.values k = []) ∨ out.1.values k = ["true"]) ∧
    (∀ (V : Validator OrderCriteria) (c : OrderCriteria), ∀ out ∈ OrderCriteria.URLValues V c,
      (out.1.Has "show-child-orders" = false ∧ out.1.values "show-child-orders" = []) ∨
        out.1.values "show-child-orders" = ["true"]) := by
  refine ⟨?_, ?_, ?_, ?_⟩
  · intro r f hf b hv
    have ho : omitEmpty f.query = true := by
      simp only [SignUpForm.fields, List.mem_cons, List.mem_singleton, List.not_mem_nil,
        or_false] at hf
      rcases hf with h | h | h | h | h | h | h | h | h | h | h | h | h | h | h | h | h | h | h |
        h | h | h | h | h | h | h <;> subst h <;> first | rfl | exact absurd hv (by simp)
    exact ⟨ho, (bool_fieldWork_adds f b hv ho).1⟩
  · intro c f hf b hv
    have ho : omitEmpty f.query = true := by
      simp only [OrderCriteria.fields, List.mem_cons, List.mem_singleton, List.not_mem_nil,
        or_false] at hf
      rcases hf with h | h | h | h | h | h | h | h | h | h <;> subst h <;>
        first | rfl | exact absurd hv (by simp)
    exact ⟨ho, (bool_fieldWork_adds f b hv ho).2⟩
  · intro V r out hout k hk
    by_cases hok : V.RegisterValidation "rcpassword" validatePassword = none ∧ V.Struct r = none
    · obtain ⟨hreg, hv⟩ := hok
      obtain ⟨tr, _, htr⟩ := signUpForm_result_trace V r hreg hv out hout
      have hb := signUpForm_bool_field_value V r hreg hv out hout
      have hval : out.1.values k = [] ∨ out.1.values k = ["true"] := by
        simp only [List.mem_cons, List.mem_singleton, List.not_mem_nil, or_false] at hk
        rcases hk with rfl | rfl | rfl
        · have h := hb "SmsConcent" [Rule.omitempty] "sms-consent,omitempty" r.SmsConcent
            (by simp [SignUpForm.fields]) (by decide) (by decide)
          have q : queryField "sms-consent,omitempty" = "sms-consent" := by decide
          rw [q] at h
          rw [h]
          cases r.SmsConcent <;> simp
        · have h := hb "EmailMarketingConcent" [Rule.omitempty]
            "email-marketing-consent,omitempty" r.EmailMarketingConcent
            (by simp [SignUpForm.fields]) (by decide) (by decide)
          have q : queryField "email-marketing-consent,omitempty" = "email-marketing-consent" := by
            decide
          rw [q] at h
          rw [h]
          cases r.EmailMarketingConcent <;> simp
        · have h := hb "AcceptPolicy" [Rule.omitempty] "accept-policy,omitempty" r.AcceptPolicy
            (by simp [SignUpForm.fields]) (by decide) (by decide)
          have q : queryField "accept-policy,omitempty" = "accept-policy" := by decide
          rw [q] at h
          rw [h]
          cases r.AcceptPolicy <;> simp
      rcases hval with h | h
      · left
        rw [htr] at h ⊢
        exact ⟨Values.absent_of_values_nil tr k h, h⟩
      · exact Or.inr h
    · have hne : V.RegisterValidation "rcpassword" validatePassword ≠ none ∨ V.Struct r ≠ none := by
        by_cases h1 : V.RegisterValidation "rcpassword" validatePassword = none
        · exact Or.inr (fun h2 => hok ⟨h1, h2⟩)
        · exact Or.inl h1
      rw [signUpForm_error_result V r hne out hout]
      exact Or.inl ⟨rfl, rfl⟩
  · intro V c out hout
    cases hv : V.Struct c with
    | some e =>
      simp only [OrderCriteria.URLValues, hv, List.mem_singleton] at hout
      rw [hout]
      exact Or.inl ⟨rfl, rfl⟩
    | none =>
      obtain ⟨tr, _, htr⟩ := orderCriteria_result_trace V c hv out hout
      have h := orderCriteria_show_child_orders V c hv out hout
      cases hb : c.ShowChildOrders
      · rw [hb] at h
        simp only [Bool.false_eq_true, if_false] at h
        left
        rw [htr] at h ⊢
        exact ⟨Values.absent_of_values_nil tr _ h, h⟩
      · rw [hb] at h
        simp only [if_true] at h
        exact Or.inr h

/-- Witness for C25: in every result for the form that consents to SMS and accepts the
policy, `sms-consent` is absent or carries the one value `true`; so is
`show-child-orders` in the result for an order criteria that the engine rejects. -/
theorem boolean_keys_never_false_witness :
    (∀ out ∈ SignUpForm.UrlValues (SignUpForm.validator sampleRules) consentForm,
      (out.1.Has "sms-consent" = false ∧ out.1.values "sms-consent" = []) ∨
        out.1.values "sms-consent" = ["true"]) ∧
    (∀ out ∈ OrderCriteria.URLValues (rejecting OrderCriteria) sequenceCriteria,
      (out.1.Has "show-child-orders" = false ∧ out.1.values "show-child-orders" = []) ∨
        out.1.values "show-child-orders" = ["true"]) :=
  ⟨fun out hout => boolean_keys_never_false.2.2.1 (SignUpForm.validator sampleRules) consentForm
      out hout "sms-consent" (by decide),
    fun out hout => boolean_keys_never_false.2.2.2 (rejecting OrderCriteria) sequenceCriteria
      out hout⟩

/-! ## The decoders and their receiver -/

/-- C26: whenever `JSONBool.UnmarshalJSON`, `JSONFloat.UnmarshalJSON` or
`JSONTime.UnmarshalJSON` returns an error, the receiver keeps the value it had before
the call; a receiver that differs after the call was overwritten by a call that
returned nil, and then it holds the parsed value, whatever it held before. -/
theorem decoders_keep_receiver_on_error (ParseFloat : String → Except NumErr F64) :
    (∀ (j : JSONBool) (b : String),
      ((JSONBool.UnmarshalJSON j b).2 ≠ none → (JSONBool.UnmarshalJSON j b).1 = j) ∧
      ((JSONBool.UnmarshalJSON j b).1 ≠ j → (JSONBool.UnmarshalJSON j b).2 = none) ∧
      ((JSONBool.UnmarshalJSON j b).2 = none →
        parseBool (String.mk (trimQuotes b.toList)) =
          Except.ok (JSONBool.UnmarshalJSON j b).1.ToBool)) ∧
    (∀ (j : JSONFloat) (b : String),
      ((JSONFloat.UnmarshalJSON ParseFloat j b).2 ≠ none →
        (JSONFloat.UnmarshalJSON ParseFloat j b).1 = j) ∧
      ((JSONFloat.UnmarshalJSON ParseFloat j b).1 ≠ j →
        (JSONFloat.UnmarshalJSON ParseFloat j b).2 = none) ∧
      ((JSONFloat.UnmarshalJSON ParseFloat j b).2 = none →
        ParseFloat (String.mk (trimQuotes b.toList)) =
          Except.ok (JSONFloat.UnmarshalJSON ParseFloat j b).1.ToFloat64)) ∧
    (∀ (j : JSONTime) (b : String),
      ((JSONTime.UnmarshalJSON j b).2 ≠ none → (JSONTime.UnmarshalJSON j b).1 = j) ∧
      ((JSONTime.UnmarshalJSON j b).1 ≠ j → (JSONTime.UnmarshalJSON j b).2 = none) ∧
      ((JSONTime.UnmarshalJSON j b).2 = none →
        ∃ tValue, parseInt (trimQuotes b.toList) = Except.ok tValue ∧
          (JSONTime.UnmarshalJSON j b).1.ToTime = Time.ofUnix tValue)) := by
  refine ⟨fun j b => ?_, fun j b => ?_, fun j b => ?_⟩
  · cases h : parseBool (String.mk (trimQuotes b.toList)) with
    | error e =>
      have hr : JSONBool.UnmarshalJSON j b =
          (j, some (e.toError "ParseBool" (String.mk (trimQuotes b.toList)))) := by
        simp only [JSONBool.UnmarshalJSON, h]
      rw [hr]
      exact ⟨fun _ => rfl, fun hne => absurd rfl hne, fun hn => by simp at hn⟩
    | ok v =>
      have hr : JSONBool.UnmarshalJSON j b = (⟨v⟩, none) := by
        simp only [JSONBool.UnmarshalJSON, h]
      rw [hr]
      exact ⟨fun hne => absurd rfl hne, fun _ => rfl, fun _ => rfl⟩
  · cases h : ParseFloat (String.mk (trimQuotes b.toList)) with
    | error e =>
      have hr : JSONFloat.UnmarshalJSON ParseFloat j b =
          (j, some (e.toError "ParseFloat" (String.mk (trimQuotes b.toList)))) := by
        simp only [JSONFloat.UnmarshalJSON, h]
      rw [hr]
      exact ⟨fun _ => rfl, fun hne => absurd rfl hne, fun hn => by simp at hn⟩
    | ok v =>
      have hr : JSONFloat.UnmarshalJSON ParseFloat j b = (⟨v⟩, none) := by
        simp only [JSONFloat.UnmarshalJSON, h]
      rw [hr]
      exact ⟨fun hne => absurd rfl hne, fun _ => rfl, fun _ => rfl⟩
  · cases h : parseInt (trimQuotes b.toList) with
    | error e =>
      have hr : JSONTime.UnmarshalJSON j b =
          (j, some (e.toError "ParseInt" (String.mk (trimQuotes b.toList)))) := by
        simp only [JSONTime.UnmarshalJSON, h]
      rw [hr]
      exact ⟨fun _ => rfl, fun hne => absurd rfl hne, fun hn => by simp at hn⟩
    | ok v =>
      have hr : JSONTime.UnmarshalJSON j b = (⟨Time.ofUnix v⟩, none) := by
        simp only [JSONTime.UnmarshalJSON, h]
      rw [hr]
      exact ⟨fun hne => absurd rfl hne, fun _ => rfl, fun _ => ⟨v, rfl, rfl⟩⟩

/-- Witness for C26: the three decoders refuse the quoted texts `maybe`, `12,5` and
`12.5` respectively, and the receivers `true`, 12.5 and the instant 1700000000 are
left as they were. -/
theorem decoders_keep_receiver_on_error_witness :
    ((JSONBool.UnmarshalJSON ⟨true⟩ "\"maybe\"").2 ≠ none ∧
      (JSONBool.UnmarshalJSON ⟨true⟩ "\"maybe\"").1 = ⟨true⟩) ∧
    ((JSONFloat.UnmarshalJSON sampleParseFloat ⟨F64.finite false 25 (-1)⟩ "\"12,5\"").2 ≠ none ∧
      (JSONFloat.UnmarshalJSON sampleParseFloat ⟨F64.finite false 25 (-1)⟩ "\"12,5\"").1 =
        ⟨F64.finite false 25 (-1)⟩) ∧
    ((JSONTime.UnmarshalJSON ⟨Time.ofUnix 1700000000⟩ "\"12.5\"").2 ≠ none ∧
      (JSONTime.UnmarshalJSON ⟨Time.ofUnix 1700000000⟩ "\"12.5\"").1 =
        ⟨Time.ofUnix 1700000000⟩) :=
  ⟨⟨by decide, ((decoders_keep_receiver_on_error sampleParseFloat).1 ⟨true⟩ "\"maybe\"").1
      (by decide)⟩,
    ⟨by decide, ((decoders_keep_receiver_on_error sampleParseFloat).2.1
      ⟨F64.finite false 25 (-1)⟩ "\"12,5\"").1 (by decide)⟩,
    ⟨by decide, ((decoders_keep_receiver_on_error sampleParseFloat).2.2
      ⟨Time.ofUnix 1700000000⟩ "\"12.5\"").1 (by decide)⟩⟩

/-! ## The decoders see the quote-stripped text only -/

/-- Leading quotes do not change what `strings.Trim(s, "\"")` returns. -/
theorem trimQuotes_leading (n : Nat) (cs : List Char) :
    trimQuotes (List.replicate n '"' ++ cs) = trimQuotes cs := by
  induction n with
  | zero => rfl
  | succ k ih =>
    rw [List.replicate_succ, List.cons_append]
    unfold trimQuotes at ih ⊢
    rw [List.dropWhile_cons_of_pos (by simp), ih]

/-- Trailing quotes do not change what `strings.Trim(s, "\"")` returns. -/
theorem trimQuotes_trailing (n : Nat) (cs : List Char) :
    trimQuotes (cs ++ List.replicate n '"') = trimQuotes cs := by
  induction n with
  | zero => simp
  | succ k ih =>
    rw [List.replicate_succ', ← List.append_assoc]
    unfold trimQuotes at ih ⊢
    rw [List.dropWhile_append]
    by_cases he : ((cs ++ List.replicate k '"').dropWhile (fun c => c == '"')).isEmpty = true
    · rw [if_pos he]
      have h1 : (cs ++ List.replicate k '"').dropWhile (fun c => c == '"') = [] :=
        List.isEmpty_iff.mp he
      rw [h1] at ih
      rw [← ih]
      decide
    · rw [if_neg he, List.rdropWhile_concat_pos _ _ _ (by simp), ih]

/-- Trimming a trimmed text changes nothing. -/
theorem trimQuotes_idem (cs : List Char) : trimQuotes (trimQuotes cs) = trimQuotes cs := by
  have hd : (trimQuotes cs).dropWhile (fun c => c == '"') = trimQuotes cs := by
    cases ht : trimQuotes cs with
    | nil => rfl
    | cons x xs =>
      have hpre : trimQuotes cs <+: cs.dropWhile (fun c => c == '"') :=
        List.rdropWhile_prefix _ _
      rw [ht] at hpre
      obtain ⟨r, hr⟩ := hpre
      have hne : cs.dropWhile (fun c => c == '"') ≠ [] := by
        rw [← hr]
        simp
      have hh := List.head_dropWhile_not (fun c => c == '"') cs hne
      have hx : (cs.dropWhile (fun c => c == '"')).head hne = x := by
        simp only [← hr, List.cons_append, List.head_cons]
      rw [hx] at hh
      rw [List.dropWhile_cons_of_neg (by simpa using hh)]
  show ((trimQuotes cs).dropWhile (fun c => c == '"')).rdropWhile (fun c => c == '"') = _
  rw [hd]
  unfold trimQuotes
  exact List.rdropWhile_idempotent _ _

/-- The quote-stripped text of a wrapped text is that of the text. -/
theorem trimQuotes_quoted_n (n : Nat) (b : String) :
    trimQuotes (quoted n b).toList = trimQuotes b.toList := by
  show trimQuotes (List.replicate n '"' ++ b.toList ++ List.replicate n '"') = _
  rw [trimQuotes_trailing, trimQuotes_leading]

/-- Two raw inputs with the same quote-stripped text are decoded alike. -/
theorem decoders_same_of_trimQuotes (ParseFloat : String → Except NumErr F64) (b b' : String)
    (h : trimQuotes b.toList = trimQuotes b'.toList) :
    (∀ j : JSONBool, JSONBool.UnmarshalJSON j b = JSONBool.UnmarshalJSON j b') ∧
    (∀ j : JSONFloat,
      JSONFloat.UnmarshalJSON ParseFloat j b = JSONFloat.UnmarshalJSON ParseFloat j b') ∧
    (∀ j : JSONTime, JSONTime.UnmarshalJSON j b = JSONTime.UnmarshalJSON j b') := by
  refine ⟨fun j => ?_, fun j => ?_, fun j => ?_⟩
  · simp only [JSONBool.UnmarshalJSON, h]
  · simp only [JSONFloat.UnmarshalJSON, h]
  · simp only [JSONTime.UnmarshalJSON, h]

/-- C27: the outcome of each of the three decoders (the receiver after the call and
the error) depends only on the input with all leading and trailing double quotes
removed: two inputs with the same quote-stripped text are decoded alike; so for every
input `b` and every `n`, decoding `b` wrapped in `n` extra pairs of quotes and decoding
the quote-stripped `b` both give the outcome of decoding `b`; and the unquoted `true`
and `1700000000` are decoded like their quoted forms. -/
theorem decoders_depend_on_stripped_text (ParseFloat : String → Except NumErr F64) :
    (∀ b b' : String, trimQuotes b.toList = trimQuotes b'.toList →
      (∀ j : JSONBool, JSONBool.UnmarshalJSON j b = JSONBool.UnmarshalJSON j b') ∧
      (∀ j : JSONFloat,
        JSONFloat.UnmarshalJSON ParseFloat j b = JSONFloat.UnmarshalJSON ParseFloat j b') ∧
      (∀ j : JSONTime, JSONTime.UnmarshalJSON j b = JSONTime.UnmarshalJSON j b')) ∧
    (∀ (b : String) (n : Nat),
      (∀ j : JSONBool, JSONBool.UnmarshalJSON j (quoted n b) = JSONBool.UnmarshalJSON j b ∧
        JSONBool.UnmarshalJSON j (String.mk (trimQuotes b.toList)) =
          JSONBool.UnmarshalJSON j b) ∧
      (∀ j : JSONFloat,
        JSONFloat.UnmarshalJSON ParseFloat j (quoted n b) =
          JSONFloat.UnmarshalJSON ParseFloat j b ∧
        JSONFloat.UnmarshalJSON ParseFloat j (String.mk (trimQuotes b.toList)) =
          JSONFloat.UnmarshalJSON ParseFloat j b) ∧
      (∀ j : JSONTime, JSONTime.UnmarshalJSON j (quoted n b) = JSONTime.UnmarshalJSON j b ∧
        JSONTime.UnmarshalJSON j (String.mk (trimQuotes b.toList)) =
          JSONTime.UnmarshalJSON j b)) ∧
    (∀ j : JSONBool, JSONBool.UnmarshalJSON j "true" = JSONBool.UnmarshalJSON j "\"true\"" ∧
      JSONBool.UnmarshalJSON j "true" = (⟨true⟩, none)) ∧
    (∀ j : JSONTime,
      JSONTime.UnmarshalJSON j "1700000000" = JSONTime.UnmarshalJSON j "\"1700000000\"" ∧
      JSONTime.UnmarshalJSON j "1700000000" = (⟨Time.ofUnix 1700000000⟩, none)) := by
  refine ⟨fun b b' h => decoders_same_of_trimQuotes ParseFloat b b' h, fun b n => ?_, ?_, ?_⟩
  · have h1 := decoders_same_of_trimQuotes ParseFloat (quoted n b) b (trimQuotes_quoted_n n b)
    have h2 := decoders_same_of_trimQuotes ParseFloat (String.mk (trimQuotes b.toList)) b
      (trimQuotes_idem b.toList)
    exact ⟨fun j => ⟨h1.1 j, h2.1 j⟩, fun j => ⟨h1.2.1 j, h2.2.1 j⟩,
      fun j => ⟨h1.2.2 j, h2.2.2 j⟩⟩
  · intro j
    exact ⟨(decoders_same_of_trimQuotes ParseFloat "true" "\"true\"" (by decide)).1 j, by
      simp only [JSONBool.UnmarshalJSON]
      rfl⟩
  · intro j
    exact ⟨(decoders_same_of_trimQuotes ParseFloat "1700000000" "\"1700000000\""
      (by decide)).2.2 j, by
      simp only [JSONTime.UnmarshalJSON]
      rfl⟩

/-- Witness for C27: the raw inputs `12.5"` and `"12.5` have the same quote-stripped
text, so the float decoder treats them alike; with the stand-in for `ParseFloat` both
yield 12.5. -/
theorem decoders_depend_on_stripped_text_witness :
    trimQuotes "12.5\"".toList = trimQuotes "\"12.5".toList ∧
    JSONFloat.UnmarshalJSON sampleParseFloat ⟨F64.nan⟩ "12.5\"" =
      JSONFloat.UnmarshalJSON sampleParseFloat ⟨F64.nan⟩ "\"12.5" ∧
    JSONFloat.UnmarshalJSON sampleParseFloat ⟨F64.nan⟩ "\"12.5" =
      (⟨F64.finite false 25 (-1)⟩, none) :=
  ⟨by decide, ((decoders_depend_on_stripped_text sampleParseFloat).1 "12.5\"" "\"12.5"
    (by decide)).2.1 ⟨F64.nan⟩, by decide⟩

/-! ## The twelve boolean literals -/

/-- C28: `JSONBool.UnmarshalJSON` succeeds if and only if the quote-stripped text is one
of the twelve literals: on `1`, `t`, `T`, `TRUE`, `true`, `True` it returns nil and the
receiver becomes `true`; on `0`, `f`, `F`, `FALSE`, `false`, `False` it returns nil and
the receiver becomes `false`; on every other text it returns the syntax error of
`ParseBool` for that text and leaves the receiver.  The mixed-case `tRUE` is
rejected. -/
theorem bool_decoder_accepts_twelve_literals :
    (∀ (j : JSONBool) (b : String),
      (String.mk (trimQuotes b.toList) ∈ ["1", "t", "T", "TRUE", "true", "True"] →
        JSONBool.UnmarshalJSON j b = (⟨true⟩, none)) ∧
      (String.mk (trimQuotes b.toList) ∈ ["0", "f", "F", "FALSE", "false", "False"] →
        JSONBool.UnmarshalJSON j b = (⟨false⟩, none)) ∧
      (String.mk (trimQuotes b.toList) ∉
          ["1", "t", "T", "TRUE", "true", "True", "0", "f", "F", "FALSE", "false", "False"] →
        JSONBool.UnmarshalJSON j b =
          (j, some (Error.numSyntax "ParseBool" (String.mk (trimQuotes b.toList))))) ∧
      ((JSONBool.UnmarshalJSON j b).2 = none ↔
        String.mk (trimQuotes b.toList) ∈
          ["1", "t", "T", "TRUE", "true", "True", "0", "f", "F", "FALSE", "false", "False"])) ∧
    (∀ j : JSONBool,
      JSONBool.UnmarshalJSON j "\"tRUE\"" = (j, some (Error.numSyntax "ParseBool" "tRUE")) ∧
      JSONBool.UnmarshalJSON j "tRUE" = (j, some (Error.numSyntax "ParseBool" "tRUE"))) := by
  have ht : ∀ (j : JSONBool) (b : String),
      String.mk (trimQuotes b.toList) ∈ ["1", "t", "T", "TRUE", "true", "True"] →
        JSONBool.UnmarshalJSON j b = (⟨true⟩, none) := by
    intro j b h
    simp only [List.mem_cons, List.mem_singleton, List.not_mem_nil, or_false] at h
    simp only [JSONBool.UnmarshalJSON, parseBool, h, if_true]
  have hf : ∀ (j : JSONBool) (b : String),
      String.mk (trimQuotes b.toList) ∈ ["0", "f", "F", "FALSE", "false", "False"] →
        JSONBool.UnmarshalJSON j b = (⟨false⟩, none) := by
    intro j b h
    simp only [List.mem_cons, List.mem_singleton, List.not_mem_nil, or_false] at h
    have hn : ¬ (String.mk (trimQuotes b.toList) = "1" ∨ String.mk (trimQuotes b.toList) = "t" ∨
        String.mk (trimQuotes b.toList) = "T" ∨ String.mk (trimQuotes b.toList) = "TRUE" ∨
        String.mk (trimQuotes b.toList) = "true" ∨
        String.mk (trimQuotes b.toList) = "True") := by
      rcases h with h | h | h | h | h | h <;> rw [h] <;> decide
    simp only [JSONBool.UnmarshalJSON, parseBool, hn, h, if_true, if_false]
  have hr : ∀ (j : JSONBool) (b : String),
      String.mk (trimQuotes b.toList) ∉
          ["1", "t", "T", "TRUE", "true", "True", "0", "f", "F", "FALSE", "false", "False"] →
        JSONBool.UnmarshalJSON j b =
          (j, some (Error.numSyntax "ParseBool" (String.mk (trimQuotes b.toList)))) := by
    intro j b h
    simp only [List.mem_cons, List.mem_singleton, List.not_mem_nil, or_false, not_or] at h
    obtain ⟨a1, a2, a3, a4, a5, a6, a7, a8, a9, a10, a11, a12⟩ := h
    simp only [JSONBool.UnmarshalJSON, parseBool, a1, a2, a3, a4, a5, a6, a7, a8, a9, a10, a11,
      a12, or_self, if_false, NumErr.toError]
  refine ⟨fun j b => ⟨ht j b, hf j b, hr j b, ?_⟩, fun j => ⟨hr j _ (by decide), hr j _ (by decide)⟩⟩
  constructor
  · intro hn
    by_contra hnot
    rw [hr j b hnot] at hn
    simp at hn
  · intro hm
    have hm2 : String.mk (trimQuotes b.toList) ∈ ["1", "t", "T", "TRUE", "true", "True"] ∨
        String.mk (trimQuotes b.toList) ∈ ["0", "f", "F", "FALSE", "false", "False"] := by
      simp only [List.mem_cons, List.mem_singleton, List.not_mem_nil, or_false] at hm ⊢
      tauto
    rcases hm2 with h | h
    · rw [ht j b h]
    · rw [hf j b h]

/-- Witness for C28: the quote-stripped text of the raw input `"False"` is the literal
`False`, and decoding it sets the receiver to `false`; that of `"yes"` is no literal,
and decoding it returns the syntax error and leaves the receiver `true`. -/
theorem bool_decoder_accepts_twelve_literals_witness :
    (String.mk (trimQuotes "\"False\"".toList) ∈ ["0", "f", "F", "FALSE", "false", "False"] ∧
      JSONBool.UnmarshalJSON ⟨true⟩ "\"False\"" = (⟨false⟩, none)) ∧
    (String.mk (trimQuotes "\"yes\"".toList) ∉
        ["1", "t", "T", "TRUE", "true", "True", "0", "f", "F", "FALSE", "false", "False"] ∧
      JSONBool.UnmarshalJSON ⟨true⟩ "\"yes\"" =
        (⟨true⟩, some (Error.numSyntax "ParseBool" "yes"))) :=
  ⟨⟨by decide, (bool_decoder_accepts_twelve_literals.1 ⟨true⟩ "\"False\"").2.1 (by decide)⟩,
    ⟨by decide, (bool_decoder_accepts_twelve_literals.1 ⟨true⟩ "\"yes\"").2.2.1 (by decide)⟩⟩

/-! ## The constructor `core.New` -/

/-- C22 (the code departs from the claim): `New(cfg, client)` with a non-nil `client`
returns a `core` whose client is the nil pointer, whatever `client` is, so every
`GET` or `POST` call for which the request can be made panics instead of dispatching,
and no request reaches the given client; with a nil `client` the `core` holds the
default client, and such a call hands one request to it and returns its answer. -/
theorem new_discards_the_given_client (DefaultClient : Client) (cfg : Config) :
    (∀ client : Client, (New DefaultClient cfg (some client)).client = none ∧
      (New DefaultClient cfg (some client)).cfg = cfg ∧
      ∀ (net : NetLib) (method nameSpace apiName : String) (data : Values),
        method = "GET" ∨ method = "POST" →
        net.NewRequestError method (host cfg.IsProduction ++ "/" ++ nameSpace ++ "/" ++
          apiName ++ ".json" ++ "?" ++
          Values.Encode ((data.Add "auth-userid" cfg.ResellerID).Add "api-key" cfg.APIKey)) =
            none →
        ((New DefaultClient cfg (some client)).CallAPI net method nameSpace apiName data).result =
          Returned.panicked ∧
        ((New DefaultClient cfg (some client)).CallAPI net method nameSpace apiName data).sent =
          []) ∧
    ((New DefaultClient cfg none).client = some DefaultClient ∧
      (New DefaultClient cfg none).cfg = cfg ∧
      ∀ (net : NetLib) (method nameSpace apiName : String) (data : Values),
        method = "GET" ∨ method = "POST" →
        net.NewRequestError method (host cfg.IsProduction ++ "/" ++ nameSpace ++ "/" ++
          apiName ++ ".json" ++ "?" ++
          Values.Encode ((data.Add "auth-userid" cfg.ResellerID).Add "api-key" cfg.APIKey)) =
            none →
        ((New DefaultClient cfg none).CallAPI net method nameSpace apiName data).result =
          Returned.returned
            ((DefaultClient.Do ⟨method, host cfg.IsProduction ++ "/" ++ nameSpace ++ "/" ++
              apiName ++ ".json" ++ "?" ++ Values.Encode
                ((data.Add "auth-userid" cfg.ResellerID).Add "api-key" cfg.APIKey)⟩).1,
             (DefaultClient.Do ⟨method, host cfg.IsProduction ++ "/" ++ nameSpace ++ "/" ++
              apiName ++ ".json" ++ "?" ++ Values.Encode
                ((data.Add "auth-userid" cfg.ResellerID).Add "api-key" cfg.APIKey)⟩).2.map
                  Error.urlError)) := by
  refine ⟨fun client => ⟨rfl, rfl, ?_⟩, rfl, rfl, ?_⟩
  · intro net method nameSpace apiName data hm hreq
    have hno : ¬ (method ≠ "GET" ∧ method ≠ "POST") := by
      rcases hm with rfl | rfl
      · simp
      · simp
    have hc : (New DefaultClient cfg (some client)).client = none := rfl
    have hcfg : (New DefaultClient cfg (some client)).cfg = cfg := rfl
    simp only [core.CallAPI, hno, if_false, hcfg, hreq, hc, and_self]
  · intro net method nameSpace apiName data hm hreq
    have hno : ¬ (method ≠ "GET" ∧ method ≠ "POST") := by
      rcases hm with rfl | rfl
      · simp
      · simp
    have hc : (New DefaultClient cfg none).client = some DefaultClient := rfl
    have hcfg : (New DefaultClient cfg none).cfg = cfg := rfl
    simp only [core.CallAPI, hno, if_false, hcfg, hreq, hc]

/-- Witness for C22: with the answering client of the samples passed as `client` (and
another one as the default client), a `GET` call panics and sends nothing. -/
theorem new_discards_the_given_client_witness :
    ("GET" = "GET" ∨ "GET" = "POST") ∧
    ((New failingClient ⟨"1001", "secret", false⟩ (some okClient)).CallAPI plainNet "GET"
      "domains" "suggest-names" [("keyword", ["domain"])]).result = Returned.panicked ∧
    ((New failingClient ⟨"1001", "secret", false⟩ (some okClient)).CallAPI plainNet "GET"
      "domains" "suggest-names" [("keyword", ["domain"])]).sent = [] :=
  ⟨Or.inl rfl, ((new_discards_the_given_client failingClient ⟨"1001", "secret", false⟩).1
    okClient).2.2 plainNet "GET" "domains" "suggest-names" [("keyword", ["domain"])]
      (Or.inl rfl) rfl⟩

/-! ## The caller's map after a rejected call -/

/-- Counterexample for C23: the call with the method `PUT` on the empty map is rejected
with `ErrRcAPIUnsupportedMethod`, and the caller's map is not empty afterwards: it
holds the reseller id under `auth-userid` and the key under `api-key`. -/
theorem rejected_call_has_added_credentials :
    (sampleCore.CallAPI plainNet "PUT" "domains" "search" Values.empty).result =
      Returned.returned (none, some ErrRcAPIUnsupportedMethod) ∧
    (sampleCore.CallAPI plainNet "PUT" "domains" "search" Values.empty).data =
      [("auth-userid", ["1001"]), ("api-key", ["secret"])] ∧
    (sampleCore.CallAPI plainNet "PUT" "domains" "search" Values.empty).data ≠ Values.empty := by
  decide

/-- A call with `GET` or `POST` does not return `ErrRcAPIUnsupportedMethod`. -/
theorem callAPI_accepted_not_sentinel (c : core) (net : NetLib)
    (method nameSpace apiName : String) (data : Values)
    (hm : method = "GET" ∨ method = "POST") (resp : Option Response) :
    (c.CallAPI net method nameSpace apiName data).result ≠
      Returned.returned (resp, some ErrRcAPIUnsupportedMethod) := by
  have hno : ¬ (method ≠ "GET" ∧ method ≠ "POST") := by
    rcases hm with rfl | rfl
    · simp
    · simp
  simp only [core.CallAPI, hno, if_false]
  cases hreq : net.NewRequestError method
      (host c.cfg.IsProduction ++ "/" ++ nameSpace ++ "/" ++ apiName ++ ".json" ++ "?" ++
        Values.Encode ((data.Add "auth-userid" c.cfg.ResellerID).Add "api-key" c.cfg.APIKey)) with
  | some cause =>
    simp [ErrRcAPIUnsupportedMethod]
  | none =>
    cases hcl : c.client with
    | none => simp
    | some cl =>
      simp only [ne_eq, Returned.returned.injEq, Prod.mk.injEq, not_and]
      intro _
      cases (cl.Do _).2 <;> simp [ErrRcAPIUnsupportedMethod]

/-- C23 (amended): when `CallAPI` rejects the method with `ErrRcAPIUnsupportedMethod`,
no request has been handed to the client, and the caller's map has received the two
credentials: it is the map before the call with `ResellerID` added under `auth-userid`
and then `APIKey` under `api-key`; each of the two keys has gained that one value after
those it had, the values under every other key are as before, and the map differs from
the one passed. -/
theorem rejected_call_adds_credentials (c : core) (net : NetLib)
    (method nameSpace apiName : String) (data : Values)
    (h : (c.CallAPI net method nameSpace apiName data).result =
      Returned.returned (none, some ErrRcAPIUnsupportedMethod)) :
    (method ≠ "GET" ∧ method ≠ "POST") ∧
    (c.CallAPI net method nameSpace apiName data).sent = [] ∧
    (c.CallAPI net method nameSpace apiName data).data =
      (data.Add "auth-userid" c.cfg.ResellerID).Add "api-key" c.cfg.APIKey ∧
    (c.CallAPI net method nameSpace apiName data).data.values "auth-userid" =
      data.values "auth-userid" ++ [c.cfg.ResellerID] ∧
    (c.CallAPI net method nameSpace apiName data).data.values "api-key" =
      data.values "api-key" ++ [c.cfg.APIKey] ∧
    (∀ k : String, k ≠ "auth-userid" → k ≠ "api-key" →
      (c.CallAPI net method nameSpace apiName data).data.values k = data.values k) ∧
    (c.CallAPI net method nameSpace apiName data).data ≠ data := by
  have hm : method ≠ "GET" ∧ method ≠ "POST" := by
    by_contra hno
    have hm' : method = "GET" ∨ method = "POST" := by
      by_cases h1 : method = "GET"
      · exact Or.inl h1
      · by_cases h2 : method = "POST"
        · exact Or.inr h2
        · exact absurd ⟨h1, h2⟩ hno
    exact callAPI_accepted_not_sentinel c net method nameSpace apiName data hm' none h
  have hd : (c.CallAPI net method nameSpace apiName data).data =
      (data.Add "auth-userid" c.cfg.ResellerID).Add "api-key" c.cfg.APIKey := by
    simp only [core.CallAPI, hm, ne_eq, not_false_eq_true, and_self, if_true]
  have hs : (c.CallAPI net method nameSpace apiName data).sent = [] := by
    simp only [core.CallAPI, hm, ne_eq, not_false_eq_true, and_self, if_true]
  have k1 : ¬ ("api-key" = "auth-userid") := by decide
  have k2 : ¬ ("auth-userid" = "api-key") := by decide
  have hu : (c.CallAPI net method nameSpace apiName data).data.values "auth-userid" =
      data.values "auth-userid" ++ [c.cfg.ResellerID] := by
    rw [hd, Values.values_Add, if_neg k1, Values.values_Add, if_pos rfl]
  refine ⟨hm, hs, hd, hu, ?_, ?_, ?_⟩
  · rw [hd, Values.values_Add, if_pos rfl, Values.values_Add, if_neg k2]
  · intro k h1 h2
    rw [hd, Values.values_Add, if_neg (fun e => h2 e.symm), Values.values_Add,
      if_neg (fun e => h1 e.symm)]
  · intro he
    rw [he] at hu
    have hl := congrArg List.length hu
    simp at hl

/-- Witness for C23 (amended): the call with `PUT` on a map that holds a keyword is
rejected, and afterwards the map holds the keyword and the two credentials. -/
theorem rejected_call_adds_credentials_witness :
    (sampleCore.CallAPI plainNet "PUT" "domains" "search" [("keyword", ["domain"])]).result =
      Returned.returned (none, some ErrRcAPIUnsupportedMethod) ∧
    (sampleCore.CallAPI plainNet "PUT" "domains" "search" [("keyword", ["domain"])]).data =
      [("keyword", ["domain"]), ("auth-userid", ["1001"]), ("api-key", ["secret"])] ∧
    (sampleCore.CallAPI plainNet "PUT" "domains" "search" [("keyword", ["domain"])]).data ≠
      [("keyword", ["domain"])] :=
  ⟨by decide,
    (rejected_call_adds_credentials sampleCore plainNet "PUT" "domains" "search"
      [("keyword", ["domain"])] (by decide)).2.2.1,
    (rejected_call_adds_credentials sampleCore plainNet "PUT" "domains" "search"
      [("keyword", ["domain"])] (by decide)).2.2.2.2.2.2⟩

/-! ## The keys that fill a `CustomerDetail` -/

example : CustomerDetail.structFields.map (fun f => f.jsonName) =
    [some "customerid", some "username", some "resellerid", some "parentid", some "name",
      some "company", some "useremail", some "telnocc", some "telno", some "mobilenocc",
      some "mobileno", some "address1", some "address2", some "address3", some "City",
      some "State", some "StateId", some "CountryCode", some "Zipcode", some "Pin",
      some "TimeCreation", some "Status", some "salescontactid", some "langpref",
      some "totalreceipts", some "twofactorauth_enabled", some "twofactorsmsauth_enabled",
      some "twofactorgoogleauth_enabled", some "isDominicanTaxConfiguredByParent"] := by
  decide
example : foldName "isDominicanTaxConfiguredByParent" = "ISDOMINICANTAXCONFIGUREDBYPARENT" := by
  decide
example : (findField CustomerDetail.structFields "creationdt") = none := by decide
example : (findField CustomerDetail.structFields "city").map (fun f => f.Name) = some "City" := by
  decide
example : CustomerDetail.Unmarshal sampleJson zeroDetail
    [("customerid", "\"42\""), ("creationdt", "\"1700000000\""), ("zip", "\"62701\""),
     ("twofactorauth_enabled", "\"true\""), ("totalreceipts", "\"12.5\"")] =
    ({ zeroDetail with Id := "42", Is2FA := ⟨true⟩, TotalReceipts := ⟨F64.finite false 25 (-1)⟩ },
      none) := by
  decide

/-- Members whose key is one of `creationdt`, `country`, `zip`, `customerstatus` are
skipped by the decoding. -/
theorem decodeMembers_skips_four_keys (lib : JsonLib) (members : List (String × String)) :
    ∀ st : DecodeState, decodeMembers lib st members =
      decodeMembers lib st (members.filter
        (fun m => !(["creationdt", "country", "zip", "customerstatus"].contains m.1))) := by
  induction members with
  | nil => intro st; rfl
  | cons m rest ih =>
    intro st
    obtain ⟨key, raw⟩ := m
    by_cases hk : key ∈ ["creationdt", "country", "zip", "customerstatus"]
    · have hf : findField CustomerDetail.structFields key = none := by
        simp only [List.mem_cons, List.mem_singleton, List.not_mem_nil, or_false] at hk
        rcases hk with rfl | rfl | rfl | rfl <;> decide
      have hc : (["creationdt", "country", "zip", "customerstatus"].contains key) = true := by
        simpa using hk
      rw [List.filter_cons_of_neg (by rw [hc]; decide)]
      rw [← ih st]
      simp only [decodeMembers, hf]
    · have hc : (["creationdt", "country", "zip", "customerstatus"].contains key) = false := by
        simpa using hk
      rw [List.filter_cons_of_pos (by rw [hc]; decide)]
      simp only [decodeMembers]
      cases findField CustomerDetail.structFields key with
      | none => exact ih st
      | some f =>
        simp only []
        rcases hs : storeMember lib st f key raw with ⟨st2, _ | err⟩
        · exact ih st2
        · rfl

/-- C29 (the code departs from the claim): the tags of `City`, `State`, `StateId`,
`CountryCode`, `Zipcode`, `Pin`, `TimeCreation` and `Status` are spelled `josn`, so the
decoder knows these fields by their Go names.  The wire key written in the tag of a
field leads to that field for every field but `CountryCode`, `Zipcode`, `TimeCreation`
and `Status` (for `City`, `State`, `StateId` and `Pin` only because the key is the Go
name up to the case of letters).  The keys `creationdt`, `country`, `zip` and
`customerstatus` match no field: members with these keys can be removed from any
object without changing the result, and an object of these four members leaves the
struct as it was.  The four fields are filled from keys equal to their Go names up to
case. -/
theorem customer_detail_misses_four_keys :
    (∀ f ∈ CustomerDetail.structFields, ∀ p ∈ f.Tag,
      (findField CustomerDetail.structFields p.2 = some f ↔
        f.Name ∉ ["CountryCode", "Zipcode", "TimeCreation", "Status"])) ∧
    (CustomerDetail.structFields.filter
        (fun f => ["CountryCode", "Zipcode", "TimeCreation", "Status"].contains f.Name)).map
      (fun f => (f.Name, f.Tag, f.jsonName)) =
      [("CountryCode", [("josn", "country")], some "CountryCode"),
        ("Zipcode", [("josn", "zip")], some "Zipcode"),
        ("TimeCreation", [("josn", "creationdt")], some "TimeCreation"),
        ("Status", [("josn", "customerstatus")], some "Status")] ∧
    (∀ (lib : JsonLib) (d : CustomerDetail) (members : List (String × String)),
      CustomerDetail.Unmarshal lib d members =
        CustomerDetail.Unmarshal lib d (members.filter
          (fun m => !(["creationdt", "country", "zip", "customerstatus"].contains m.1)))) ∧
    (∀ (lib : JsonLib) (d : CustomerDetail) (r1 r2 r3 r4 : String),
      CustomerDetail.Unmarshal lib d
        [("creationdt", r1), ("country", r2), ("zip", r3), ("customerstatus", r4)] =
          (d, none)) ∧
    CustomerDetail.Unmarshal sampleJson zeroDetail
      [("customerid", "\"42\""), ("creationdt", "\"1700000000\""), ("country", "\"US\""),
        ("zip", "\"62701\""), ("customerstatus", "\"Active\"")] =
      ({ zeroDetail with Id := "42" }, none) ∧
    CustomerDetail.Unmarshal sampleJson zeroDetail
      [("customerid", "\"42\""), ("timecreation", "\"1700000000\""),
        ("countrycode", "\"US\""), ("zipcode", "\"62701\""), ("status", "\"Active\"")] =
      ({ zeroDetail with
          Id := "42"
          TimeCreation := ⟨Time.ofUnix 1700000000⟩
          CountryCode := "US"
          Zipcode := "62701"
          Status := "Active" }, none) := by
  refine ⟨by decide, by decide, ?_, ?_, by decide, by decide⟩
  · intro lib d members
    unfold CustomerDetail.Unmarshal
    rw [decodeMembers_skips_four_keys lib members ⟨d, none⟩]
  · intro lib d r1 r2 r3 r4
    unfold CustomerDetail.Unmarshal
    rw [decodeMembers_skips_four_keys lib _ ⟨d, none⟩]
    rfl

/-! ## Mutual exclusion and the final `Wait` -/

example : ((Conf.init (Criteria.work twoResellers)).run
    [[false, false], [false, false], [false, false],
     [false, true, false], [false, true, false], [false, true, false]]).map Conf.returned =
    some (some [("reseller-id", ["r1", "r2"])]) := by decide
example : ((Conf.init (Criteria.work twoResellers)).run
    [[false, true, false], [false, false]]) = none := by decide
example : ((Conf.init (Criteria.work twoResellers)).run
    [[false, true, false], [false, true, false], [false, true, false],
     [false, false], [false, false]]).map (fun c => c.urlValues) =
    some [("reseller-id", ["r2", "r1"])] := by decide

theorem PWork.ofWork_prog (w : Work) : (PWork.ofWork w).prog = w.prog := by
  induction w with
  | skip => rfl
  | add k v => rfl
  | seq a b iha ihb => simp only [PWork.ofWork, PWork.prog, Work.prog, iha, ihb]
  | par a b iha ihb => simp only [PWork.ofWork, PWork.prog, Work.prog, iha, ihb]

theorem PWork.ofWork_inside (w : Work) : (PWork.ofWork w).inside = 0 := by
  induction w with
  | skip => rfl
  | add k v => rfl
  | seq a b iha ihb => simp only [PWork.ofWork, PWork.inside, iha, ihb]
  | par a b iha ihb => simp only [PWork.ofWork, PWork.inside, iha, ihb]

theorem PWork.ofWork_traces (w : Work) : (PWork.ofWork w).traces = w.traces := by
  induction w with
  | skip => rfl
  | add k v => rfl
  | seq a b iha ihb => simp only [PWork.ofWork, PWork.traces, Work.traces, iha, ihb]
  | par a b iha ihb => simp only [PWork.ofWork, PWork.traces, Work.traces, iha, ihb]

/-- Code of which nothing is left makes no step. -/
theorem Prog.next_of_finished (p : Prog) (h : p.finished = true) :
    ∀ path, p.next path = none := by
  induction p with
  | skip => intro path; rfl
  | act a => simp [Prog.finished] at h
  | seq a b iha ihb =>
    intro path
    simp only [Prog.finished, Bool.and_eq_true] at h
    simp only [Prog.next, h.1, if_true, ihb h.2 path, Option.map_none']
  | par a b iha ihb =>
    intro path
    simp only [Prog.finished, Bool.and_eq_true] at h
    cases path with
    | nil => rfl
    | cons d rest =>
      cases d
      · simp only [Prog.next, iha h.1 rest, Option.map_none']
      · simp only [Prog.next, ihb h.2 rest, Option.map_none']

/-- When nothing is left to run, no `Add` is left to perform. -/
theorem PWork.traces_of_finished (pw : PWork) (h : pw.prog.finished = true) :
    pw.traces = [[]] := by
  induction pw with
  | skip => rfl
  | crit ph k v =>
    match ph with
    | 0 => simp [PWork.prog, Prog.finished] at h
    | 1 => simp [PWork.prog, Prog.finished] at h
    | 2 => simp [PWork.prog, Prog.finished] at h
    | n + 3 => rfl
  | seq a b iha ihb =>
    simp only [PWork.prog, Prog.finished, Bool.and_eq_true] at h
    simp [PWork.traces, iha h.1, ihb h.2]
  | par a b iha ihb =>
    simp only [PWork.prog, Prog.finished, Bool.and_eq_true] at h
    simp [PWork.traces, iha h.1, ihb h.2, interleavings]

theorem interleavings_nil_right {α : Type} (xs : List α) : interleavings xs [] = [xs] := by
  cases xs with
  | nil => rfl
  | cons x xs => rfl

/-- An interleaving stays one when the first sequence gets a new head that comes
first. -/
theorem cons_mem_interleavings_left {α : Type} (x : α) (xs ys t : List α)
    (h : t ∈ interleavings xs ys) : x :: t ∈ interleavings (x :: xs) ys := by
  cases ys with
  | nil =>
    rw [interleavings_nil_right] at h ⊢
    simp only [List.mem_singleton] at h ⊢
    rw [h]
  | cons y ys =>
    simp only [interleavings, interleaveAux, List.mem_append, List.mem_map]
    exact Or.inl ⟨t, h, rfl⟩

/-- An interleaving stays one when the second sequence gets a new head that comes
first. -/
theorem cons_mem_interleavings_right {α : Type} (y : α) (xs ys t : List α)
    (h : t ∈ interleavings xs ys) : y :: t ∈ interleavings xs (y :: ys) := by
  cases xs with
  | nil =>
    simp only [interleavings, List.mem_singleton] at h ⊢
    rw [h]
  | cons x xs =>
    simp only [interleavings, interleaveAux, List.mem_append, List.mem_map]
    exact Or.inr ⟨t, h, rfl⟩

/-- The goroutine of an `Add` is the only one in its code. -/
theorem PWork.crit_next_path (ph : Nat) (k v : String) (path : List Bool) (r : Act × Prog)
    (h : (PWork.crit ph k v).prog.next path = some r) : path = [] := by
  cases path with
  | nil => rfl
  | cons d rest =>
    exfalso
    match ph with
    | 0 => simp [PWork.prog, Prog.next, Prog.finished] at h
    | 1 => simp [PWork.prog, Prog.next, Prog.finished] at h
    | 2 => simp [PWork.prog, Prog.next, Prog.finished] at h
    | n + 3 => simp [PWork.prog, Prog.next, Prog.finished] at h

/-- A step of the code is a step of the phases. -/
theorem PWork.next_advances (pw : PWork) :
    ∀ (path : List Bool) (a : Act) (p : Prog), pw.prog.next path = some (a, p) →
      ∃ pw2 : PWork, p = pw2.prog ∧ PWork.Advances a pw pw2 := by
  induction pw with
  | skip =>
    intro path a p h
    simp [PWork.prog, Prog.next] at h
  | crit ph k v =>
    intro path a p h
    have hp := PWork.crit_next_path ph k v path (a, p) h
    subst hp
    match ph with
    | 0 =>
      simp only [PWork.prog, Prog.next, Prog.finished, Bool.false_eq_true, if_false,
        Option.map_some', Option.some.injEq, Prod.mk.injEq] at h
      obtain ⟨rfl, rfl⟩ := h
      exact ⟨PWork.crit 1 k v, rfl, rfl, rfl⟩
    | 1 =>
      simp only [PWork.prog, Prog.next, Prog.finished, Bool.false_eq_true, if_false, if_true,
        Option.map_some', Option.some.injEq, Prod.mk.injEq] at h
      obtain ⟨rfl, rfl⟩ := h
      exact ⟨PWork.crit 2 k v, rfl, rfl, le_refl _, by simp [PWork.traces]⟩
    | 2 =>
      simp only [PWork.prog, Prog.next, Prog.finished, Bool.false_eq_true, if_false, if_true,
        Option.map_some', Option.some.injEq, Prod.mk.injEq] at h
      obtain ⟨rfl, rfl⟩ := h
      exact ⟨PWork.crit 3 k v, rfl, rfl, rfl⟩
    | n + 3 =>
      simp [PWork.prog, Prog.next, Prog.finished] at h
  | seq x y ihx ihy =>
    intro path a p h
    simp only [PWork.prog, Prog.next] at h
    by_cases hf : x.prog.finished = true
    · simp only [hf, if_true, Option.map_eq_some'] at h
      obtain ⟨⟨a2, q⟩, hq, he⟩ := h
      simp only [Prod.mk.injEq] at he
      obtain ⟨rfl, rfl⟩ := he
      obtain ⟨y2, rfl, hadv⟩ := ihy path a2 q hq
      refine ⟨PWork.seq x y2, rfl, ?_⟩
      have hx := PWork.traces_of_finished x hf
      cases a2 with
      | lock =>
        simp only [PWork.Advances, PWork.inside, PWork.traces] at hadv ⊢
        exact ⟨by omega, by rw [hadv.2]⟩
      | unlock =>
        simp only [PWork.Advances, PWork.inside, PWork.traces] at hadv ⊢
        exact ⟨by omega, by rw [hadv.2]⟩
      | add k v =>
        simp only [PWork.Advances, PWork.inside, PWork.traces] at hadv ⊢
        refine ⟨by omega, by omega, ?_⟩
        intro t ht
        simp only [hx, List.flatMap_cons, List.flatMap_nil, List.nil_append, List.append_nil,
          List.map_id'] at ht ⊢
        exact hadv.2.2 t ht
    · rw [if_neg hf] at h
      simp only [Option.map_eq_some'] at h
      obtain ⟨⟨a2, q⟩, hq, he⟩ := h
      simp only [Prod.mk.injEq] at he
      obtain ⟨rfl, rfl⟩ := he
      obtain ⟨x2, rfl, hadv⟩ := ihx path a2 q hq
      refine ⟨PWork.seq x2 y, rfl, ?_⟩
      cases a2 with
      | lock =>
        simp only [PWork.Advances, PWork.inside, PWork.traces] at hadv ⊢
        exact ⟨by omega, by rw [hadv.2]⟩
      | unlock =>
        simp only [PWork.Advances, PWork.inside, PWork.traces] at hadv ⊢
        exact ⟨by omega, by rw [hadv.2]⟩
      | add k v =>
        simp only [PWork.Advances, PWork.inside, PWork.traces] at hadv ⊢
        refine ⟨by omega, by omega, ?_⟩
        intro t ht
        simp only [List.mem_flatMap, List.mem_map] at ht ⊢
        obtain ⟨ta, hta, tb, htb, rfl⟩ := ht
        exact ⟨(k, v) :: ta, hadv.2.2 ta hta, tb, htb, rfl⟩
  | par x y ihx ihy =>
    intro path a p h
    cases path with
    | nil => simp [PWork.prog, Prog.next] at h
    | cons d rest =>
      cases d
      · simp only [PWork.prog, Prog.next, Option.map_eq_some'] at h
        obtain ⟨⟨a2, q⟩, hq, he⟩ := h
        simp only [Prod.mk.injEq] at he
        obtain ⟨rfl, rfl⟩ := he
        obtain ⟨x2, rfl, hadv⟩ := ihx rest a2 q hq
        refine ⟨PWork.par x2 y, rfl, ?_⟩
        cases a2 with
        | lock =>
          simp only [PWork.Advances, PWork.inside, PWork.traces] at hadv ⊢
          exact ⟨by omega, by rw [hadv.2]⟩
        | unlock =>
          simp only [PWork.Advances, PWork.inside, PWork.traces] at hadv ⊢
          exact ⟨by omega, by rw [hadv.2]⟩
        | add k v =>
          simp only [PWork.Advances, PWork.inside, PWork.traces] at hadv ⊢
          refine ⟨by omega, by omega, ?_⟩
          intro t ht
          simp only [List.mem_flatMap] at ht ⊢
          obtain ⟨ta, hta, tb, htb, ht⟩ := ht
          exact ⟨(k, v) :: ta, hadv.2.2 ta hta, tb, htb,
            cons_mem_interleavings_left (k, v) ta tb t ht⟩
      · simp only [PWork.prog, Prog.next, Option.map_eq_some'] at h
        obtain ⟨⟨a2, q⟩, hq, he⟩ := h
        simp only [Prod.mk.injEq] at he
        obtain ⟨rfl, rfl⟩ := he
        obtain ⟨y2, rfl, hadv⟩ := ihy rest a2 q hq
        refine ⟨PWork.par x y2, rfl, ?_⟩
        cases a2 with
        | lock =>
          simp only [PWork.Advances, PWork.inside, PWork.traces] at hadv ⊢
          exact ⟨by omega, by rw [hadv.2]⟩
        | unlock =>
          simp only [PWork.Advances, PWork.inside, PWork.traces] at hadv ⊢
          exact ⟨by omega, by rw [hadv.2]⟩
        | add k v =>
          simp only [PWork.Advances, PWork.inside, PWork.traces] at hadv ⊢
          refine ⟨by omega, by omega, ?_⟩
          intro t ht
          simp only [List.mem_flatMap] at ht ⊢
          obtain ⟨ta, hta, tb, htb, ht⟩ := ht
          exact ⟨ta, hta, (k, v) :: tb, hadv.2.2 tb htb,
            cons_mem_interleavings_right (k, v) ta tb t ht⟩

/-- When nothing is left to run, no `Add` is between its `Lock` and its `Unlock`. -/
theorem PWork.inside_of_finished (pw : PWork) (h : pw.prog.finished = true) :
    pw.inside = 0 := by
  induction pw with
  | skip => rfl
  | crit ph k v =>
    match ph with
    | 0 => simp [PWork.prog, Prog.finished] at h
    | 1 => simp [PWork.prog, Prog.finished] at h
    | 2 => simp [PWork.prog, Prog.finished] at h
    | n + 3 => rfl
  | seq a b iha ihb =>
    simp only [PWork.prog, Prog.finished, Bool.and_eq_true] at h
    simp only [PWork.inside, iha h.1, ihb h.2]
  | par a b iha ihb =>
    simp only [PWork.prog, Prog.finished, Bool.and_eq_true] at h
    simp only [PWork.inside, iha h.1, ihb h.2]

/-- A goroutine whose next step is `Add` or `Unlock` is between its `Lock` and its
`Unlock`. -/
theorem PWork.inside_pos (pw : PWork) (path : List Bool) (a : Act) (p : Prog)
    (h : pw.prog.next path = some (a, p)) (ha : a ≠ Act.lock) : 1 ≤ pw.inside := by
  obtain ⟨pw2, _, hadv⟩ := PWork.next_advances pw path a p h
  cases a with
  | lock => exact absurd rfl ha
  | add k v => exact hadv.2.1
  | unlock =>
    have := hadv.1
    omega

/-- Two goroutines whose next step is `Add` or `Unlock` make two `Add`s that are
between their `Lock` and their `Unlock`. -/
theorem PWork.inside_two (pw : PWork) :
    ∀ (path1 path2 : List Bool) (a1 a2 : Act) (p1 p2 : Prog),
      pw.prog.next path1 = some (a1, p1) → pw.prog.next path2 = some (a2, p2) →
      a1 ≠ Act.lock → a2 ≠ Act.lock → path1 ≠ path2 → 2 ≤ pw.inside := by
  induction pw with
  | skip =>
    intro path1 path2 a1 a2 p1 p2 h1
    simp [PWork.prog, Prog.next] at h1
  | crit ph k v =>
    intro path1 path2 a1 a2 p1 p2 h1 h2 _ _ hne
    have e1 := PWork.crit_next_path ph k v path1 _ h1
    have e2 := PWork.crit_next_path ph k v path2 _ h2
    exact absurd (e1.trans e2.symm) hne
  | seq x y ihx ihy =>
    intro path1 path2 a1 a2 p1 p2 h1 h2 ha1 ha2 hne
    simp only [PWork.prog, Prog.next] at h1 h2
    by_cases hf : x.prog.finished = true
    · simp only [hf, if_true, Option.map_eq_some'] at h1 h2
      obtain ⟨⟨b1, q1⟩, hq1, he1⟩ := h1
      obtain ⟨⟨b2, q2⟩, hq2, he2⟩ := h2
      simp only [Prod.mk.injEq] at he1 he2
      obtain ⟨rfl, _⟩ := he1
      obtain ⟨rfl, _⟩ := he2
      have := ihy path1 path2 b1 b2 q1 q2 hq1 hq2 ha1 ha2 hne
      simp only [PWork.inside]
      omega
    · rw [if_neg hf] at h1 h2
      simp only [Option.map_eq_some'] at h1 h2
      obtain ⟨⟨b1, q1⟩, hq1, he1⟩ := h1
      obtain ⟨⟨b2, q2⟩, hq2, he2⟩ := h2
      simp only [Prod.mk.injEq] at he1 he2
      obtain ⟨rfl, _⟩ := he1
      obtain ⟨rfl, _⟩ := he2
      have := ihx path1 path2 b1 b2 q1 q2 hq1 hq2 ha1 ha2 hne
      simp only [PWork.inside]
      omega
  | par x y ihx ihy =>
    intro path1 path2 a1 a2 p1 p2 h1 h2 ha1 ha2 hne
    cases path1 with
    | nil => simp [PWork.prog, Prog.next] at h1
    | cons d1 rest1 =>
      cases path2 with
      | nil => simp [PWork.prog, Prog.next] at h2
      | cons d2 rest2 =>
        cases d1 <;> cases d2 <;>
          simp only [PWork.prog, Prog.next, Option.map_eq_some'] at h1 h2 <;>
          obtain ⟨⟨b1, q1⟩, hq1, he1⟩ := h1 <;>
          obtain ⟨⟨b2, q2⟩, hq2, he2⟩ := h2 <;>
          simp only [Prod.mk.injEq] at he1 he2 <;>
          obtain ⟨rfl, _⟩ := he1 <;>
          obtain ⟨rfl, _⟩ := he2 <;>
          simp only [PWork.inside]
        · have hne2 : rest1 ≠ rest2 := fun e => hne (by rw [e])
          have := ihx rest1 rest2 b1 b2 q1 q2 hq1 hq2 ha1 ha2 hne2
          omega
        · have i1 := PWork.inside_pos x rest1 b1 q1 hq1 ha1
          have i2 := PWork.inside_pos y rest2 b2 q2 hq2 ha2
          omega
        · have i1 := PWork.inside_pos y rest1 b1 q1 hq1 ha1
          have i2 := PWork.inside_pos x rest2 b2 q2 hq2 ha2
          omega
        · have hne2 : rest1 ≠ rest2 := fun e => hne (by rw [e])
          have := ihy rest1 rest2 b1 b2 q1 q2 hq1 hq2 ha1 ha2 hne2
          omega

/-- Along every schedule the code left is that of some phases, the mutex is locked
exactly when one `Add` is between its `Lock` and `Unlock` and there is never more than
one, and the `Add`s performed so far, followed by any order of those left, are a trace
of the work. -/
theorem Conf.run_invariant (schedule : List (List Bool)) :
    ∀ (c : Conf) (pw : PWork), c.prog = pw.prog →
      pw.inside = (if c.locked = true then 1 else 0) →
      ∀ c2 : Conf, c.run schedule = some c2 →
        ∃ (pw2 : PWork) (log : List Pair), c2.prog = pw2.prog ∧
          pw2.inside = (if c2.locked = true then 1 else 0) ∧
          c2.urlValues = log.foldl (fun m p => m.Add p.1 p.2) c.urlValues ∧
          ∀ t ∈ pw2.traces, log ++ t ∈ pw.traces := by
  induction schedule with
  | nil =>
    intro c pw hp hi c2 hrun
    simp only [Conf.run, Option.some.injEq] at hrun
    subst hrun
    exact ⟨pw, [], hp, hi, rfl, fun t ht => ht⟩
  | cons path rest ih =>
    intro c pw hp hi c2 hrun
    simp only [Conf.run] at hrun
    cases hs : c.step path with
    | none => simp [hs] at hrun
    | some c1 =>
      simp only [hs] at hrun
      unfold Conf.step at hs
      cases hn : c.prog.next path with
      | none => simp [hn] at hs
      | some r =>
        obtain ⟨a, p⟩ := r
        have hn2 : pw.prog.next path = some (a, p) := by rw [← hp]; exact hn
        obtain ⟨pw1, hp1, hadv⟩ := PWork.next_advances pw path a p hn2
        cases a with
        | lock =>
          simp only [hn] at hs
          cases hl : c.locked with
          | true => simp [hl] at hs
          | false =>
            simp only [hl, Bool.false_eq_true, if_false, Option.some.injEq] at hs
            subst hs
            simp only [hl, Bool.false_eq_true, if_false] at hi
            obtain ⟨pw2, log, h1, h2, h3, h4⟩ := ih ⟨true, c.urlValues, p⟩ pw1 hp1
              (by simp only [if_true]; rw [hadv.1, hi]) c2 hrun
            refine ⟨pw2, log, h1, h2, h3, ?_⟩
            intro t ht
            rw [← hadv.2]
            exact h4 t ht
        | unlock =>
          simp only [hn] at hs
          cases hl : c.locked with
          | false => simp [hl] at hs
          | true =>
            simp only [hl, if_true, Option.some.injEq] at hs
            subst hs
            simp only [hl, if_true] at hi
            obtain ⟨pw2, log, h1, h2, h3, h4⟩ := ih ⟨false, c.urlValues, p⟩ pw1 hp1
              (by
                simp only [Bool.false_eq_true, if_false]
                have := hadv.1
                omega) c2 hrun
            refine ⟨pw2, log, h1, h2, h3, ?_⟩
            intro t ht
            rw [← hadv.2]
            exact h4 t ht
        | add k v =>
          simp only [hn, Option.some.injEq] at hs
          subst hs
          obtain ⟨pw2, log, h1, h2, h3, h4⟩ := ih ⟨c.locked, c.urlValues.Add k v, p⟩ pw1 hp1
            (by rw [hadv.1]; exact hi) c2 hrun
          refine ⟨pw2, (k, v) :: log, h1, h2, ?_, ?_⟩
          · rw [h3]
            rfl
          · intro t ht
            exact hadv.2.2 _ (h4 t ht)

/-- What holds at every moment of a run of a piece of work: a goroutine about to `Add`
or to `Unlock` finds the mutex locked, no two goroutines are between `Lock` and
`Unlock`, and once nothing is left to run the mutex is free and the map is that of a
trace of the work. -/
theorem Work.run_safe (w : Work) (schedule : List (List Bool)) (c : Conf)
    (hrun : (Conf.init w).run schedule = some c) :
    (∀ (path : List Bool) (a : Act) (p : Prog), c.prog.next path = some (a, p) →
      a ≠ Act.lock → c.locked = true) ∧
    (∀ (path1 path2 : List Bool) (a1 a2 : Act) (p1 p2 : Prog),
      c.prog.next path1 = some (a1, p1) → c.prog.next path2 = some (a2, p2) →
      a1 ≠ Act.lock → a2 ≠ Act.lock → path1 = path2) ∧
    (∀ m : Values, c.returned = some m →
      (∀ path : List Bool, c.prog.next path = none) ∧ c.locked = false ∧
      ∃ tr ∈ w.traces, m = Values.ofTrace tr) := by
  obtain ⟨pw, log, hp, hi, hv, ht⟩ := Conf.run_invariant schedule (Conf.init w) (PWork.ofWork w)
    (PWork.ofWork_prog w).symm (by rw [PWork.ofWork_inside]; rfl) c hrun
  refine ⟨?_, ?_, ?_⟩
  · intro path a p hn ha
    rw [hp] at hn
    have h1 := PWork.inside_pos pw path a p hn ha
    cases hl : c.locked with
    | true => rfl
    | false =>
      rw [hl] at hi
      simp only [Bool.false_eq_true, if_false] at hi
      omega
  · intro path1 path2 a1 a2 p1 p2 h1 h2 ha1 ha2
    by_contra hne
    rw [hp] at h1 h2
    have h := PWork.inside_two pw path1 path2 a1 a2 p1 p2 h1 h2 ha1 ha2 hne
    cases hl : c.locked <;> rw [hl] at hi <;> simp at hi <;> omega
  · intro m hm
    unfold Conf.returned at hm
    by_cases hf : c.prog.finished = true
    · simp only [hf, if_true, Option.some.injEq] at hm
      refine ⟨Prog.next_of_finished c.prog hf, ?_, log, ?_, ?_⟩
      · cases hl : c.locked with
        | false => rfl
        | true =>
          exfalso
          rw [hl] at hi
          simp only [if_true] at hi
          rw [hp] at hf
          rw [PWork.inside_of_finished pw hf] at hi
          omega
      · rw [hp] at hf
        have h := ht [] (by rw [PWork.traces_of_finished pw hf]; exact List.mem_singleton.mpr rfl)
        rw [List.append_nil, PWork.ofWork_traces] at h
        exact h
      · rw [← hm, hv]
        rfl
    · rw [if_neg hf] at hm
      exact absurd hm (by simp)

theorem Conf.run_append (s1 s2 : List (List Bool)) :
    ∀ c : Conf, c.run (s1 ++ s2) = (c.run s1).bind (fun c2 => c2.run s2) := by
  induction s1 with
  | nil => intro c; rfl
  | cons path rest ih =>
    intro c
    simp only [List.cons_append, Conf.run]
    cases c.step path with
    | none => rfl
    | some c1 => exact ih c1

/-- Code that makes a step is not finished. -/
theorem Prog.not_finished_of_next (p : Prog) (path : List Bool) (r : Act × Prog)
    (h : p.next path = some r) : p.finished = false := by
  cases hf : p.finished with
  | false => rfl
  | true =>
    rw [Prog.next_of_finished p hf path] at h
    exact absurd h (by simp)

/-- Run inside any surrounding code in which its steps are steps, a piece of work on
its in-order schedule comes to its end with the mutex free and its `Add`s performed in
program order. -/
theorem Work.run_inOrder_in (w : Work) :
    ∀ (K : Prog → Prog) (pre : List Bool) (m : Values),
      (∀ (p : Prog) (path : List Bool) (r : Act × Prog), p.next path = some r →
        (K p).next (pre ++ path) = some (r.1, K r.2)) →
      ∃ q : Prog, q.finished = true ∧
        Conf.run ⟨false, m, K w.prog⟩ (w.inOrder.map (fun path => pre ++ path)) =
          some ⟨false, w.adds.foldl (fun m p => m.Add p.1 p.2) m, K q⟩ := by
  induction w with
  | skip =>
    intro K pre m _
    exact ⟨Prog.skip, rfl, rfl⟩
  | add k v =>
    intro K pre m hK
    refine ⟨Prog.seq Prog.skip (Prog.seq Prog.skip Prog.skip), rfl, ?_⟩
    have h1 := hK (Prog.seq (Prog.act Act.lock)
      (Prog.seq (Prog.act (Act.add k v)) (Prog.act Act.unlock))) [] _ rfl
    have h2 := hK (Prog.seq Prog.skip
      (Prog.seq (Prog.act (Act.add k v)) (Prog.act Act.unlock))) [] _ rfl
    have h3 := hK (Prog.seq Prog.skip (Prog.seq Prog.skip (Prog.act Act.unlock))) [] _ rfl
    simp only [Work.inOrder, List.map_cons, List.map_nil, Conf.run, Conf.step, Work.prog, h1,
      h2, h3, Bool.false_eq_true, if_false, if_true, Work.adds, List.foldl_cons, List.foldl_nil]
  | seq a b iha ihb =>
    intro K pre m hK
    obtain ⟨qa, hqa, hra⟩ := iha (fun p => K (Prog.seq p b.prog)) pre m (by
      intro p path r hp
      have hnf := Prog.not_finished_of_next p path r hp
      have hs : (Prog.seq p b.prog).next path = some (r.1, Prog.seq r.2 b.prog) := by
        simp only [Prog.next, hnf, Bool.false_eq_true, if_false, hp, Option.map_some']
      exact hK _ path _ hs)
    obtain ⟨qb, hqb, hrb⟩ := ihb (fun p => K (Prog.seq qa p)) pre
      (a.adds.foldl (fun m p => m.Add p.1 p.2) m) (by
      intro p path r hp
      have hs : (Prog.seq qa p).next path = some (r.1, Prog.seq qa r.2) := by
        simp only [Prog.next, hqa, if_true, hp, Option.map_some']
      exact hK _ path _ hs)
    refine ⟨Prog.seq qa qb, by simp only [Prog.finished, hqa, hqb, Bool.and_self], ?_⟩
    simp only [Work.inOrder, List.map_append, Conf.run_append, Work.prog, Work.adds,
      List.foldl_append]
    rw [hra]
    exact hrb
  | par a b iha ihb =>
    intro K pre m hK
    obtain ⟨qa, hqa, hra⟩ := iha (fun p => K (Prog.par p b.prog)) (pre ++ [false]) m (by
      intro p path r hp
      have hs : (Prog.par p b.prog).next (false :: path) = some (r.1, Prog.par r.2 b.prog) := by
        simp only [Prog.next, hp, Option.map_some']
      have := hK _ (false :: path) _ hs
      simpa using this)
    obtain ⟨qb, hqb, hrb⟩ := ihb (fun p => K (Prog.par qa p)) (pre ++ [true])
      (a.adds.foldl (fun m p => m.Add p.1 p.2) m) (by
      intro p path r hp
      have hs : (Prog.par qa p).next (true :: path) = some (r.1, Prog.par qa r.2) := by
        simp only [Prog.next, hp, Option.map_some']
      have := hK _ (true :: path) _ hs
      simpa using this)
    refine ⟨Prog.par qa qb, by simp only [Prog.finished, hqa, hqb, Bool.and_self], ?_⟩
    simp only [Work.inOrder, List.map_append, List.map_map, Conf.run_append, Work.prog,
      Work.adds, List.foldl_append]
    have e1 : ((fun path => pre ++ path) ∘ fun path => false :: path) =
        (fun path => pre ++ [false] ++ path) := by
      funext path
      simp
    have e2 : ((fun path => pre ++ path) ∘ fun path => true :: path) =
        (fun path => pre ++ [true] ++ path) := by
      funext path
      simp
    rw [e1, e2, hra]
    exact hrb

/-- On its in-order schedule a call comes to its return, with the `Add`s performed in
program order. -/
theorem Work.run_inOrder (w : Work) :
    ∃ c : Conf, (Conf.init w).run w.inOrder = some c ∧
      c.returned = some (Values.ofTrace w.adds) := by
  obtain ⟨q, hq, hr⟩ := Work.run_inOrder_in w (fun p => p) [] Values.empty (by
    intro p path r hp
    simpa using hp)
  refine ⟨⟨false, w.adds.foldl (fun m p => m.Add p.1 p.2) Values.empty, q⟩, ?_, ?_⟩
  · have e : w.inOrder.map (fun path => [] ++ path) = w.inOrder := by simp
    rw [e] at hr
    exact hr
  · simp only [Conf.returned, hq, if_true]
    rfl

/-- C21: in every execution of the goroutines of `Criteria.URLValues`,
`CustomerCriteria.UrlValues`, `SignUpForm.UrlValues` and `OrderCriteria.URLValues`
(every schedule, every moment it reaches): a goroutine whose next step is
`urlValues.Add` or `rwMutex.Unlock` finds the mutex locked; no two goroutines are
between their `Lock` and their `Unlock` at the same time, so the `Add`s exclude each
other; and when the call returns, which is when the last `Wait` is passed, no
goroutine has a step left, the mutex is free and the map returned holds every `Add`:
it is the map of a trace of the work.  There is a schedule on which the call returns,
the one on which every goroutine runs to its end as soon as it is started. -/
theorem adds_are_mutually_exclusive (c : Criteria) (cc : CustomerCriteria) (r : SignUpForm)
    (oc : OrderCriteria) :
    ∀ w ∈ [Criteria.work c, CustomerCriteria.work cc, SignUpForm.work r, OrderCriteria.work oc],
      ∀ (schedule : List (List Bool)) (conf : Conf),
        (Conf.init w).run schedule = some conf →
        (∀ (path : List Bool) (a : Act) (p : Prog), conf.prog.next path = some (a, p) →
          a ≠ Act.lock → conf.locked = true) ∧
        (∀ (path1 path2 : List Bool) (a1 a2 : Act) (p1 p2 : Prog),
          conf.prog.next path1 = some (a1, p1) → conf.prog.next path2 = some (a2, p2) →
          a1 ≠ Act.lock → a2 ≠ Act.lock → path1 = path2) ∧
        (∀ m : Values, conf.returned = some m →
          (∀ path : List Bool, conf.prog.next path = none) ∧ conf.locked = false ∧
          ∃ tr ∈ w.traces, m = Values.ofTrace tr) ∧
        ∃ conf2 : Conf, (Conf.init w).run w.inOrder = some conf2 ∧
          conf2.returned = some (Values.ofTrace w.adds) :=
  fun w _ schedule conf hrun =>
    ⟨(Work.run_safe w schedule conf hrun).1, (Work.run_safe w schedule conf hrun).2.1,
      (Work.run_safe w schedule conf hrun).2.2, Work.run_inOrder w⟩

/-- Witness for C21: for a criteria with two reseller ids, at the moment at which the
goroutine of the second id has passed `Lock` its next step is `Add` and the mutex is
locked; and on the schedule that lets the two goroutines run in turn the call returns
the map with both ids, which is the map of a trace. -/
theorem adds_are_mutually_exclusive_witness :
    ((Conf.init (Criteria.work twoResellers)).run [[false, true, false]] = some lockedMoment ∧
      (lockedMoment.prog.next [false, true, false]).map Prod.fst =
        some (Act.add "reseller-id" "r2") ∧
      lockedMoment.locked = true) ∧
    ((Conf.init (Criteria.work twoResellers)).run inTurn = some finalMoment ∧
      finalMoment.returned = some [("reseller-id", ["r1", "r2"])] ∧
      finalMoment.locked = false ∧
      ∃ tr ∈ (Criteria.work twoResellers).traces,
        [("reseller-id", ["r1", "r2"])] = Values.ofTrace tr) :=
  ⟨⟨by decide, by decide,
      (adds_are_mutually_exclusive twoResellers nanCriteria sampleForm sequenceCriteria
        (Criteria.work twoResellers) (List.mem_cons_self _ _) [[false, true, false]]
        lockedMoment (by decide)).1 [false, true, false]
        ((lockedMoment.prog.next [false, true, false]).getD (Act.lock, Prog.skip)).1
        ((lockedMoment.prog.next [false, true, false]).getD (Act.lock, Prog.skip)).2
        (by decide) (by decide)⟩,
    ⟨by decide, by decide,
      ((adds_are_mutually_exclusive twoResellers nanCriteria sampleForm sequenceCriteria
        (Criteria.work twoResellers) (List.mem_cons_self _ _) inTurn finalMoment
        (by decide)).2.2.1 [("reseller-id", ["r1", "r2"])] (by decide)).2.1,
      ((adds_are_mutually_exclusive twoResellers nanCriteria sampleForm sequenceCriteria
        (Criteria.work twoResellers) (List.mem_cons_self _ _) inTurn finalMoment
        (by decide)).2.2.1 [("reseller-id", ["r1", "r2"])] (by decide)).2.2⟩⟩

end ResellerClub
